import Mathlib

/-!
# Z-wobble compensation (`Marlin/ZWobble.cpp`, `Marlin/ZWobble.h`)

A shallow embedding of the `ZWobble` class.  C `float`s are read as elements of an
ordered field `α` (exact arithmetic); the library `sin` is a parameter of every
operation that rebuilds the table, so that the definitions stay executable over `ℚ`
and the analytic statements can be made over `ℝ` with `Real.sin`.  The loops of
`setPhase`, whose termination rests on the progress of `_phase -= 360`, are embedded a
second time on binary32 numbers (`toFloat32`, `setPhase32`).  The correction path
(`findInLut`, `findZRod`, `InsertCorrection`) is embedded a second time on a compilation
target (`Target`: the rounding of `float` results and the width of `int`), as
`findInLutOn`, `findZRodOn`, `InsertCorrectionOn`; `avr` is the target of the firmware.

The table `zLut[STEPS_IN_ZLUT][2]` is a function from cell index to a pair
`(zLut[i][0], zLut[i][1])`.  The source indexes it with loop variables bounded by
`lutSize` and with a few computed indices (`lutSize-1`, `zPlace`, the scan result of
`findInLut`); for the computed ones the embedding checks the array bounds
`0 ≤ i < STEPS_IN_ZLUT` and returns `none` when the source would read or write outside
the array.  States are taken with `lutSize ≤ STEPS_IN_ZLUT`.
-/

set_option autoImplicit false

/-- The data members of `class ZWobble` (ZWobble.h, lines 131-146). -/
structure ZWobble (α : Type) where
  m_amplitude : α
  m_puls : α
  m_phase : α
  m_consistent : Bool
  lutSize : Nat
  zLut : Nat → α × α
  lastZ : α
  lastZRod : α
  m_scalingFactor : α
  m_sinusoidal : Bool

namespace ZWobble

/-- Table capacity: `#define STEPS_IN_ZLUT 50`. -/
def STEPS_IN_ZLUT : Nat := 50

section Defs

variable {α : Type} [LinearOrderedField α]

/-- Tolerance: `#define TOLERANCE_MM 0.01`. -/
def TOLERANCE_MM : α := 1 / 100

/-- Minimum height: `#define ZWOBBLE_MIN_Z 0.1`. -/
def ZWOBBLE_MIN_Z : α := 1 / 10

/-- Full turn: `#define TWOPI 6.28318530718`. -/
def TWOPI : α := 628318530718 / 100000000000

/-- Half turn of `math.h`: `M_PI = 3.14159265358979323846`. -/
def M_PI : α := 314159265358979323846 / 100000000000000000000

/-- Distance: `#define DISTANCE(_A,_B) abs( (_A) - (_B) )`, with the Arduino
`abs(x) = ((x)>0?(x):-(x))`. -/
def DISTANCE (a b : α) : α := if 0 < a - b then a - b else -(a - b)

/-- Closeness test: `#define EQUAL_WITHIN_TOLERANCE(_A,_B) (DISTANCE(_A,_B) < TOLERANCE_MM)`. -/
def EQUAL_WITHIN_TOLERANCE (a b : α) : Bool := decide (DISTANCE a b < TOLERANCE_MM)

/-- Scaled tag: `#define ZACTUAL_IS_SCALED(_I) (zLut[_I][1] < 0)`. -/
def ZACTUAL_IS_SCALED (s : ZWobble α) (i : Nat) : Bool := decide ((s.zLut i).2 < 0)

/-- Resolved actual value:
`#define ZACTUAL(_I) (zLut[_I][1] < 0 ? -zLut[_I][1] * m_scalingFactor : zLut[_I][1])`. -/
def ZACTUAL (s : ZWobble α) (i : Nat) : α :=
  if (s.zLut i).2 < 0 then -(s.zLut i).2 * s.m_scalingFactor else (s.zLut i).2

/-- Rod position: `#define ZROD(_I) zLut[_I][0]`. -/
def ZROD (s : ZWobble α) (i : Nat) : α := (s.zLut i).1

/-- Store an actual value: `#define SET_ZACTUAL(_I,_V) zLut[_I][1] = _V`. -/
def SET_ZACTUAL (s : ZWobble α) (i : Nat) (v : α) : ZWobble α :=
  { s with zLut := fun j => if j = i then ((s.zLut j).1, v) else s.zLut j }

/-- Store a rod position: `#define SET_ZROD(_I,_V) zLut[_I][0] = _V`. -/
def SET_ZROD (s : ZWobble α) (i : Nat) (v : α) : ZWobble α :=
  { s with zLut := fun j => if j = i then (v, (s.zLut j).2) else s.zLut j }

/-- The loop shape `for (i = i0; i < i0 + n; i++) if (p i) break;`: the first index
in `[i0, i0+n)` on which `p` holds, `none` when the loop runs to its end. -/
def scanFirst (p : Nat → Bool) : Nat → Nat → Option Nat
  | _, 0 => none
  | i, n + 1 => if p i then some i else scanFirst p (i + 1) n

/-- `ZWobble::areParametersConsistent` (ZWobble.cpp, lines 62-78): the returned
boolean and the state with `m_consistent` updated. -/
def areParametersConsistent (s : ZWobble α) : Bool × ZWobble α :=
  if !s.m_sinusoidal then
    (true, { s with m_consistent := true })
  else if s.m_puls ≤ 0 ∨ s.m_amplitude ≤ 0 ∨ s.m_amplitude * s.m_puls ≥ 1 then
    (false, { s with m_consistent := false })
  else
    (true, { s with m_consistent := true })

/-- `ZWobble::initLinearLut` (ZWobble.cpp, lines 213-221). -/
def initLinearLut (s : ZWobble α) : ZWobble α :=
  let period := TWOPI / s.m_puls
  let s := { s with lutSize := 2 }
  let s := SET_ZROD s 0 0
  let s := SET_ZACTUAL s 0 0
  let s := SET_ZROD s 1 period
  SET_ZACTUAL s 1 period

/-- The fill loop of `calculateLut` (lines 240-245), iterations `i = 0 .. n-1`. -/
def lutLoop (sin : α → α) (lutStep : α) : Nat → ZWobble α → ZWobble α
  | 0, s => s
  | n + 1, s =>
    let s := lutLoop sin lutStep n s
    let zRod := lutStep * (n : α)
    let s := SET_ZROD s n zRod
    SET_ZACTUAL s n (zRod + s.m_amplitude * sin (s.m_puls * zRod))

/-- `ZWobble::calculateLut` (ZWobble.cpp, lines 226-246). -/
def calculateLut (sin : α → α) (s : ZWobble α) : ZWobble α :=
  let s := { s with lastZ := -1, lastZRod := -1 }
  let r := areParametersConsistent s
  let s := r.2
  if !r.1 then s
  else if !s.m_sinusoidal then initLinearLut s
  else
    let s := { s with lutSize := STEPS_IN_ZLUT }
    let period := TWOPI / s.m_puls
    let lutStep := period / (STEPS_IN_ZLUT : α)
    lutLoop sin lutStep STEPS_IN_ZLUT s

/-- `ZWobble::setAmplitude` (ZWobble.cpp, lines 248-253). -/
def setAmplitude (sin : α → α) (s : ZWobble α) (_amplitude : α) : ZWobble α :=
  let s := { s with m_amplitude := _amplitude }
  let s := { s with m_sinusoidal := true }
  calculateLut sin s

/-- `ZWobble::setPeriod` (ZWobble.cpp, lines 255-260). -/
def setPeriod (sin : α → α) (s : ZWobble α) (_period : α) : ZWobble α :=
  if _period ≤ 0 then s
  else
    let s := { s with m_puls := TWOPI / _period }
    calculateLut sin s

/-- The shift loop of `insertInLut` (lines 184-188),
`for (i = lutSize; i > zPlace; i--) { zLut[i] = (ZROD(i-1), ZACTUAL(i-1)) }`, started at
`i`.  With `zPlace = -1` the last iteration (`i = 0`) reads `zLut[-1]`: `none`. -/
def shiftLoop (zPlace : Int) : Nat → ZWobble α → Option (ZWobble α)
  | 0, s => if (0 : Int) > zPlace then none else some s
  | i + 1, s =>
    if ((i + 1 : Nat) : Int) > zPlace then
      let s := SET_ZROD s (i + 1) (ZROD s i)
      let s := SET_ZACTUAL s (i + 1) (ZACTUAL s i)
      shiftLoop zPlace i s
    else some s

/-- The nearest-entry loop of `insertInLut` (lines 200-207), iterations
`i .. i+n-1`, carrying `(zPlace, dist)`. -/
def closestLoop (s : ZWobble α) (zRod : α) : Nat → Nat → Nat × α → Nat × α
  | _, 0, acc => acc
  | i, n + 1, acc =>
    closestLoop s zRod (i + 1) n
      (if DISTANCE zRod (ZROD s i) < acc.2 then (i, DISTANCE zRod (ZROD s i)) else acc)

/-- The search for the insertion index of `insertInLut` (lines 173-181): `zPlace`
starts at `-1` and becomes the first `i < lutSize` with `ZROD(i) > zRod`. -/
def findPlace (s : ZWobble α) (zRod : α) : Int :=
  match scanFirst (fun i => decide (ZROD s i > zRod)) 0 s.lutSize with
  | some i => (i : Int)
  | none => -1

/-- `ZWobble::insertInLut` (ZWobble.cpp, lines 154-211).  `none` when the source
indexes `zLut` outside `[0, STEPS_IN_ZLUT)`. -/
def insertInLut (s : ZWobble α) (zRod zActual : α) : Option (ZWobble α) :=
  match scanFirst (fun i => EQUAL_WITHIN_TOLERANCE zRod (ZROD s i)) 0 s.lutSize with
  | some i =>
    let s := SET_ZROD s i zRod
    some (SET_ZACTUAL s i zActual)
  | none =>
    if s.lutSize < STEPS_IN_ZLUT then
      let zPlace : Int := findPlace s zRod
      match shiftLoop zPlace s.lutSize s with
      | none => none
      | some s =>
        let s := { s with lutSize := s.lutSize + 1 }
        if 0 ≤ zPlace then
          let s := SET_ZROD s zPlace.toNat zRod
          some (SET_ZACTUAL s zPlace.toNat zActual)
        else none
    else
      let zPlace := (closestLoop s zRod 1 (s.lutSize - 1) (0, DISTANCE zRod (ZROD s 0))).1
      let s := SET_ZROD s zPlace zRod
      some (SET_ZACTUAL s zPlace zActual)

/-- `ZWobble::setSample` (ZWobble.cpp, lines 132-152). -/
def setSample (sin : α → α) (s : ZWobble α) (zRod zActual : α) : Option (ZWobble α) :=
  if s.m_puls ≤ 0 then some s
  else
    let s := if s.m_sinusoidal then calculateLut sin { s with m_sinusoidal := false } else s
    insertInLut s zRod zActual

/-- The scan of `setScaledSample` (lines 93-99) for the scaled entries `s1`, `s2`
(`-1` when absent), iterations `i .. i+n-1`. -/
def scaledLoop (s : ZWobble α) (period : α) : Nat → Nat → Int × Int → Int × Int
  | _, 0, acc => acc
  | i, n + 1, acc =>
    if ZACTUAL_IS_SCALED s i then
      if ZROD s i ≥ period then (acc.2, (i : Int))
      else scaledLoop s period (i + 1) n (acc.2, (i : Int))
    else scaledLoop s period (i + 1) n acc

/-- The scaling-factor resolution at the end of `setScaledSample` (lines 84-125).
Division is the field division. -/
def resolveScalingFactor (s : ZWobble α) : ZWobble α :=
  let s := if s.m_scalingFactor = 0 then { s with m_scalingFactor := 1 } else s
  let period := TWOPI / s.m_puls
  let r := scaledLoop s period 0 s.lutSize (-1, -1)
  let s1 := r.1
  let s2 := r.2
  if s2 ≥ 0 ∧ ZACTUAL s s2.toNat ≠ 0 then
    if s1 < 0 then
      { s with m_scalingFactor := s.m_scalingFactor * (ZROD s s2.toNat / ZACTUAL s s2.toNat) }
    else if ZROD s s2.toNat > period then
      let gap1 := period - ZROD s s1.toNat
      let gap2 := ZROD s s2.toNat - period
      let zActPeriod := ZACTUAL s s1.toNat
        + (ZACTUAL s s2.toNat - ZACTUAL s s1.toNat) * gap1 / (gap1 + gap2)
      { s with m_scalingFactor := s.m_scalingFactor * (period / zActPeriod) }
    else
      let gap1 := ZROD s s2.toNat - ZROD s s1.toNat
      let gap2 := period - ZROD s s2.toNat
      let zActPeriod := ZACTUAL s s2.toNat
        + (ZACTUAL s s2.toNat - ZACTUAL s s1.toNat) * gap2 / gap1
      { s with m_scalingFactor := s.m_scalingFactor * (period / zActPeriod) }
  else s

/-- `ZWobble::setScaledSample` (ZWobble.cpp, lines 80-126). -/
def setScaledSample (sin : α → α) (s : ZWobble α) (zRod zScaledLength : α) :
    Option (ZWobble α) :=
  match setSample sin s zRod (-zScaledLength) with
  | none => none
  | some s => some (resolveScalingFactor s)

/-- `ZWobble::setScalingFactor` (ZWobble.cpp, lines 128-130). -/
def setScalingFactor (s : ZWobble α) (zActualPerScaledLength : α) : ZWobble α :=
  { s with m_scalingFactor := zActualPerScaledLength }

/-- `ZWobble::findInLut` (ZWobble.cpp, lines 323-349).  `none` when the source reads
`zLut` outside `[0, STEPS_IN_ZLUT)` (`lutSize-1`, `i-1`, `i`) or divides by zero. -/
def findInLut (s : ZWobble α) (z : α) : Option α :=
  if s.lutSize = 0 then none
  else if z ≥ ZACTUAL s (s.lutSize - 1) then some (ZROD s (s.lutSize - 1))
  else if z ≤ ZACTUAL s 0 then some (ZROD s 0)
  else
    let i : Nat :=
      match scanFirst (fun i => decide (ZACTUAL s i > z)) 0 s.lutSize with
      | some i => i
      | none => s.lutSize
    if i = 0 ∨ STEPS_IN_ZLUT ≤ i then none
    else if ZACTUAL s i - ZACTUAL s (i - 1) = 0 then none
    else
      let invZDist := 1 / (ZACTUAL s i - ZACTUAL s (i - 1))
      let interpZ :=
        (ZROD s (i - 1) * (ZACTUAL s i - z) + ZROD s i * (z - ZACTUAL s (i - 1))) * invZDist
      some interpZ

/-- The cycle search of `findZRod` (lines 358-361),
`while (identicalZ <= z) identicalZ = (TWOPI*(++nCycle)-m_phase)/m_puls;`, with a bound
`fuel` on the number of iterations: `none` when the bound is reached.  The counter is
unbounded here; `cycleLoopOn` is the same loop with the wrapping `int nCycle` of the
source, and agrees with this one while the count stays in the range of `int`
(`cycleLoopOn_exact`). -/
def cycleLoop (s : ZWobble α) (z : α) : Nat → Nat → α → Option Nat
  | 0, nCycle, identicalZ => if identicalZ ≤ z then none else some nCycle
  | fuel + 1, nCycle, identicalZ =>
    if identicalZ ≤ z then
      cycleLoop s z fuel (nCycle + 1) ((TWOPI * ((nCycle + 1 : Nat) : α) - s.m_phase) / s.m_puls)
    else some nCycle

/-- `ZWobble::findZRod` (ZWobble.cpp, lines 352-371).  `none` when `m_puls` is zero,
when the cycle search exceeds `fuel` iterations, or when `findInLut` fails. -/
def findZRod (fuel : Nat) (s : ZWobble α) (z : α) : Option α :=
  if s.m_puls = 0 then none
  else
    match cycleLoop s z fuel 0 (-s.m_phase / s.m_puls) with
    | none => none
    | some nCycle =>
      let identicalZ := (TWOPI * (((nCycle : Int) - 1 : Int) : α) - s.m_phase) / s.m_puls
      let deltaZa := z - identicalZ
      match findInLut s deltaZa with
      | none => none
      | some deltaZrod => some (identicalZ + deltaZrod)

end Defs

section FloorDefs

variable {α : Type} [LinearOrderedField α]

/-- C `lround`: nearest integer, halves away from zero. -/
def lround [FloorRing α] (x : α) : Int := if 0 ≤ x then ⌊x + 1 / 2⌋ else -⌊-x + 1 / 2⌋

/-- First loop of `setPhase` (lines 265-268): `while (_phase > 0) _phase -= 360;`. -/
def phaseDown [FloorRing α] (x : α) : α := if 0 < x then phaseDown (x - 360) else x
termination_by Int.toNat ⌈x / 360⌉
decreasing_by
  have h1 : (x - 360) / 360 = x / 360 - 1 := by ring
  have h2 : 0 < x / 360 := by positivity
  have h3 : 0 < ⌈x / 360⌉ := Int.ceil_pos.mpr h2
  rw [h1, Int.ceil_sub_one]
  omega

/-- Second loop of `setPhase` (lines 269-272): `while (_phase < 0) _phase += 360;`. -/
def phaseUp [FloorRing α] (x : α) : α := if x < 0 then phaseUp (x + 360) else x
termination_by Int.toNat ⌈-x / 360⌉
decreasing_by
  have h1 : -(x + 360) / 360 = -x / 360 - 1 := by ring
  have h2 : 0 < -x / 360 := by
    have : 0 < -x := by linarith
    positivity
  have h3 : 0 < ⌈-x / 360⌉ := Int.ceil_pos.mpr h2
  rw [h1, Int.ceil_sub_one]
  omega

/-- `ZWobble::setPhase` (ZWobble.cpp, lines 262-277). -/
def setPhase [FloorRing α] (s : ZWobble α) (_phase : α) : ZWobble α :=
  let _phase := phaseDown _phase
  let _phase := phaseUp _phase
  { s with m_phase := _phase * M_PI / 180 }

/-- `ZWobble::Set` (ZWobble.cpp, lines 55-60). -/
def Set [FloorRing α] (sin : α → α) (s : ZWobble α) (_amplitude _period _phase : α) :
    ZWobble α :=
  let s := setAmplitude sin s _amplitude
  let s := setPeriod sin s _period
  setPhase s _phase

/-- The constructor `ZWobble::ZWobble` (ZWobble.cpp, lines 44-52), run on the storage
`raw` of the object. -/
def construct [FloorRing α] (sin : α → α) (raw : ZWobble α) (_amplitude _period _phase : α) :
    ZWobble α :=
  let s := { raw with m_consistent := false, lastZ := -1, lastZRod := -1,
                      m_scalingFactor := 1, m_sinusoidal := true }
  Set sin s _amplitude _period _phase

/-- Zero-initialised static storage of the global object. -/
def zeroStorage : ZWobble α :=
  { m_amplitude := 0, m_puls := 0, m_phase := 0, m_consistent := false, lutSize := 0,
    zLut := fun _ => (0, 0), lastZ := 0, lastZRod := 0, m_scalingFactor := 0,
    m_sinusoidal := false }

/-- The global instance `ZWobble zwobble(0.0,0.0,0.0);` (ZWobble.cpp, line 40). -/
def zwobble [FloorRing α] (sin : α → α) : ZWobble α := construct sin zeroStorage 0 0 0

/-- `ZWobble::InsertCorrection` (ZWobble.cpp, lines 375-437) with `ZWOBBLE_USE_FAKEPOS`
defined.  `position` is `position[Z_AXIS]`, `axis_steps_per_unit` is
`axis_steps_per_unit[Z_AXIS]`.  The result is `(returned stepDiff, position[Z_AXIS]
afterwards, object afterwards)`; `none` when `axis_steps_per_unit` is zero or a
`findZRod` call fails.  The arithmetic is exact; `InsertCorrectionOn` is the same function
with the `float` results rounded. -/
def InsertCorrection [FloorRing α] (fuel : Nat) (s : ZWobble α) (position : Int)
    (axis_steps_per_unit targetZ : α) : Option (Int × Int × ZWobble α) :=
  if !s.m_consistent then some (0, position, s)
  else if axis_steps_per_unit = 0 then none
  else
    let originZ := (position : α) / axis_steps_per_unit
    if originZ < ZWOBBLE_MIN_Z ∨ targetZ < ZWOBBLE_MIN_Z then some (0, position, s)
    else if EQUAL_WITHIN_TOLERANCE originZ targetZ then some (0, position, s)
    else
      match (if originZ = s.lastZ then some s.lastZRod else findZRod fuel s originZ) with
      | none => none
      | some originZRod =>
        match findZRod fuel s targetZ with
        | none => none
        | some targetZRod =>
          let stepDiff : Int :=
            lround ((targetZRod - originZRod) * axis_steps_per_unit)
              - (lround (targetZ * axis_steps_per_unit) - position)
          let s := { s with lastZ := targetZ, lastZRod := targetZRod }
          if position - stepDiff < 0 then some (0, position, s)
          else some (stepDiff, position - stepDiff, s)

/-- A call of one of the public mutators of the class. -/
inductive Op (α : Type) where
  | setAmplitude (a : α)
  | setPeriod (p : α)
  | setPhase (d : α)
  | setSample (zRod zActual : α)
  | setScaledSample (zRod zScaledLength : α)
  | setScalingFactor (f : α)

/-- Perform one mutator call. -/
def step [FloorRing α] (sin : α → α) (s : ZWobble α) : Op α → Option (ZWobble α)
  | .setAmplitude a => some (setAmplitude sin s a)
  | .setPeriod p => some (setPeriod sin s p)
  | .setPhase d => some (setPhase s d)
  | .setSample r a => setSample sin s r a
  | .setScaledSample r l => setScaledSample sin s r l
  | .setScalingFactor f => some (setScalingFactor s f)

/-- Perform a sequence of mutator calls, left to right. -/
def run [FloorRing α] (sin : α → α) (s : ZWobble α) : List (Op α) → Option (ZWobble α)
  | [] => some s
  | op :: ops =>
    match step sin s op with
    | none => none
    | some s => run sin s ops

end FloorDefs

section SpecDefs

variable {α : Type} [LinearOrderedField α]

/-- The consistency flag agrees with the model parameters, and a sampled model has a
positive pulsation. -/
def FlagInv (s : ZWobble α) : Prop :=
  (s.m_consistent = true ↔
    (s.m_sinusoidal = false ∨
      (0 < s.m_puls ∧ 0 < s.m_amplitude ∧ s.m_amplitude * s.m_puls < 1))) ∧
  (s.m_sinusoidal = false → 0 < s.m_puls)

/-- A consistent object holds a table of 2 to `STEPS_IN_ZLUT` entries. -/
def SizeInv (s : ZWobble α) : Prop :=
  s.m_consistent = true → 2 ≤ s.lutSize ∧ s.lutSize ≤ STEPS_IN_ZLUT

/-- The cycle origins of `findZRod`, `(TWOPI*k - m_phase)/m_puls` (lines 357-364). -/
def cycleOrigin (s : ZWobble α) (k : Int) : α := (TWOPI * (k : α) - s.m_phase) / s.m_puls

/-- A sinusoidal-mode object with amplitude `a` and pulsation `w`, before its table is
built. -/
def sineModel (a w : α) : ZWobble α :=
  { m_amplitude := a, m_puls := w, m_phase := 0, m_consistent := false, lutSize := 0,
    zLut := fun _ => (0, 0), lastZ := -1, lastZRod := -1, m_scalingFactor := 1,
    m_sinusoidal := true }

/-- A sampled-mode object with period 1 (`m_puls = TWOPI`), phase 0, a cleared cache,
scaling factor 1 and the given table. -/
def sampledUnit (t : Nat → α × α) (n : Nat) : ZWobble α :=
  { m_amplitude := 0, m_puls := TWOPI, m_phase := 0, m_consistent := true, lutSize := n,
    zLut := t, lastZ := -1, lastZRod := -1, m_scalingFactor := 1, m_sinusoidal := false }

/-- A table given by its first three cells, zero elsewhere. -/
def table3 (c0 c1 c2 : α × α) : Nat → α × α :=
  fun i => if i = 0 then c0 else if i = 1 then c1 else if i = 2 then c2 else (0, 0)

/-- The table `{(0,0),(0.5,0.6),(1,1)}` of the sampling scenario, over the rationals. -/
def scenarioState : ZWobble ℚ :=
  sampledUnit (table3 (0, 0) (1 / 2, 3 / 5) (1, 1)) 3

/-- A table `{(0,0),(0.8,0.2),(1,1)}` whose rod rises steeply against the actual height,
over the rationals: the state after `setPeriod(1.0)`, `setSample(0.0, 0.0)`,
`setSample(0.8, 0.2)`. -/
def steepState : ZWobble ℚ :=
  sampledUnit (table3 (0, 0) (4 / 5, 1 / 5) (1, 1)) 3

/-- No two stored rod positions are within `TOLERANCE_MM` of each other. -/
def TolSeparated (s : ZWobble α) : Prop :=
  ∀ i j, i < s.lutSize → j < s.lutSize → i ≠ j →
    EQUAL_WITHIN_TOLERANCE (ZROD s i) (ZROD s j) = false

/-- The table is strictly ascending by rod position. -/
def RodAscending (s : ZWobble α) : Prop :=
  ∀ i j, i < j → j < s.lutSize → ZROD s i < ZROD s j

/-- A full table of identity samples: rods `0, 0.012, ..., 0.576` in cells `0..48` and
the identity end point `(1, 1)` in cell 49, as left by `setPeriod(1.0)`,
`setSample(0.0, 0.0)` and `setSample(0.012*i, 0.012*i)` for `i = 1 .. 48`. -/
def denseTable : Nat → ℚ × ℚ :=
  fun i =>
    if i < 49 then (3 / 250 * (i : ℚ), 3 / 250 * (i : ℚ))
    else if i = 49 then (1, 1) else (0, 0)

/-- The sampled object holding `denseTable`. -/
def denseState : ZWobble ℚ := sampledUnit denseTable 50

/-- The table `{(0,0),(0.988,0.988),(1,1)}`: the state after `setPeriod(1.0)`,
`setSample(0.0, 0.0)`, `setSample(0.988, 0.988)`. -/
def closePairState : ZWobble ℚ :=
  sampledUnit (table3 (0, 0) (247 / 250, 247 / 250) (1, 1)) 3

/-- The 2-point identity table `{(0,0),(1,1)}`: the state after `setPeriod(1.0)`,
`setSample(0.0, 0.0)`. -/
def identityState : ZWobble ℚ :=
  sampledUnit (table3 (0, 0) (1, 1) (0, 0)) 2

/-- The steep table with the cache left by `InsertCorrection(0.5)` issued at step
position 1 with 10 steps per mm: `(lastZ, lastZRod) = (0.5, 0.875)`. -/
def cachedState : ZWobble ℚ :=
  { steepState with lastZ := 1 / 2, lastZRod := 7 / 8 }

/-- The object `cachedState` after `setPhase(180)`. -/
def phasedState : ZWobble ℚ :=
  { cachedState with m_phase := M_PI }

/-- The object after `setPeriod(1.0)`, `setScaledSample(0.5, 3.0)`: the scaled sample is
stored as `(0.5, -3)` and the scaling factor is resolved to `1/6`. -/
def scaledState : ZWobble ℚ :=
  { sampledUnit (table3 (0, 0) (1 / 2, -3) (1, 1)) 3 with m_scalingFactor := 1 / 6 }

/-- The object `phasedState` with the cache left by `InsertCorrection(0.6)`. -/
def recachedState : ZWobble ℚ :=
  { phasedState with
    lastZ := 3 / 5, lastZRod := 282743338823068985769 / 314159265359000000000 }

/-- The scaled entries `(s1, s2)` selected by `setScaledSample` (lines 89-99), `-1` when
absent. -/
def scaledPair (s : ZWobble α) : Int × Int :=
  scaledLoop s (TWOPI / s.m_puls) 0 s.lutSize (-1, -1)

/-- The straight line through the table points `i` and `j` (rod, resolved actual),
evaluated at rod position `x`. -/
def lineAt (s : ZWobble α) (i j : Nat) (x : α) : α :=
  ZACTUAL s i + (ZACTUAL s j - ZACTUAL s i) * (x - ZROD s i) / (ZROD s j - ZROD s i)

/-- The freshly initialised 2-point identity table `{(0,0),(period,period)}` of a
sampled-mode object (the result of `initLinearLut`) with a cleared cache. -/
def FreshIdentity (s : ZWobble α) : Prop :=
  s.m_consistent = true ∧ s.m_sinusoidal = false ∧ 0 < s.m_puls ∧ s.lutSize = 2 ∧
    s.zLut 0 = (0, 0) ∧ s.zLut 1 = (TWOPI / s.m_puls, TWOPI / s.m_puls) ∧
    s.lastZ = -1 ∧ s.lastZRod = -1

/-- The identity table with the cache left by `InsertCorrection(0.25)`. -/
def identityCached : ZWobble ℚ :=
  { identityState with lastZ := 1 / 4, lastZRod := 1 / 4 }

/-- Round to the nearest integer, ties to even. -/
def roundEven (q : ℚ) : Int :=
  if q - ⌊q⌋ < 1 / 2 then ⌊q⌋
  else if 1 / 2 < q - ⌊q⌋ then ⌊q⌋ + 1
  else if ⌊q⌋ % 2 = 0 then ⌊q⌋ else ⌊q⌋ + 1

/-- The binary32 value of a rational: round to nearest, ties to even, on the 24-bit
significand of `float` (on the AVR target of the firmware `float` and `double` are both
binary32).  The exponent range is not bounded: overflow and subnormals are not modelled. -/
def toFloat32 (x : ℚ) : ℚ :=
  if x = 0 then 0
  else roundEven (x / 2 ^ (Int.log 2 |x| - 23)) * 2 ^ (Int.log 2 |x| - 23)

/-- The first loop of `ZWobble::setPhase` (ZWobble.cpp, lines 265-268) on `float`:
`while (_phase > 0) _phase -= 360;`.  `none` when the loop is still running after `fuel`
iterations. -/
def phaseDown32 : Nat → ℚ → Option ℚ
  | 0, x => if 0 < x then none else some x
  | fuel + 1, x => if 0 < x then phaseDown32 fuel (toFloat32 (x - 360)) else some x

/-- The second loop of `ZWobble::setPhase` (lines 269-272) on `float`:
`while (_phase < 0) _phase += 360;`. -/
def phaseUp32 : Nat → ℚ → Option ℚ
  | 0, x => if x < 0 then none else some x
  | fuel + 1, x => if x < 0 then phaseUp32 fuel (toFloat32 (x + 360)) else some x

/-- `ZWobble::setPhase` (ZWobble.cpp, lines 262-277) on `float`: every operation is
rounded to binary32. -/
def setPhase32 (fuel : Nat) (s : ZWobble ℚ) (_phase : ℚ) : Option (ZWobble ℚ) :=
  match phaseDown32 fuel _phase with
  | none => none
  | some x =>
    match phaseUp32 fuel x with
    | none => none
    | some y => some { s with m_phase := toFloat32 (toFloat32 (y * toFloat32 M_PI) / 180) }

/-- The arithmetic of a compilation target: the rounding `fl` applied to the result of
every `float` operation and conversion, and the width of `int`. -/
structure Target where
  fl : ℚ → ℚ
  intBits : Nat

/-- The AVR target of the firmware: `float` and `double` are both binary32 and `int` has
16 bits. -/
def avr : Target := { fl := toFloat32, intBits := 16 }

/-- Exact arithmetic on heights with the `int` width of the given target. -/
def exactInt (bits : Nat) : Target := { fl := fun x => x, intBits := bits }

/-- The value of an `int` of the given width after an increment or decrement:
two's-complement wrap-around. -/
def wrapInt (bits : Nat) (n : Int) : Int :=
  (n + 2 ^ (bits - 1)) % 2 ^ bits - 2 ^ (bits - 1)

/-- `ZACTUAL(_I)` on a target: the product that resolves a scaled entry is rounded. -/
def ZACTUALOn (t : Target) (s : ZWobble ℚ) (i : Nat) : ℚ :=
  if (s.zLut i).2 < 0 then t.fl (-(s.zLut i).2 * s.m_scalingFactor) else (s.zLut i).2

/-- `ZWobble::findInLut` (ZWobble.cpp, lines 323-349) on a target: every `float`
operation is rounded.  `none` as in `findInLut`. -/
def findInLutOn (t : Target) (s : ZWobble ℚ) (z : ℚ) : Option ℚ :=
  if s.lutSize = 0 then none
  else if z ≥ ZACTUALOn t s (s.lutSize - 1) then some (ZROD s (s.lutSize - 1))
  else if z ≤ ZACTUALOn t s 0 then some (ZROD s 0)
  else
    let i : Nat :=
      match scanFirst (fun i => decide (ZACTUALOn t s i > z)) 0 s.lutSize with
      | some i => i
      | none => s.lutSize
    if i = 0 ∨ STEPS_IN_ZLUT ≤ i then none
    else if t.fl (ZACTUALOn t s i - ZACTUALOn t s (i - 1)) = 0 then none
    else
      let invZDist := t.fl (1 / t.fl (ZACTUALOn t s i - ZACTUALOn t s (i - 1)))
      let interpZ :=
        t.fl (t.fl (t.fl (ZROD s (i - 1) * t.fl (ZACTUALOn t s i - z))
          + t.fl (ZROD s i * t.fl (z - ZACTUALOn t s (i - 1)))) * invZDist)
      some interpZ

/-- The value `(TWOPI*n - m_phase)/m_puls` of lines 360 and 364 on a target, for the
`int` value `n`. -/
def identicalZOn (t : Target) (s : ZWobble ℚ) (n : Int) : ℚ :=
  t.fl (t.fl (t.fl (t.fl TWOPI * t.fl (n : ℚ)) - s.m_phase) / s.m_puls)

/-- The cycle search of `findZRod` (lines 358-361) on a target,
`while (identicalZ <= z) identicalZ = (TWOPI*(++nCycle)-m_phase)/m_puls;`, with the
counter `int nCycle` wrapping at the width of `int`.  `none` when the loop is still
running after `fuel` iterations. -/
def cycleLoopOn (t : Target) (s : ZWobble ℚ) (z : ℚ) : Nat → Int → ℚ → Option Int
  | 0, nCycle, identicalZ => if identicalZ ≤ z then none else some nCycle
  | fuel + 1, nCycle, identicalZ =>
    if identicalZ ≤ z then
      cycleLoopOn t s z fuel (wrapInt t.intBits (nCycle + 1))
        (identicalZOn t s (wrapInt t.intBits (nCycle + 1)))
    else some nCycle

/-- `ZWobble::findZRod` (ZWobble.cpp, lines 352-371) on a target. -/
def findZRodOn (t : Target) (fuel : Nat) (s : ZWobble ℚ) (z : ℚ) : Option ℚ :=
  if s.m_puls = 0 then none
  else
    match cycleLoopOn t s z fuel 0 (t.fl (-s.m_phase / s.m_puls)) with
    | none => none
    | some nCycle =>
      let identicalZ := identicalZOn t s (wrapInt t.intBits (nCycle - 1))
      let deltaZa := t.fl (z - identicalZ)
      match findInLutOn t s deltaZa with
      | none => none
      | some deltaZrod => some (t.fl (identicalZ + deltaZrod))

/-- `DISTANCE(_A,_B)` on a target: `abs` of the rounded difference. -/
def DISTANCEOn (t : Target) (a b : ℚ) : ℚ :=
  if 0 < t.fl (a - b) then t.fl (a - b) else -t.fl (a - b)

/-- `ZWobble::InsertCorrection` (ZWobble.cpp, lines 375-433) on a target: the conversion
of `position[Z_AXIS]`, the division by `axis_steps_per_unit[Z_AXIS]` (line 380), the
difference and the products of line 415 and the constants are rounded; the `long`
arithmetic on the step position is exact.  The arguments and result are those of
`InsertCorrection`. -/
def InsertCorrectionOn (t : Target) (fuel : Nat) (s : ZWobble ℚ) (position : Int)
    (axis_steps_per_unit targetZ : ℚ) : Option (Int × Int × ZWobble ℚ) :=
  if !s.m_consistent then some (0, position, s)
  else if axis_steps_per_unit = 0 then none
  else
    let originZ := t.fl (t.fl (position : ℚ) / axis_steps_per_unit)
    if originZ < t.fl ZWOBBLE_MIN_Z ∨ targetZ < t.fl ZWOBBLE_MIN_Z then some (0, position, s)
    else if DISTANCEOn t originZ targetZ < t.fl TOLERANCE_MM then some (0, position, s)
    else
      match (if originZ = s.lastZ then some s.lastZRod else findZRodOn t fuel s originZ) with
      | none => none
      | some originZRod =>
        match findZRodOn t fuel s targetZ with
        | none => none
        | some targetZRod =>
          let stepDiff : Int :=
            lround (t.fl (t.fl (targetZRod - originZRod) * axis_steps_per_unit))
              - (lround (t.fl (targetZ * axis_steps_per_unit)) - position)
          let s := { s with lastZ := targetZ, lastZRod := targetZRod }
          if position - stepDiff < 0 then some (0, position, s)
          else some (stepDiff, position - stepDiff, s)

/-- The object after `setPeriod(1.0)`, `setSample(0.0, 0.0)` on the AVR target: `m_puls`
is the binary32 value of `TWOPI`, and the period `TWOPI/m_puls` stored in the table is 1. -/
def identityState32 : ZWobble ℚ :=
  { identityState with m_puls := toFloat32 TWOPI }

/-- The object `identityState32` with the cache left by `InsertCorrection(0.25)`. -/
def identityCached32 : ZWobble ℚ :=
  { identityState32 with lastZ := 1 / 4, lastZRod := 1 / 4 }

/-- The object after `setPeriod(0.001)`, `setSample(0.0, 0.0)`: the 2-point identity
table of period 0.001. -/
def finePitchState : ZWobble ℚ :=
  { sampledUnit (table3 (0, 0) (1 / 1000, 1 / 1000) (0, 0)) 2 with
    m_puls := TWOPI / (1 / 1000) }

/-- The object `scaledState` after the `setSample(1.0, -4.0)` inside
`setScaledSample(1.0, 4.0)`: two scaled entries, the scaling factor still `1/6`. -/
def pairState : ZWobble ℚ :=
  { sampledUnit (table3 (0, 0) (1 / 2, -3) (1, -4)) 3 with m_scalingFactor := 1 / 6 }

end SpecDefs

end ZWobble

/-! ## Auxiliary lemmas -/

set_option linter.unusedSectionVars false

namespace ZWobble

section Basic
variable {α : Type} [LinearOrderedField α]

theorem DISTANCE_eq_abs (a b : α) : DISTANCE a b = |a - b| := by
  unfold DISTANCE
  split_ifs with h
  · exact (abs_of_pos h).symm
  · exact (abs_of_nonpos (not_lt.mp h)).symm

theorem EQUAL_WITHIN_TOLERANCE_iff (a b : α) :
    EQUAL_WITHIN_TOLERANCE a b = true ↔ |a - b| < 1 / 100 := by
  simp [EQUAL_WITHIN_TOLERANCE, DISTANCE_eq_abs, TOLERANCE_MM]

/-- Specification of the break-on-first-hit loop: a hit. -/
theorem scanFirst_eq_some {p : Nat → Bool} {i n k : Nat} (h : scanFirst p i n = some k) :
    i ≤ k ∧ k < i + n ∧ p k = true ∧ ∀ j, i ≤ j → j < k → p j = false := by
  induction n generalizing i with
  | zero => simp [scanFirst] at h
  | succ n ih =>
    rw [scanFirst] at h
    by_cases hp : p i = true
    · rw [if_pos hp] at h
      obtain rfl : i = k := by simpa using h
      exact ⟨le_refl _, by omega, hp, fun j h1 h2 => absurd h2 (by omega)⟩
    · rw [if_neg hp] at h
      obtain ⟨h1, h2, h3, h4⟩ := ih h
      refine ⟨by omega, by omega, h3, fun j hj1 hj2 => ?_⟩
      by_cases hji : j = i
      · subst hji; simpa using hp
      · exact h4 j (by omega) hj2

/-- Specification of the break-on-first-hit loop: no hit. -/
theorem scanFirst_eq_none {p : Nat → Bool} {i n : Nat} (h : scanFirst p i n = none) :
    ∀ j, i ≤ j → j < i + n → p j = false := by
  induction n generalizing i with
  | zero => intro j h1 h2; omega
  | succ n ih =>
    rw [scanFirst] at h
    by_cases hp : p i = true
    · rw [if_pos hp] at h; simp at h
    · rw [if_neg hp] at h
      intro j hj1 hj2
      by_cases hji : j = i
      · subst hji; simpa using hp
      · exact ih h j (by omega) (by omega)

/-- A hit exists whenever some index in range satisfies the test. -/
theorem scanFirst_isSome {p : Nat → Bool} {i n j : Nat} (h1 : i ≤ j) (h2 : j < i + n)
    (hp : p j = true) : ∃ k, scanFirst p i n = some k := by
  cases h : scanFirst p i n with
  | some k => exact ⟨k, rfl⟩
  | none =>
    have := scanFirst_eq_none h j h1 h2
    rw [hp] at this
    cases this

@[simp]
theorem SET_ZROD_zLut (s : ZWobble α) (i : Nat) (v : α) (j : Nat) :
    (SET_ZROD s i v).zLut j = if j = i then (v, (s.zLut j).2) else s.zLut j := rfl

@[simp]
theorem SET_ZACTUAL_zLut (s : ZWobble α) (i : Nat) (v : α) (j : Nat) :
    (SET_ZACTUAL s i v).zLut j = if j = i then ((s.zLut j).1, v) else s.zLut j := rfl

/-- Writing a table cell only changes the table. -/
theorem SET_ZROD_eq (s : ZWobble α) (i : Nat) (v : α) :
    SET_ZROD s i v = { s with zLut := (SET_ZROD s i v).zLut } := rfl

theorem SET_ZACTUAL_eq (s : ZWobble α) (i : Nat) (v : α) :
    SET_ZACTUAL s i v = { s with zLut := (SET_ZACTUAL s i v).zLut } := rfl

/-- The shift loop only changes the table. -/
theorem shiftLoop_frame (zPlace : Int) (i : Nat) (s s' : ZWobble α)
    (h : shiftLoop zPlace i s = some s') : s' = { s with zLut := s'.zLut } := by
  induction i generalizing s with
  | zero =>
    rw [shiftLoop] at h
    split_ifs at h
    cases h; rfl
  | succ i ih =>
    rw [shiftLoop] at h
    split_ifs at h
    · have := ih _ h
      rw [this]
      rfl
    · cases h; rfl

/-- First branch of `insertInLut`: an entry within tolerance is replaced in place. -/
theorem insertInLut_replace (s : ZWobble α) (zRod zActual : α) (i : Nat)
    (h : scanFirst (fun i => EQUAL_WITHIN_TOLERANCE zRod (ZROD s i)) 0 s.lutSize = some i) :
    insertInLut s zRod zActual = some (SET_ZACTUAL (SET_ZROD s i zRod) i zActual) := by
  unfold insertInLut
  rw [h]

/-- Second branch of `insertInLut`: ordered insertion with spare capacity. -/
theorem insertInLut_spare (s : ZWobble α) (zRod zActual : α)
    (h : scanFirst (fun i => EQUAL_WITHIN_TOLERANCE zRod (ZROD s i)) 0 s.lutSize = none)
    (hlt : s.lutSize < STEPS_IN_ZLUT) :
    insertInLut s zRod zActual =
      (shiftLoop (findPlace s zRod) s.lutSize s).bind (fun s1 =>
        if 0 ≤ findPlace s zRod then
          some (SET_ZACTUAL (SET_ZROD { s1 with lutSize := s1.lutSize + 1 }
            (findPlace s zRod).toNat zRod) (findPlace s zRod).toNat zActual)
        else none) := by
  unfold insertInLut
  rw [h]
  simp only [if_pos hlt]
  cases shiftLoop (findPlace s zRod) s.lutSize s <;> rfl

/-- Third branch of `insertInLut`: at capacity the nearest entry is overwritten. -/
theorem insertInLut_full (s : ZWobble α) (zRod zActual : α)
    (h : scanFirst (fun i => EQUAL_WITHIN_TOLERANCE zRod (ZROD s i)) 0 s.lutSize = none)
    (hge : ¬ s.lutSize < STEPS_IN_ZLUT) :
    insertInLut s zRod zActual =
      some (SET_ZACTUAL (SET_ZROD s
        (closestLoop s zRod 1 (s.lutSize - 1) (0, DISTANCE zRod (ZROD s 0))).1 zRod)
        (closestLoop s zRod 1 (s.lutSize - 1) (0, DISTANCE zRod (ZROD s 0))).1 zActual) := by
  unfold insertInLut
  rw [h]
  simp only [if_neg hge]

/-- An insertion only changes the table and its size. -/
theorem insertInLut_frame (s s' : ZWobble α) (zRod zActual : α)
    (h : insertInLut s zRod zActual = some s') :
    s' = { s with zLut := s'.zLut, lutSize := s'.lutSize } := by
  cases hscan : scanFirst (fun i => EQUAL_WITHIN_TOLERANCE zRod (ZROD s i)) 0 s.lutSize with
  | some i =>
    rw [insertInLut_replace s zRod zActual i hscan] at h
    cases h; rfl
  | none =>
    by_cases hlt : s.lutSize < STEPS_IN_ZLUT
    · rw [insertInLut_spare s zRod zActual hscan hlt] at h
      cases hsh : shiftLoop (findPlace s zRod) s.lutSize s with
      | none => rw [hsh] at h; cases h
      | some s1 =>
        rw [hsh] at h
        have := shiftLoop_frame _ _ _ _ hsh
        simp only [Option.some_bind] at h
        split_ifs at h
        cases h
        rw [this]
        rfl
    · rw [insertInLut_full s zRod zActual hscan hlt] at h
      cases h; rfl

end Basic

section Fill
variable {α : Type} [LinearOrderedField α]

theorem TWOPI_pos : (0 : α) < TWOPI := by unfold TWOPI; positivity

/-- The fill loop only changes the table. -/
theorem lutLoop_frame (sin : α → α) (lutStep : α) (n : Nat) (s : ZWobble α) :
    lutLoop sin lutStep n s = { s with zLut := (lutLoop sin lutStep n s).zLut } := by
  induction n with
  | zero => rfl
  | succ n ih =>
    rw [lutLoop]
    generalize lutLoop sin lutStep n s = t at ih ⊢
    rw [ih]
    rfl

/-- Closed form of the table written by the fill loop. -/
theorem lutLoop_zLut (sin : α → α) (lutStep : α) (n : Nat) (s : ZWobble α) (j : Nat) :
    (lutLoop sin lutStep n s).zLut j =
      if j < n then
        (lutStep * (j : α), lutStep * (j : α) + s.m_amplitude * sin (s.m_puls * (lutStep * (j : α))))
      else s.zLut j := by
  induction n with
  | zero => simp [lutLoop]
  | succ n ih =>
    rw [lutLoop]
    have hf := lutLoop_frame sin lutStep n s
    generalize lutLoop sin lutStep n s = t at ih hf ⊢
    have h1 : t.m_amplitude = s.m_amplitude := by rw [hf]
    have h2 : t.m_puls = s.m_puls := by rw [hf]
    simp only [SET_ZACTUAL_zLut, SET_ZROD_zLut]
    by_cases hjn : j = n
    · subst hjn
      simp [SET_ZROD, h1, h2]
    · rw [if_neg hjn, if_neg hjn, ih]
      by_cases hlt : j < n
      · rw [if_pos hlt, if_pos (by omega)]
      · rw [if_neg hlt, if_neg (by omega)]

/-- The rebuild of a consistent sinusoidal model is the fill loop over all cells. -/
theorem calculateLut_sinusoidal (sin : α → α) (s : ZWobble α) (hsin : s.m_sinusoidal = true)
    (ha : 0 < s.m_amplitude) (hw : 0 < s.m_puls) (haw : s.m_amplitude * s.m_puls < 1) :
    calculateLut sin s =
      lutLoop sin (TWOPI / s.m_puls / (STEPS_IN_ZLUT : α)) STEPS_IN_ZLUT
        { s with lastZ := -1, lastZRod := -1, m_consistent := true,
                 lutSize := STEPS_IN_ZLUT } := by
  unfold calculateLut areParametersConsistent
  have hc : ¬ (s.m_puls ≤ 0 ∨ s.m_amplitude ≤ 0 ∨ s.m_amplitude * s.m_puls ≥ 1) := by
    push_neg
    exact ⟨hw, ha, haw⟩
  simp [hsin, hc]

/-- Cells of the table rebuilt for a consistent sinusoidal model. -/
theorem calculateLut_sinusoidal_cell (sin : α → α) (s : ZWobble α)
    (hsin : s.m_sinusoidal = true) (ha : 0 < s.m_amplitude) (hw : 0 < s.m_puls)
    (haw : s.m_amplitude * s.m_puls < 1) (j : Nat) (hj : j < STEPS_IN_ZLUT) :
    (calculateLut sin s).zLut j =
      (TWOPI / s.m_puls / (STEPS_IN_ZLUT : α) * (j : α),
        TWOPI / s.m_puls / (STEPS_IN_ZLUT : α) * (j : α)
          + s.m_amplitude * sin (s.m_puls * (TWOPI / s.m_puls / (STEPS_IN_ZLUT : α) * (j : α)))) := by
  rw [calculateLut_sinusoidal sin s hsin ha hw haw, lutLoop_zLut, if_pos hj]

/-- Size of the table rebuilt for a consistent sinusoidal model. -/
theorem calculateLut_sinusoidal_size (sin : α → α) (s : ZWobble α)
    (hsin : s.m_sinusoidal = true) (ha : 0 < s.m_amplitude) (hw : 0 < s.m_puls)
    (haw : s.m_amplitude * s.m_puls < 1) :
    (calculateLut sin s).lutSize = STEPS_IN_ZLUT := by
  rw [calculateLut_sinusoidal sin s hsin ha hw haw, lutLoop_frame]

end Fill

section Sine

/-- The sine is 1-Lipschitz. -/
theorem abs_sin_sub_sin_le (u v : ℝ) : |Real.sin u - Real.sin v| ≤ |u - v| := by
  rw [Real.sin_sub_sin, abs_mul, abs_mul]
  have h1 : |Real.sin ((u - v) / 2)| ≤ |(u - v) / 2| := Real.abs_sin_le_abs
  have h2 : |Real.cos ((u + v) / 2)| ≤ 1 := Real.abs_cos_le_one _
  have h3 : |(u - v) / 2| = |u - v| / 2 := by
    rw [abs_div]; simp
  have h4 : (0 : ℝ) ≤ |Real.sin ((u - v) / 2)| := abs_nonneg _
  have h5 : (0 : ℝ) ≤ |u - v| := abs_nonneg _
  rw [abs_of_pos (by norm_num : (0 : ℝ) < 2)]
  calc 2 * |Real.sin ((u - v) / 2)| * |Real.cos ((u + v) / 2)|
      ≤ 2 * |Real.sin ((u - v) / 2)| * 1 := by
        apply mul_le_mul_of_nonneg_left h2; positivity
    _ ≤ 2 * (|u - v| / 2) * 1 := by
        rw [← h3]; nlinarith
    _ = |u - v| := by ring

/-- The modelled deviation `x ↦ x + a*sin(w*x)` is strictly increasing when `a*w < 1`. -/
theorem wobble_strictMono (a w : ℝ) (ha : 0 < a) (hw : 0 < w) (haw : a * w < 1) :
    StrictMono (fun x : ℝ => x + a * Real.sin (w * x)) := by
  intro x y hxy
  have h1 := abs_sin_sub_sin_le (w * y) (w * x)
  have h2 : |w * y - w * x| = w * (y - x) := by
    rw [← mul_sub, abs_mul, abs_of_pos hw, abs_of_pos (sub_pos.mpr hxy)]
  rw [h2] at h1
  have h3 := (abs_le.mp h1).1
  have h4 : 0 < y - x := sub_pos.mpr hxy
  show x + a * Real.sin (w * x) < y + a * Real.sin (w * y)
  have h5 : a * (-(w * (y - x))) ≤ a * (Real.sin (w * y) - Real.sin (w * x)) :=
    mul_le_mul_of_nonneg_left h3 ha.le
  have h6 : 0 < (1 - a * w) * (y - x) := mul_pos (by linarith) h4
  nlinarith

/-- The modelled deviation vanishes at 0 and is non-negative on non-negative rods. -/
theorem wobble_nonneg (a w : ℝ) (ha : 0 < a) (hw : 0 < w) (haw : a * w < 1) (x : ℝ)
    (hx : 0 ≤ x) : 0 ≤ x + a * Real.sin (w * x) := by
  have h0 : (0 : ℝ) + a * Real.sin (w * 0) = 0 := by simp
  rcases hx.eq_or_lt with h | h
  · rw [← h, h0]
  · have := wobble_strictMono a w ha hw haw h
    simp only [] at this
    rw [h0] at this
    exact this.le

/-- Rod position of a cell of the analytic table. -/
theorem sinusoidal_ZROD (s : ZWobble ℝ) (hsin : s.m_sinusoidal = true)
    (ha : 0 < s.m_amplitude) (hw : 0 < s.m_puls) (haw : s.m_amplitude * s.m_puls < 1)
    (j : Nat) (hj : j < 50) :
    ZROD (calculateLut Real.sin s) j = TWOPI / s.m_puls / 50 * (j : ℝ) := by
  unfold ZROD
  rw [calculateLut_sinusoidal_cell Real.sin s hsin ha hw haw j hj]
  simp [STEPS_IN_ZLUT]

/-- Resolved actual value of a cell of the analytic table. -/
theorem sinusoidal_ZACTUAL (s : ZWobble ℝ) (hsin : s.m_sinusoidal = true)
    (ha : 0 < s.m_amplitude) (hw : 0 < s.m_puls) (haw : s.m_amplitude * s.m_puls < 1)
    (j : Nat) (hj : j < 50) :
    ZACTUAL (calculateLut Real.sin s) j =
      TWOPI / s.m_puls / 50 * (j : ℝ)
        + s.m_amplitude * Real.sin (s.m_puls * (TWOPI / s.m_puls / 50 * (j : ℝ))) := by
  unfold ZACTUAL
  rw [calculateLut_sinusoidal_cell Real.sin s hsin ha hw haw j hj]
  have hstep : (0 : ℝ) ≤ TWOPI / s.m_puls / 50 * (j : ℝ) := by
    have := @TWOPI_pos ℝ _
    positivity
  have := wobble_nonneg s.m_amplitude s.m_puls ha hw haw _ hstep
  simp only [STEPS_IN_ZLUT, Nat.cast_ofNat]
  rw [if_neg (not_lt.mpr this)]

/-- C1: for every amplitude `a > 0` and angular frequency `w > 0` with `a*w < 1`, the
table produced by `calculateLut` in sinusoidal mode has exactly `STEPS_IN_ZLUT` (50)
entries with `rod_i = i*period/50` and `actual_i = rod_i + a*sin(w*rod_i)` (stored and
resolved), and its actual values are strictly increasing in `i`. -/
theorem C1_calculateLut_sinusoidal_table (s : ZWobble ℝ) (hsin : s.m_sinusoidal = true)
    (ha : 0 < s.m_amplitude) (hw : 0 < s.m_puls) (haw : s.m_amplitude * s.m_puls < 1) :
    (calculateLut Real.sin s).lutSize = STEPS_IN_ZLUT ∧ STEPS_IN_ZLUT = 50 ∧
    (∀ i : Nat, i < 50 →
      ZROD (calculateLut Real.sin s) i = (i : ℝ) * (TWOPI / s.m_puls) / 50 ∧
      ((calculateLut Real.sin s).zLut i).2 = ZROD (calculateLut Real.sin s) i
        + s.m_amplitude * Real.sin (s.m_puls * ZROD (calculateLut Real.sin s) i) ∧
      ZACTUAL (calculateLut Real.sin s) i = ZROD (calculateLut Real.sin s) i
        + s.m_amplitude * Real.sin (s.m_puls * ZROD (calculateLut Real.sin s) i)) ∧
    (∀ i : Nat, i < 49 →
      ZACTUAL (calculateLut Real.sin s) i < ZACTUAL (calculateLut Real.sin s) (i + 1)) := by
  refine ⟨calculateLut_sinusoidal_size Real.sin s hsin ha hw haw, rfl, ?_, ?_⟩
  · intro i hi
    have hr := sinusoidal_ZROD s hsin ha hw haw i hi
    refine ⟨?_, ?_, ?_⟩
    · rw [hr]; ring
    · rw [hr]
      rw [calculateLut_sinusoidal_cell Real.sin s hsin ha hw haw i hi]
      simp [STEPS_IN_ZLUT]
    · rw [hr]
      exact sinusoidal_ZACTUAL s hsin ha hw haw i hi
  · intro i hi
    rw [sinusoidal_ZACTUAL s hsin ha hw haw i (by omega),
      sinusoidal_ZACTUAL s hsin ha hw haw (i + 1) (by omega)]
    apply wobble_strictMono s.m_amplitude s.m_puls ha hw haw
    have h1 : (0 : ℝ) < TWOPI / s.m_puls / 50 := by
      have := @TWOPI_pos ℝ _
      positivity
    have h2 : (i : ℝ) < ((i + 1 : Nat) : ℝ) := by push_cast; linarith
    exact mul_lt_mul_of_pos_left h2 h1

end Sine

section Flag
variable {α : Type} [LinearOrderedField α]

/-- The flag computed by `areParametersConsistent`. -/
theorem calculateLut_flag (sin : α → α) (s : ZWobble α) :
    ((calculateLut sin s).m_consistent = true ↔
      (s.m_sinusoidal = false ∨
        (0 < s.m_puls ∧ 0 < s.m_amplitude ∧ s.m_amplitude * s.m_puls < 1))) := by
  unfold calculateLut areParametersConsistent
  cases hsin : s.m_sinusoidal
  · simp [initLinearLut, SET_ZROD, SET_ZACTUAL]
  · by_cases hc : s.m_puls ≤ 0 ∨ s.m_amplitude ≤ 0 ∨ s.m_amplitude * s.m_puls ≥ 1
    · simp only [hsin, hc]
      simp
      intro h1 h2
      rcases hc with h | h | h
      · exact absurd h1 (not_lt.mpr h)
      · exact absurd h2 (not_lt.mpr h)
      · exact h
    · simp only [hsin, hc]
      simp
      rw [lutLoop_frame]
      push_neg at hc
      simp [hc.1, hc.2.1, hc.2.2]

/-- A rebuild leaves the model parameters alone. -/
theorem calculateLut_params (sin : α → α) (s : ZWobble α) :
    (calculateLut sin s).m_amplitude = s.m_amplitude ∧
    (calculateLut sin s).m_puls = s.m_puls ∧
    (calculateLut sin s).m_sinusoidal = s.m_sinusoidal := by
  unfold calculateLut areParametersConsistent
  cases hsin : s.m_sinusoidal
  · simp [initLinearLut, SET_ZROD, SET_ZACTUAL]
  · by_cases hc : s.m_puls ≤ 0 ∨ s.m_amplitude ≤ 0 ∨ s.m_amplitude * s.m_puls ≥ 1
    · simp [hsin, hc]
    · simp only [hsin, hc]
      simp
      rw [lutLoop_frame]
      simp [hsin]

theorem FlagInv_calculateLut (sin : α → α) (s : ZWobble α)
    (h : s.m_sinusoidal = false → 0 < s.m_puls) : FlagInv (calculateLut sin s) := by
  obtain ⟨h1, h2, h3⟩ := calculateLut_params sin s
  refine ⟨?_, ?_⟩
  · rw [h1, h2, h3]; exact calculateLut_flag sin s
  · rw [h2, h3]; exact h

theorem FlagInv_of_frame (s s' : ZWobble α) (h : FlagInv s)
    (h1 : s'.m_consistent = s.m_consistent) (h2 : s'.m_sinusoidal = s.m_sinusoidal)
    (h3 : s'.m_puls = s.m_puls) (h4 : s'.m_amplitude = s.m_amplitude) : FlagInv s' := by
  unfold FlagInv
  rw [h1, h2, h3, h4]
  exact h

theorem FlagInv_setAmplitude (sin : α → α) (s : ZWobble α) (a : α) :
    FlagInv (setAmplitude sin s a) := by
  unfold setAmplitude
  apply FlagInv_calculateLut
  intro h
  simp at h

theorem FlagInv_setPeriod (sin : α → α) (s : ZWobble α) (p : α) (h : FlagInv s) :
    FlagInv (setPeriod sin s p) := by
  unfold setPeriod
  split_ifs with hp
  · exact h
  · apply FlagInv_calculateLut
    intro _
    have : 0 < p := not_le.mp hp
    show 0 < TWOPI / p
    unfold TWOPI
    positivity

theorem FlagInv_setSample (sin : α → α) (s s' : ZWobble α) (r a : α) (h : FlagInv s)
    (hs : setSample sin s r a = some s') : FlagInv s' := by
  unfold setSample at hs
  split_ifs at hs with hp hsin
  · cases hs; exact h
  · have hf := insertInLut_frame _ _ _ _ hs
    rw [hf]
    have := FlagInv_calculateLut sin { s with m_sinusoidal := false }
      (fun _ => not_le.mp hp)
    exact FlagInv_of_frame _ _ this rfl rfl rfl rfl
  · have hf := insertInLut_frame _ _ _ _ hs
    rw [hf]
    exact FlagInv_of_frame _ _ h rfl rfl rfl rfl

theorem resolveScalingFactor_frame (s : ZWobble α) :
    resolveScalingFactor s =
      { s with m_scalingFactor := (resolveScalingFactor s).m_scalingFactor } := by
  unfold resolveScalingFactor
  dsimp only
  split_ifs <;> rfl

theorem FlagInv_setScaledSample (sin : α → α) (s s' : ZWobble α) (r l : α) (h : FlagInv s)
    (hs : setScaledSample sin s r l = some s') : FlagInv s' := by
  unfold setScaledSample at hs
  cases h1 : setSample sin s r (-l) with
  | none => rw [h1] at hs; cases hs
  | some s1 =>
    rw [h1] at hs
    cases hs
    have := FlagInv_setSample sin s s1 r (-l) h h1
    rw [resolveScalingFactor_frame]
    exact FlagInv_of_frame _ _ this rfl rfl rfl rfl

end Flag

section FlagRun
variable {α : Type} [LinearOrderedField α] [FloorRing α]

theorem FlagInv_step (sin : α → α) (s s' : ZWobble α) (op : Op α) (h : FlagInv s)
    (hs : step sin s op = some s') : FlagInv s' := by
  cases op with
  | setAmplitude a => cases hs; exact FlagInv_setAmplitude sin s a
  | setPeriod p => cases hs; exact FlagInv_setPeriod sin s p h
  | setPhase d => cases hs; exact FlagInv_of_frame _ _ h rfl rfl rfl rfl
  | setSample r a => exact FlagInv_setSample sin s s' r a h hs
  | setScaledSample r l => exact FlagInv_setScaledSample sin s s' r l h hs
  | setScalingFactor f => cases hs; exact FlagInv_of_frame _ _ h rfl rfl rfl rfl

theorem FlagInv_run (sin : α → α) (ops : List (Op α)) (s s' : ZWobble α) (h : FlagInv s)
    (hs : run sin s ops = some s') : FlagInv s' := by
  induction ops generalizing s with
  | nil => cases hs; exact h
  | cons op ops ih =>
    rw [run] at hs
    cases h1 : step sin s op with
    | none => rw [h1] at hs; cases hs
    | some s1 =>
      rw [h1] at hs
      exact ih s1 (FlagInv_step sin s s1 op h h1) hs

theorem FlagInv_construct (sin : α → α) (raw : ZWobble α) (a p ph : α) :
    FlagInv (construct sin raw a p ph) := by
  unfold construct Set
  exact FlagInv_of_frame _ _ (FlagInv_setPeriod sin _ p (FlagInv_setAmplitude sin _ a))
    rfl rfl rfl rfl

/-- In every state reached from construction by a sequence of `setAmplitude`,
`setPeriod`, `setPhase`, `setSample`, `setScaledSample` and `setScalingFactor` calls that
stays inside the table (`run` returns a state: no call indexes `zLut[-1]`), the stored
flag `m_consistent` is true exactly when the model is not sinusoidal or `m_puls > 0`,
`m_amplitude > 0` and `m_amplitude*m_puls < 1`; in particular it is false
for every sinusoidal model with `a*w ≥ 1` or non-positive `a` or `w`, and whenever it is
true `m_puls > 0`. -/
theorem flag_invariant_of_run (sin : α → α) (raw : ZWobble α) (a p ph : α)
    (ops : List (Op α)) (s : ZWobble α)
    (hs : run sin (construct sin raw a p ph) ops = some s) :
    (s.m_consistent = true ↔
      (s.m_sinusoidal = false ∨
        (0 < s.m_puls ∧ 0 < s.m_amplitude ∧ s.m_amplitude * s.m_puls < 1))) ∧
    (s.m_sinusoidal = true →
      (1 ≤ s.m_amplitude * s.m_puls ∨ s.m_amplitude ≤ 0 ∨ s.m_puls ≤ 0) →
      s.m_consistent = false) ∧
    (s.m_consistent = true → 0 < s.m_puls) := by
  have hinv := FlagInv_run sin ops _ s (FlagInv_construct sin raw a p ph) hs
  obtain ⟨h1, h2⟩ := hinv
  refine ⟨h1, ?_, ?_⟩
  · intro hsin hbad
    cases hc : s.m_consistent with
    | false => rfl
    | true =>
      rcases h1.mp hc with h | ⟨hw, ha, haw⟩
      · rw [hsin] at h; cases h
      · rcases hbad with h | h | h
        · exact absurd haw (not_lt.mpr h)
        · exact absurd ha (not_lt.mpr h)
        · exact absurd hw (not_lt.mpr h)
  · intro hc
    rcases h1.mp hc with h | ⟨hw, _, _⟩
    · exact h2 h
    · exact hw

/-- C3: `InsertCorrection` returns 0 and leaves the step position and the whole object
(in particular the cache `lastZ`, `lastZRod`) unchanged whenever the consistency flag is
false, or `originZ = position/stepsPerUnit < ZWOBBLE_MIN_Z`, or `targetZ < ZWOBBLE_MIN_Z`,
or `|targetZ - originZ| < TOLERANCE_MM`. -/
theorem C3_guard_noop (fuel : Nat) (s : ZWobble α) (position : Int)
    (axis_steps_per_unit targetZ : α)
    (h : s.m_consistent = false ∨
      (axis_steps_per_unit ≠ 0 ∧
        ((position : α) / axis_steps_per_unit < ZWOBBLE_MIN_Z ∨ targetZ < ZWOBBLE_MIN_Z ∨
          |targetZ - (position : α) / axis_steps_per_unit| < TOLERANCE_MM))) :
    InsertCorrection fuel s position axis_steps_per_unit targetZ = some (0, position, s) := by
  unfold InsertCorrection
  cases hc : s.m_consistent with
  | false => simp
  | true =>
    rcases h with h | ⟨hne, h⟩
    · rw [hc] at h; cases h
    · simp only [Bool.not_true, Bool.false_eq_true, if_false, if_neg hne]
      rcases h with h | h | h
      · rw [if_pos (Or.inl h)]
      · rw [if_pos (Or.inr h)]
      · have h2 : EQUAL_WITHIN_TOLERANCE ((position : α) / axis_steps_per_unit) targetZ
            = true := by
          rw [EQUAL_WITHIN_TOLERANCE_iff, abs_sub_comm]
          simpa [TOLERANCE_MM] using h
        by_cases h1 : (position : α) / axis_steps_per_unit < ZWOBBLE_MIN_Z ∨
            targetZ < ZWOBBLE_MIN_Z
        · rw [if_pos h1]
        · rw [if_neg h1, if_pos h2]

end FlagRun

section Lookup
variable {α : Type} [LinearOrderedField α]

/-- Upper clamp of `findInLut`. -/
theorem findInLut_top (s : ZWobble α) (z : α) (hn : 0 < s.lutSize)
    (hz : ZACTUAL s (s.lutSize - 1) ≤ z) :
    findInLut s z = some (ZROD s (s.lutSize - 1)) := by
  unfold findInLut
  rw [if_neg (by omega), if_pos hz]

/-- Lower clamp of `findInLut`. -/
theorem findInLut_bottom (s : ZWobble α) (z : α) (hn : 0 < s.lutSize)
    (hz1 : z < ZACTUAL s (s.lutSize - 1)) (hz : z ≤ ZACTUAL s 0) :
    findInLut s z = some (ZROD s 0) := by
  unfold findInLut
  rw [if_neg (by omega), if_neg (not_le.mpr hz1), if_pos hz]

/-- The scan of `findInLut` stops at the least index whose actual value exceeds `z`. -/
theorem findInLut_scan (s : ZWobble α) (z : α) (i : Nat) (hi : i < s.lutSize)
    (hzi : z < ZACTUAL s i) (hleast : ∀ j, j < i → ZACTUAL s j ≤ z) :
    scanFirst (fun i => decide (ZACTUAL s i > z)) 0 s.lutSize = some i := by
  obtain ⟨k, hk⟩ := scanFirst_isSome (p := fun i => decide (ZACTUAL s i > z))
    (Nat.zero_le i) (by omega : i < 0 + s.lutSize) (by simpa using hzi)
  obtain ⟨_, _, hk3, hk4⟩ := scanFirst_eq_some hk
  have hk3' : z < ZACTUAL s k := by simpa using hk3
  rcases Nat.lt_trichotomy k i with h | h | h
  · exact absurd hk3' (not_lt.mpr (hleast k h))
  · rw [hk, h]
  · have := hk4 i (Nat.zero_le i) h
    simp at this
    exact absurd hzi (not_lt.mpr this)

/-- Interpolation branch of `findInLut`, in the form the source computes it. -/
theorem findInLut_interp (s : ZWobble α) (z : α) (hcap : s.lutSize ≤ STEPS_IN_ZLUT)
    (hz1 : z < ZACTUAL s (s.lutSize - 1)) (hz0 : ZACTUAL s 0 < z)
    (i : Nat) (hi : i < s.lutSize) (hzi : z < ZACTUAL s i)
    (hleast : ∀ j, j < i → ZACTUAL s j ≤ z) :
    findInLut s z =
      some ((ZROD s (i - 1) * (ZACTUAL s i - z) + ZROD s i * (z - ZACTUAL s (i - 1)))
        * (1 / (ZACTUAL s i - ZACTUAL s (i - 1)))) := by
  have hi0 : i ≠ 0 := by
    rintro rfl
    exact absurd hzi (not_lt.mpr hz0.le)
  have hprev : ZACTUAL s (i - 1) ≤ z := hleast (i - 1) (by omega)
  have hne : ZACTUAL s i - ZACTUAL s (i - 1) ≠ 0 := by
    have : ZACTUAL s (i - 1) < ZACTUAL s i := lt_of_le_of_lt hprev hzi
    exact ne_of_gt (sub_pos.mpr this)
  unfold findInLut
  rw [if_neg (by omega), if_neg (not_le.mpr hz1), if_neg (not_le.mpr hz0),
    findInLut_scan s z i hi hzi hleast]
  have h1 : ¬ (i = 0 ∨ STEPS_IN_ZLUT ≤ i) := by
    push_neg
    exact ⟨hi0, by omega⟩
  simp only [if_neg h1, if_neg hne]

/-- In the interpolation range a least index with `actual_i > z` exists. -/
theorem findInLut_least_exists (s : ZWobble α) (z : α) (hn : 0 < s.lutSize)
    (hz1 : z < ZACTUAL s (s.lutSize - 1)) (hz0 : ZACTUAL s 0 < z) :
    ∃ i, 1 ≤ i ∧ i < s.lutSize ∧ z < ZACTUAL s i ∧ ∀ j, j < i → ZACTUAL s j ≤ z := by
  obtain ⟨k, hk⟩ := scanFirst_isSome (p := fun i => decide (ZACTUAL s i > z))
    (Nat.zero_le (s.lutSize - 1)) (by omega : s.lutSize - 1 < 0 + s.lutSize)
    (by simpa using hz1)
  obtain ⟨_, hk2, hk3, hk4⟩ := scanFirst_eq_some hk
  have hk3' : z < ZACTUAL s k := by simpa using hk3
  refine ⟨k, ?_, by omega, hk3', ?_⟩
  · rcases Nat.eq_zero_or_pos k with h | h
    · rw [h] at hk3'
      exact absurd hk3' (not_lt.mpr hz0.le)
    · exact h
  · intro j hj
    have := hk4 j (Nat.zero_le j) hj
    simpa using this

/-- C10: for every table of size `n ≥ 2` (within capacity) whose actual values are
strictly increasing, `findInLut z` is `rod_{n-1}` if `z ≥ actual_{n-1}`, `rod_0` if
`z ≤ actual_0`, and otherwise
`rod_{i-1} + (rod_i - rod_{i-1})*(z - actual_{i-1})/(actual_i - actual_{i-1})` where `i`
is the least index with `actual_i > z` (such an index exists, with `1 ≤ i < n`). -/
theorem C10_findInLut_clamped_interpolation (s : ZWobble α) (z : α)
    (hn : 2 ≤ s.lutSize) (hcap : s.lutSize ≤ STEPS_IN_ZLUT)
    (hmono : ∀ i j, i < j → j < s.lutSize → ZACTUAL s i < ZACTUAL s j) :
    (ZACTUAL s (s.lutSize - 1) ≤ z → findInLut s z = some (ZROD s (s.lutSize - 1))) ∧
    (z ≤ ZACTUAL s 0 → findInLut s z = some (ZROD s 0)) ∧
    (ZACTUAL s 0 < z → z < ZACTUAL s (s.lutSize - 1) →
      (∃ i, 1 ≤ i ∧ i < s.lutSize ∧ z < ZACTUAL s i ∧ ∀ j, j < i → ZACTUAL s j ≤ z) ∧
      ∀ i, i < s.lutSize → z < ZACTUAL s i → (∀ j, j < i → ZACTUAL s j ≤ z) →
        findInLut s z =
          some (ZROD s (i - 1) + (ZROD s i - ZROD s (i - 1)) * (z - ZACTUAL s (i - 1))
            / (ZACTUAL s i - ZACTUAL s (i - 1)))) := by
  refine ⟨fun hz => findInLut_top s z (by omega) hz, fun hz => ?_, fun hz0 hz1 => ⟨?_, ?_⟩⟩
  · have h01 : ZACTUAL s 0 < ZACTUAL s (s.lutSize - 1) :=
      hmono 0 (s.lutSize - 1) (by omega) (by omega)
    exact findInLut_bottom s z (by omega) (lt_of_le_of_lt hz h01) hz
  · exact findInLut_least_exists s z (by omega) hz1 hz0
  · intro i hi hzi hleast
    rw [findInLut_interp s z hcap hz1 hz0 i hi hzi hleast]
    have hi0 : i ≠ 0 := by
      rintro rfl
      exact absurd hzi (not_lt.mpr hz0.le)
    have hprev : ZACTUAL s (i - 1) ≤ z := hleast (i - 1) (by omega)
    have hne : ZACTUAL s i - ZACTUAL s (i - 1) ≠ 0 :=
      ne_of_gt (sub_pos.mpr (lt_of_le_of_lt hprev hzi))
    congr 1
    field_simp
    ring

end Lookup

section Scenario
variable {α : Type} [LinearOrderedField α] [FloorRing α]

theorem phaseDown_zero : phaseDown (0 : α) = 0 := by
  rw [phaseDown]; simp

theorem phaseUp_zero : phaseUp (0 : α) = 0 := by
  rw [phaseUp]; simp

/-- The global object after `setPeriod(1.0)`. -/
theorem zwobble_setPeriod_one (sin : α → α) :
    setPeriod sin (zwobble sin) 1 =
      { sineModel (0 : α) TWOPI with m_consistent := false } := by
  simp [zwobble, construct, ZWobble.Set, setAmplitude, setPeriod, setPhase, calculateLut,
    areParametersConsistent, zeroStorage, phaseDown_zero, phaseUp_zero, sineModel]

/-- The first sample switches to sampled mode: 2-point identity table. -/
theorem setSample_first (sin : α → α) :
    setSample sin (setPeriod sin (zwobble sin) 1) 0 0
      = some (sampledUnit (table3 (0, 0) (1, 1) (0, 0)) 2) := by
  rw [zwobble_setPeriod_one]
  have h := @TWOPI_pos α _
  have h' : (TWOPI : α) ≠ 0 := ne_of_gt h
  simp [setSample, not_le.mpr h, calculateLut, areParametersConsistent, initLinearLut,
    insertInLut, scanFirst, EQUAL_WITHIN_TOLERANCE, DISTANCE, ZROD, TOLERANCE_MM, h',
    sampledUnit, SET_ZROD, SET_ZACTUAL, sineModel]
  funext j
  simp [table3]
  split_ifs <;> simp_all

/-- Inserting a sample strictly between the two identity points. -/
theorem setSample_between (sin : α → α) (r a : α) (hr0 : 1 / 100 ≤ r) (hr1 : r ≤ 99 / 100) :
    setSample sin (sampledUnit (table3 (0, 0) (1, 1) (0, 0)) 2) r a
      = some (sampledUnit (table3 (0, 0) (r, a) (1, 1)) 3) := by
  have h := @TWOPI_pos α _
  have e0 : ¬ |r| < (100 : α)⁻¹ := by
    rw [abs_of_nonneg (by linarith)]; norm_num; linarith
  have e1 : ¬ |r - 1| < (100 : α)⁻¹ := by
    rw [abs_of_nonpos (by linarith)]; norm_num; linarith
  have hscan : scanFirst (fun i => EQUAL_WITHIN_TOLERANCE r
      (ZROD (sampledUnit (table3 (0, 0) (1, 1) (0, 0)) 2 : ZWobble α) i)) 0 2 = none := by
    simp [scanFirst, EQUAL_WITHIN_TOLERANCE_iff, ZROD, sampledUnit, table3, e0, e1]
  have hplace : findPlace (sampledUnit (table3 (0, 0) (1, 1) (0, 0)) 2 : ZWobble α) r = 1 := by
    have h0 : ¬ (r < 0) := by linarith
    have h1 : r < 1 := by linarith
    simp [findPlace, scanFirst, ZROD, sampledUnit, table3, h0, h1]
  have hnot : ¬ (sampledUnit (table3 ((0 : α), (0 : α)) (1, 1) (0, 0)) 2).m_puls ≤ 0 :=
    not_le.mpr h
  unfold setSample
  rw [if_neg hnot]
  have hs : (sampledUnit (table3 ((0 : α), (0 : α)) (1, 1) (0, 0)) 2).m_sinusoidal = false :=
    rfl
  simp only [hs, Bool.false_eq_true, if_false]
  rw [insertInLut_spare _ _ _ hscan (by simp [sampledUnit, STEPS_IN_ZLUT]), hplace]
  have h10 : ¬ ((1 : α) < 0) := by norm_num
  simp [sampledUnit, shiftLoop, SET_ZROD, SET_ZACTUAL, ZROD, ZACTUAL, table3, h10]
  funext j
  simp only [table3]
  split_ifs <;> simp_all

/-- The scenario `setPeriod(1.0)`, `setSample(0.0, 0.0)`, `setSample(0.5, 0.6)`. -/
theorem run_scenario (sin : α → α) :
    run sin (zwobble sin) [.setPeriod 1, .setSample 0 0, .setSample (1 / 2) (3 / 5)]
      = some (sampledUnit (table3 (0, 0) (1 / 2, 3 / 5) (1, 1)) 3) := by
  simp only [run, step]
  rw [setSample_first]
  simp only []
  rw [setSample_between sin (1 / 2) (3 / 5) (by norm_num) (by norm_num)]

end Scenario

section Witnesses

/-- Witness of C1: amplitude 1/2, pulsation 1. -/
theorem C1_calculateLut_sinusoidal_table_witness :
    (calculateLut Real.sin (sineModel (1 / 2 : ℝ) 1)).lutSize = STEPS_IN_ZLUT ∧
    STEPS_IN_ZLUT = 50 ∧
    (∀ i : Nat, i < 50 →
      ZROD (calculateLut Real.sin (sineModel (1 / 2 : ℝ) 1)) i
        = (i : ℝ) * (TWOPI / (sineModel (1 / 2 : ℝ) 1).m_puls) / 50 ∧
      ((calculateLut Real.sin (sineModel (1 / 2 : ℝ) 1)).zLut i).2
        = ZROD (calculateLut Real.sin (sineModel (1 / 2 : ℝ) 1)) i
          + (sineModel (1 / 2 : ℝ) 1).m_amplitude * Real.sin ((sineModel (1 / 2 : ℝ) 1).m_puls
            * ZROD (calculateLut Real.sin (sineModel (1 / 2 : ℝ) 1)) i) ∧
      ZACTUAL (calculateLut Real.sin (sineModel (1 / 2 : ℝ) 1)) i
        = ZROD (calculateLut Real.sin (sineModel (1 / 2 : ℝ) 1)) i
          + (sineModel (1 / 2 : ℝ) 1).m_amplitude * Real.sin ((sineModel (1 / 2 : ℝ) 1).m_puls
            * ZROD (calculateLut Real.sin (sineModel (1 / 2 : ℝ) 1)) i)) ∧
    (∀ i : Nat, i < 49 →
      ZACTUAL (calculateLut Real.sin (sineModel (1 / 2 : ℝ) 1)) i
        < ZACTUAL (calculateLut Real.sin (sineModel (1 / 2 : ℝ) 1)) (i + 1)) :=
  C1_calculateLut_sinusoidal_table (sineModel (1 / 2 : ℝ) 1) rfl
    (by norm_num [sineModel]) (by norm_num [sineModel]) (by norm_num [sineModel])

/-- Witness of C3: origin 0.05 mm is below the minimum height. -/
theorem C3_guard_noop_witness :
    InsertCorrection 0 scenarioState
      5 100 3
      = some (0, 5, scenarioState) :=
  C3_guard_noop 0 _ 5 100 3
    (Or.inr ⟨by norm_num, Or.inl (by norm_num [ZWOBBLE_MIN_Z])⟩)

/-- The flag invariant on the state after `setPeriod(1.0)`, `setSample(0.0, 0.0)`,
`setSample(0.5, 0.6)` on the global object. -/
theorem flag_invariant_of_run_example :
    run (fun _ => (0 : ℚ)) (construct (fun _ => (0 : ℚ)) zeroStorage 0 0 0)
        [.setPeriod 1, .setSample 0 0, .setSample (1 / 2) (3 / 5)] = some scenarioState ∧
    (scenarioState.m_consistent = true ↔
      (scenarioState.m_sinusoidal = false ∨
        (0 < scenarioState.m_puls ∧ 0 < scenarioState.m_amplitude ∧
          scenarioState.m_amplitude * scenarioState.m_puls < 1))) ∧
    (scenarioState.m_sinusoidal = true →
      (1 ≤ scenarioState.m_amplitude * scenarioState.m_puls ∨
        scenarioState.m_amplitude ≤ 0 ∨ scenarioState.m_puls ≤ 0) →
      scenarioState.m_consistent = false) ∧
    (scenarioState.m_consistent = true → 0 < scenarioState.m_puls) :=
  ⟨run_scenario (fun _ => 0),
    flag_invariant_of_run (fun _ => 0) zeroStorage 0 0 0
      [.setPeriod 1, .setSample 0 0, .setSample (1 / 2) (3 / 5)] _
      (run_scenario (fun _ => 0))⟩

/-- Witness of C10: after `setPeriod(1.0)`, `setSample(0.0, 0.0)`, `setSample(0.5, 0.6)`
the table is `{(0,0),(0.5,0.6),(1,1)}` and `findInLut(0.3) = 0.25`. -/
theorem C10_findInLut_clamped_interpolation_witness :
    run (fun _ => (0 : ℚ)) (zwobble (fun _ => (0 : ℚ)))
        [.setPeriod 1, .setSample 0 0, .setSample (1 / 2) (3 / 5)]
      = some (scenarioState) ∧
    findInLut scenarioState (3 / 10)
      = some (1 / 4) := by
  refine ⟨run_scenario _, ?_⟩
  have hmono : ∀ i j, i < j →
      j < scenarioState.lutSize →
      ZACTUAL scenarioState i
        < ZACTUAL scenarioState j := by
    intro i j hij hj
    have hj3 : j < 3 := hj
    interval_cases j <;> interval_cases i <;>
      norm_num [ZACTUAL, scenarioState, sampledUnit, table3]
  have h := (C10_findInLut_clamped_interpolation scenarioState (3 / 10)
    (by norm_num [scenarioState, sampledUnit])
    (by norm_num [scenarioState, sampledUnit, STEPS_IN_ZLUT]) hmono).2.2
    (by norm_num [ZACTUAL, scenarioState, sampledUnit, table3])
    (by norm_num [ZACTUAL, scenarioState, sampledUnit, table3])
  have h1 := h.2 1 (by norm_num [scenarioState, sampledUnit])
    (by norm_num [ZACTUAL, scenarioState, sampledUnit, table3])
    (by
      intro j hj
      interval_cases j
      norm_num [ZACTUAL, scenarioState, sampledUnit, table3])
  rw [h1]
  norm_num [ZACTUAL, ZROD, scenarioState, sampledUnit, table3]

end Witnesses

section RoundTrip
variable {α : Type} [LinearOrderedField α]

/-- Interpolation branch of `findInLut`, as an affine formula from the lower node. -/
theorem findInLut_interp_affine (s : ZWobble α) (z : α) (hcap : s.lutSize ≤ STEPS_IN_ZLUT)
    (hz1 : z < ZACTUAL s (s.lutSize - 1)) (hz0 : ZACTUAL s 0 < z)
    (i : Nat) (hi : i < s.lutSize) (hzi : z < ZACTUAL s i)
    (hleast : ∀ j, j < i → ZACTUAL s j ≤ z) :
    findInLut s z =
      some (ZROD s (i - 1) + (ZROD s i - ZROD s (i - 1)) * (z - ZACTUAL s (i - 1))
        / (ZACTUAL s i - ZACTUAL s (i - 1))) := by
  rw [findInLut_interp s z hcap hz1 hz0 i hi hzi hleast]
  have hi0 : i ≠ 0 := by
    rintro rfl
    exact absurd hzi (not_lt.mpr hz0.le)
  have hprev : ZACTUAL s (i - 1) ≤ z := hleast (i - 1) (by omega)
  have hne : ZACTUAL s i - ZACTUAL s (i - 1) ≠ 0 :=
    ne_of_gt (sub_pos.mpr (lt_of_le_of_lt hprev hzi))
  congr 1
  field_simp
  ring

/-- At a table node the reverse lookup is exact, for strictly increasing actual values. -/
theorem findInLut_node (s : ZWobble α) (hn : 0 < s.lutSize) (hcap : s.lutSize ≤ STEPS_IN_ZLUT)
    (hmono : ∀ i j, i < j → j < s.lutSize → ZACTUAL s i < ZACTUAL s j)
    (j : Nat) (hj : j < s.lutSize) :
    findInLut s (ZACTUAL s j) = some (ZROD s j) := by
  by_cases hlast : j = s.lutSize - 1
  · rw [hlast]
    exact findInLut_top s _ hn (le_refl _)
  · have hjl : ZACTUAL s j < ZACTUAL s (s.lutSize - 1) :=
      hmono j (s.lutSize - 1) (by omega) (by omega)
    by_cases hfirst : j = 0
    · rw [hfirst] at hjl ⊢
      exact findInLut_bottom s _ hn hjl (le_refl _)
    · have h0j : ZACTUAL s 0 < ZACTUAL s j := hmono 0 j (by omega) hj
      have hnext : ZACTUAL s j < ZACTUAL s (j + 1) := hmono j (j + 1) (by omega) (by omega)
      have hleast : ∀ k, k < j + 1 → ZACTUAL s k ≤ ZACTUAL s j := by
        intro k hk
        rcases Nat.lt_or_ge k j with h | h
        · exact (hmono k j h hj).le
        · have : k = j := by omega
          rw [this]
      rw [findInLut_interp_affine s _ hcap hjl h0j (j + 1) (by omega) hnext hleast]
      simp

/-- In the interpolation range the result lies between the rods of the bracketing
nodes, when the rods of these nodes are ordered. -/
theorem findInLut_between (s : ZWobble α) (z : α) (hcap : s.lutSize ≤ STEPS_IN_ZLUT)
    (hz1 : z < ZACTUAL s (s.lutSize - 1)) (hz0 : ZACTUAL s 0 < z)
    (i : Nat) (hi : i < s.lutSize) (hzi : z < ZACTUAL s i)
    (hleast : ∀ j, j < i → ZACTUAL s j ≤ z) (hrod : ZROD s (i - 1) ≤ ZROD s i) :
    ∃ x, findInLut s z = some x ∧ ZROD s (i - 1) ≤ x ∧ x ≤ ZROD s i := by
  have hi0 : i ≠ 0 := by
    rintro rfl
    exact absurd hzi (not_lt.mpr hz0.le)
  have hprev : ZACTUAL s (i - 1) ≤ z := hleast (i - 1) (by omega)
  have hD : 0 < ZACTUAL s i - ZACTUAL s (i - 1) :=
    sub_pos.mpr (lt_of_le_of_lt hprev hzi)
  refine ⟨_, findInLut_interp_affine s z hcap hz1 hz0 i hi hzi hleast, ?_, ?_⟩
  · have : 0 ≤ (ZROD s i - ZROD s (i - 1)) * (z - ZACTUAL s (i - 1))
        / (ZACTUAL s i - ZACTUAL s (i - 1)) := by
      apply div_nonneg _ hD.le
      exact mul_nonneg (sub_nonneg.mpr hrod) (sub_nonneg.mpr hprev)
    linarith
  · have h1 : (ZROD s i - ZROD s (i - 1)) * (z - ZACTUAL s (i - 1))
        / (ZACTUAL s i - ZACTUAL s (i - 1)) ≤ ZROD s i - ZROD s (i - 1) := by
      rw [div_le_iff₀ hD]
      apply mul_le_mul_of_nonneg_left _ (sub_nonneg.mpr hrod)
      linarith
    linarith

end RoundTrip

section RoundTripSine

/-- C2: for a consistent sinusoidal model (`a > 0`, `w > 0`, `a*w < 1`,
`period = TWOPI/w`) whose table was built by `calculateLut`, for every `r` with
`0 ≤ r < period` the lookup of `r + a*sin(w*r)` returns a value within
`period/STEPS_IN_ZLUT` of `r`; and at every table node the round trip is exact,
`findInLut(actual_j) = rod_j`. -/
theorem C2_round_trip (s : ZWobble ℝ) (hsin : s.m_sinusoidal = true)
    (ha : 0 < s.m_amplitude) (hw : 0 < s.m_puls) (haw : s.m_amplitude * s.m_puls < 1) :
    (∀ r : ℝ, 0 ≤ r → r < TWOPI / s.m_puls →
      ∃ x, findInLut (calculateLut Real.sin s) (r + s.m_amplitude * Real.sin (s.m_puls * r))
          = some x ∧
        |x - r| ≤ TWOPI / s.m_puls / (STEPS_IN_ZLUT : ℝ)) ∧
    (∀ j : Nat, j < STEPS_IN_ZLUT →
      findInLut (calculateLut Real.sin s) (ZACTUAL (calculateLut Real.sin s) j)
        = some (ZROD (calculateLut Real.sin s) j)) := by
  have hsize := calculateLut_sinusoidal_size Real.sin s hsin ha hw haw
  have hfm := wobble_strictMono s.m_amplitude s.m_puls ha hw haw
  have hstep : (0 : ℝ) < TWOPI / s.m_puls / 50 := by
    have := @TWOPI_pos ℝ _
    positivity
  have hrod : ∀ j : Nat, j < 50 →
      ZROD (calculateLut Real.sin s) j = TWOPI / s.m_puls / 50 * (j : ℝ) :=
    fun j hj => sinusoidal_ZROD s hsin ha hw haw j hj
  have hact : ∀ j : Nat, j < 50 → ZACTUAL (calculateLut Real.sin s) j =
      (fun x : ℝ => x + s.m_amplitude * Real.sin (s.m_puls * x))
        (TWOPI / s.m_puls / 50 * (j : ℝ)) :=
    fun j hj => sinusoidal_ZACTUAL s hsin ha hw haw j hj
  have hmono : ∀ i j, i < j → j < (calculateLut Real.sin s).lutSize →
      ZACTUAL (calculateLut Real.sin s) i < ZACTUAL (calculateLut Real.sin s) j := by
    intro i j hij hj
    rw [hsize] at hj
    have hj50 : j < 50 := hj
    rw [hact i (by omega), hact j hj50]
    apply hfm
    apply mul_lt_mul_of_pos_left _ hstep
    exact_mod_cast hij
  have hn : 0 < (calculateLut Real.sin s).lutSize := by rw [hsize]; decide
  have hcap : (calculateLut Real.sin s).lutSize ≤ STEPS_IN_ZLUT := by rw [hsize]
  have hlast : (calculateLut Real.sin s).lutSize - 1 = 49 := by rw [hsize]; rfl
  refine ⟨?_, ?_⟩
  · intro r hr0 hr1
    have hcast : ((STEPS_IN_ZLUT : Nat) : ℝ) = 50 := by simp [STEPS_IN_ZLUT]
    rw [hcast]
    have hper : TWOPI / s.m_puls = TWOPI / s.m_puls / 50 * 50 := by ring
    set z := r + s.m_amplitude * Real.sin (s.m_puls * r) with hz
    have hzr : z = (fun x : ℝ => x + s.m_amplitude * Real.sin (s.m_puls * x)) r := rfl
    by_cases htop : ZACTUAL (calculateLut Real.sin s) 49 ≤ z
    · refine ⟨_, findInLut_top _ z hn (by rw [hlast]; exact htop), ?_⟩
      rw [hlast, hrod 49 (by norm_num)]
      rw [hact 49 (by norm_num), hzr, hfm.le_iff_le] at htop
      have h49 : TWOPI / s.m_puls / 50 * ((49 : Nat) : ℝ) = TWOPI / s.m_puls / 50 * 49 := by
        norm_num
      rw [h49] at htop ⊢
      rw [abs_le]
      constructor <;> linarith
    · have htop' : z < ZACTUAL (calculateLut Real.sin s) 49 := not_le.mp htop
      by_cases hbot : z ≤ ZACTUAL (calculateLut Real.sin s) 0
      · refine ⟨_, findInLut_bottom _ z hn (by rw [hlast]; exact htop') hbot, ?_⟩
        rw [hrod 0 (by norm_num)]
        rw [hact 0 (by norm_num), hzr, hfm.le_iff_le] at hbot
        simp only [Nat.cast_zero, mul_zero] at hbot ⊢
        have hr : r = 0 := le_antisymm hbot hr0
        rw [hr]
        simp
        exact hstep.le
      · have hbot' : ZACTUAL (calculateLut Real.sin s) 0 < z := not_le.mp hbot
        obtain ⟨i, hi1, hi2, hi3, hi4⟩ := findInLut_least_exists _ z hn
          (by rw [hlast]; exact htop') hbot'
        have hi50 : i < 50 := by rw [hsize] at hi2; exact hi2
        have hr_lt : r < TWOPI / s.m_puls / 50 * (i : ℝ) := by
          rw [hact i hi50, hzr, hfm.lt_iff_lt] at hi3
          exact hi3
        have hr_ge : TWOPI / s.m_puls / 50 * ((i - 1 : Nat) : ℝ) ≤ r := by
          have := hi4 (i - 1) (by omega)
          rw [hact (i - 1) (by omega), hzr, hfm.le_iff_le] at this
          exact this
        have hcast1 : ((i - 1 : Nat) : ℝ) = (i : ℝ) - 1 := by
          rw [Nat.cast_sub hi1]; simp
        have hrods : ZROD (calculateLut Real.sin s) (i - 1) ≤ ZROD (calculateLut Real.sin s) i := by
          rw [hrod i hi50, hrod (i - 1) (by omega), hcast1]
          nlinarith
        obtain ⟨x, hx, hx1, hx2⟩ := findInLut_between _ z hcap
          (by rw [hlast]; exact htop') hbot' i hi2 hi3 hi4 hrods
        refine ⟨x, hx, ?_⟩
        rw [hrod i hi50] at hx2
        rw [hrod (i - 1) (by omega)] at hx1
        rw [hcast1] at hx1 hr_ge
        rw [abs_le]
        constructor <;> nlinarith
  · intro j hj
    exact findInLut_node _ hn hcap hmono j (by rw [hsize]; exact hj)

end RoundTripSine

section Cycle
variable {α : Type} [LinearOrderedField α]

theorem cycleOrigin_zero (s : ZWobble α) : cycleOrigin s 0 = -s.m_phase / s.m_puls := by
  simp [cycleOrigin]

/-- The cycle origins increase with the cycle number when the pulsation is positive. -/
theorem cycleOrigin_lt (s : ZWobble α) (hw : 0 < s.m_puls) (j k : Int) (h : j < k) :
    cycleOrigin s j < cycleOrigin s k := by
  unfold cycleOrigin
  apply div_lt_div_of_pos_right _ hw
  have h1 : (j : α) < (k : α) := by exact_mod_cast h
  have h2 := @TWOPI_pos α _
  nlinarith

/-- The cycle search, started at cycle `k`, stops at the first cycle `m ≥ k` whose origin
exceeds `z`, provided the fuel covers the `m - k` iterations. -/
theorem cycleLoop_spec (s : ZWobble α) (z : α) (fuel k m : Nat) (hkm : k ≤ m)
    (hfuel : m - k ≤ fuel) (hbelow : ∀ j : Nat, k ≤ j → j < m → cycleOrigin s j ≤ z)
    (hm : z < cycleOrigin s m) :
    cycleLoop s z fuel k (cycleOrigin s k) = some m := by
  induction fuel generalizing k with
  | zero =>
    have hk : k = m := by omega
    subst hk
    rw [cycleLoop, if_neg (not_le.mpr hm)]
  | succ fuel ih =>
    rw [cycleLoop]
    by_cases hk : k = m
    · subst hk
      rw [if_neg (not_le.mpr hm)]
    · rw [if_pos (hbelow k (le_refl k) (by omega))]
      have := ih (k + 1) (by omega) (by omega) (fun j h1 h2 => hbelow j (by omega) h2)
      rw [← this]
      congr 1
      simp [cycleOrigin]

end Cycle

section CycleArch
variable {α : Type} [LinearOrderedField α] [FloorRing α]

/-- For a positive pulsation some cycle origin exceeds `z`; the search stops at the
least such cycle for every sufficient fuel. -/
theorem cycleLoop_terminates (s : ZWobble α) (z : α) (hw : 0 < s.m_puls) :
    ∃ m : Nat, z < cycleOrigin s m ∧ (∀ j : Nat, j < m → cycleOrigin s j ≤ z) ∧
      ∀ fuel, m ≤ fuel → cycleLoop s z fuel 0 (-s.m_phase / s.m_puls) = some m := by
  have hex : ∃ m : Nat, z < cycleOrigin s m := by
    obtain ⟨n, hn⟩ := exists_nat_gt ((z * s.m_puls + s.m_phase) / TWOPI)
    refine ⟨n, ?_⟩
    unfold cycleOrigin
    rw [lt_div_iff₀ hw]
    rw [div_lt_iff₀ TWOPI_pos] at hn
    push_cast
    linarith
  classical
  refine ⟨Nat.find hex, Nat.find_spec hex, ?_, ?_⟩
  · intro j hj
    exact not_lt.mp (Nat.find_min hex hj)
  · intro fuel hfuel
    rw [← cycleOrigin_zero]
    exact cycleLoop_spec s z fuel 0 (Nat.find hex) (Nat.zero_le _) (by omega)
      (fun j _ hj => not_lt.mp (Nat.find_min hex hj)) (Nat.find_spec hex)

end CycleArch

section Total
variable {α : Type} [LinearOrderedField α]

/-- On a non-empty table within capacity `findInLut` always returns a value. -/
theorem findInLut_total (s : ZWobble α) (z : α) (hn : 0 < s.lutSize)
    (hcap : s.lutSize ≤ STEPS_IN_ZLUT) : ∃ x, findInLut s z = some x := by
  by_cases htop : ZACTUAL s (s.lutSize - 1) ≤ z
  · exact ⟨_, findInLut_top s z hn htop⟩
  · have htop' := not_le.mp htop
    by_cases hbot : z ≤ ZACTUAL s 0
    · exact ⟨_, findInLut_bottom s z hn htop' hbot⟩
    · have hbot' := not_le.mp hbot
      obtain ⟨i, _, hi2, hi3, hi4⟩ := findInLut_least_exists s z hn htop' hbot'
      exact ⟨_, findInLut_interp s z hcap htop' hbot' i hi2 hi3 hi4⟩

end Total

section TotalArch
variable {α : Type} [LinearOrderedField α] [FloorRing α]

/-- The value of `findZRod` once the cycle search has stopped at cycle `m`. -/
theorem findZRod_of_cycle (fuel : Nat) (s : ZWobble α) (z : α) (hw : s.m_puls ≠ 0) (m : Nat)
    (hm : cycleLoop s z fuel 0 (-s.m_phase / s.m_puls) = some m) (x : α)
    (hx : findInLut s (z - cycleOrigin s ((m : Int) - 1)) = some x) :
    findZRod fuel s z = some (cycleOrigin s ((m : Int) - 1) + x) := by
  unfold findZRod
  rw [if_neg hw, hm]
  unfold cycleOrigin at hx
  simp only []
  rw [hx]
  rfl

end TotalArch

section Correction
variable {α : Type} [LinearOrderedField α] [FloorRing α]

/-- Evaluation of `lround` on a non-negative argument. -/
theorem lround_eq (x : α) (n : Int) (h0 : 0 ≤ x) (h1 : (n : α) ≤ x + 1 / 2)
    (h2 : x + 1 / 2 < (n : α) + 1) : lround x = n := by
  unfold lround
  rw [if_pos h0, Int.floor_eq_iff]
  exact ⟨h1, h2⟩

/-- `InsertCorrection` past its guards, given the two resolved rod positions. -/
theorem InsertCorrection_pass (fuel : Nat) (s : ZWobble α) (position : Int)
    (axis_steps_per_unit targetZ originRod targetRod : α)
    (hc : s.m_consistent = true) (hspu : axis_steps_per_unit ≠ 0)
    (ho : ZWOBBLE_MIN_Z ≤ (position : α) / axis_steps_per_unit)
    (ht : ZWOBBLE_MIN_Z ≤ targetZ)
    (htol : TOLERANCE_MM ≤ |targetZ - (position : α) / axis_steps_per_unit|)
    (horigin : (if (position : α) / axis_steps_per_unit = s.lastZ then some s.lastZRod
      else findZRod fuel s ((position : α) / axis_steps_per_unit)) = some originRod)
    (htarget : findZRod fuel s targetZ = some targetRod) :
    InsertCorrection fuel s position axis_steps_per_unit targetZ =
      if position - (lround ((targetRod - originRod) * axis_steps_per_unit)
          - (lround (targetZ * axis_steps_per_unit) - position)) < 0 then
        some (0, position, { s with lastZ := targetZ, lastZRod := targetRod })
      else
        some (lround ((targetRod - originRod) * axis_steps_per_unit)
            - (lround (targetZ * axis_steps_per_unit) - position),
          position - (lround ((targetRod - originRod) * axis_steps_per_unit)
            - (lround (targetZ * axis_steps_per_unit) - position)),
          { s with lastZ := targetZ, lastZRod := targetRod }) := by
  have hg : ¬ ((position : α) / axis_steps_per_unit < ZWOBBLE_MIN_Z ∨ targetZ < ZWOBBLE_MIN_Z) := by
    push_neg
    exact ⟨ho, ht⟩
  have he : ¬ (EQUAL_WITHIN_TOLERANCE ((position : α) / axis_steps_per_unit) targetZ = true) := by
    rw [EQUAL_WITHIN_TOLERANCE_iff, abs_sub_comm, not_lt]
    simpa [TOLERANCE_MM] using htol
  unfold InsertCorrection
  simp only [hc, Bool.not_true, Bool.false_eq_true, if_false, if_neg hspu, if_neg hg, if_neg he]
  rw [horigin]
  simp only []
  rw [htarget]

end Correction

section CorrectionWitness

/-- The steep table is reached by `setPeriod(1.0)`, `setSample(0.0, 0.0)`,
`setSample(0.8, 0.2)` on the global object. -/
theorem run_steep {α : Type} [LinearOrderedField α] [FloorRing α] (sin : α → α) :
    run sin (zwobble sin) [.setPeriod 1, .setSample 0 0, .setSample (4 / 5) (1 / 5)]
      = some (sampledUnit (table3 (0, 0) (4 / 5, 1 / 5) (1, 1)) 3) := by
  simp only [run, step]
  rw [setSample_first]
  simp only []
  rw [setSample_between sin (4 / 5) (1 / 5) (by norm_num) (by norm_num)]

theorem steep_findZRod_origin : findZRod 1 steepState (1 / 10) = some (2 / 5) := by
  norm_num [findZRod, cycleLoop, findInLut, scanFirst, steepState, sampledUnit, table3, TWOPI,
    ZACTUAL, ZROD, STEPS_IN_ZLUT]

end CorrectionWitness

section Evict
variable {α : Type} [LinearOrderedField α]

/-- The nearest-entry loop returns an index of smallest distance among those scanned,
given that its accumulator is one for the indices before `i`. -/
theorem closestLoop_spec (s : ZWobble α) (zRod : α) (n i : Nat) (acc : Nat × α)
    (hk : acc.1 < i) (hd : acc.2 = DISTANCE zRod (ZROD s acc.1))
    (hmin : ∀ j, j < i → acc.2 ≤ DISTANCE zRod (ZROD s j)) :
    (closestLoop s zRod i n acc).1 < i + n ∧
    (closestLoop s zRod i n acc).2 = DISTANCE zRod (ZROD s (closestLoop s zRod i n acc).1) ∧
    ∀ j, j < i + n → (closestLoop s zRod i n acc).2 ≤ DISTANCE zRod (ZROD s j) := by
  induction n generalizing i acc with
  | zero => exact ⟨hk, hd, hmin⟩
  | succ n ih =>
    rw [closestLoop]
    have key : ∀ acc' : Nat × α, acc'.1 < i + 1 → acc'.2 = DISTANCE zRod (ZROD s acc'.1) →
        (∀ j, j < i + 1 → acc'.2 ≤ DISTANCE zRod (ZROD s j)) →
        (closestLoop s zRod (i + 1) n acc').1 < i + (n + 1) ∧
        (closestLoop s zRod (i + 1) n acc').2
          = DISTANCE zRod (ZROD s (closestLoop s zRod (i + 1) n acc').1) ∧
        ∀ j, j < i + (n + 1) →
          (closestLoop s zRod (i + 1) n acc').2 ≤ DISTANCE zRod (ZROD s j) := by
      intro acc' h1 h2 h3
      have := ih (i + 1) acc' h1 h2 h3
      have e : i + 1 + n = i + (n + 1) := by omega
      rw [e] at this
      exact this
    by_cases hlt : DISTANCE zRod (ZROD s i) < acc.2
    · rw [if_pos hlt]
      apply key
      · exact Nat.lt_succ_self i
      · rfl
      · intro j hj
        rcases Nat.lt_or_ge j i with h | h
        · exact le_trans hlt.le (hmin j h)
        · have : j = i := by omega
          rw [this]
    · rw [if_neg hlt]
      apply key
      · exact Nat.lt_succ_of_lt hk
      · exact hd
      · intro j hj
        rcases Nat.lt_or_ge j i with h | h
        · exact hmin j h
        · have : j = i := by omega
          rw [this]
          exact not_lt.mp hlt

/-- C7 (amended): for every table holding exactly `STEPS_IN_ZLUT` entries and every new
sample, `insertInLut` leaves the size equal to `STEPS_IN_ZLUT` and overwrites exactly one
cell `k` with the new sample, every other cell being unchanged; `k` is the first entry
whose rod position is within `TOLERANCE_MM` of `zRod` when there is one, and otherwise an
entry of smallest distance `|rod_k - zRod|`; in particular it has the smallest distance
whenever at most one stored rod position is within tolerance of `zRod`. -/
theorem C7_insert_at_capacity (s : ZWobble α) (zRod zActual : α)
    (hfull : s.lutSize = STEPS_IN_ZLUT) :
    ∃ (k : Nat) (s' : ZWobble α), k < STEPS_IN_ZLUT ∧ insertInLut s zRod zActual = some s' ∧
      s'.lutSize = STEPS_IN_ZLUT ∧ s'.zLut k = (zRod, zActual) ∧
      (∀ j, j ≠ k → s'.zLut j = s.zLut j) ∧
      ((|zRod - ZROD s k| < TOLERANCE_MM ∧ ∀ j, j < k → ¬ |zRod - ZROD s j| < TOLERANCE_MM) ∨
        ((∀ j, j < STEPS_IN_ZLUT → ¬ |zRod - ZROD s j| < TOLERANCE_MM) ∧
          ∀ j, j < STEPS_IN_ZLUT → |ZROD s k - zRod| ≤ |ZROD s j - zRod|)) ∧
      ((∀ i j, i < STEPS_IN_ZLUT → j < STEPS_IN_ZLUT → |zRod - ZROD s i| < TOLERANCE_MM →
          |zRod - ZROD s j| < TOLERANCE_MM → i = j) →
        ∀ j, j < STEPS_IN_ZLUT → |ZROD s k - zRod| ≤ |ZROD s j - zRod|) := by
  have htol : ∀ j, (EQUAL_WITHIN_TOLERANCE zRod (ZROD s j) = true ↔
      |zRod - ZROD s j| < TOLERANCE_MM) := by
    intro j
    rw [EQUAL_WITHIN_TOLERANCE_iff]
    simp [TOLERANCE_MM]
  cases hscan : scanFirst (fun i => EQUAL_WITHIN_TOLERANCE zRod (ZROD s i)) 0 s.lutSize with
  | some k =>
    obtain ⟨_, hk2, hk3, hk4⟩ := scanFirst_eq_some hscan
    have hk50 : k < STEPS_IN_ZLUT := by rw [← hfull]; omega
    have hkt : |zRod - ZROD s k| < TOLERANCE_MM := (htol k).mp hk3
    have hfirst : ∀ j, j < k → ¬ |zRod - ZROD s j| < TOLERANCE_MM := by
      intro j hj hlt
      have := hk4 j (Nat.zero_le j) hj
      rw [(htol j).mpr hlt] at this
      cases this
    refine ⟨k, _, hk50, insertInLut_replace s zRod zActual k hscan, hfull, ?_, ?_,
      Or.inl ⟨hkt, hfirst⟩, ?_⟩
    · simp
    · intro j hj
      simp [hj]
    · intro huniq j hj
      by_cases hjt : |zRod - ZROD s j| < TOLERANCE_MM
      · rw [huniq j k hj hk50 hjt hkt]
      · rw [abs_sub_comm (ZROD s k), abs_sub_comm (ZROD s j)]
        exact le_trans hkt.le (not_lt.mp hjt)
  | none =>
    have hnone : ∀ j, j < STEPS_IN_ZLUT → ¬ |zRod - ZROD s j| < TOLERANCE_MM := by
      intro j hj hlt
      have := scanFirst_eq_none hscan j (Nat.zero_le j) (by rw [hfull]; omega)
      rw [(htol j).mpr hlt] at this
      cases this
    have hge : ¬ s.lutSize < STEPS_IN_ZLUT := by rw [hfull]; exact lt_irrefl _
    have hspec := closestLoop_spec s zRod (s.lutSize - 1) 1 (0, DISTANCE zRod (ZROD s 0))
      Nat.zero_lt_one rfl (by
        intro j hj
        have : j = 0 := by omega
        rw [this])
    have e : 1 + (s.lutSize - 1) = STEPS_IN_ZLUT := by rw [hfull]; rfl
    rw [e] at hspec
    obtain ⟨h1, h2, h3⟩ := hspec
    have hmin : ∀ j, j < STEPS_IN_ZLUT →
        |ZROD s (closestLoop s zRod 1 (s.lutSize - 1) (0, DISTANCE zRod (ZROD s 0))).1 - zRod|
          ≤ |ZROD s j - zRod| := by
      intro j hj
      have := h3 j hj
      rw [h2] at this
      simp only [DISTANCE_eq_abs] at this ⊢
      rw [abs_sub_comm (ZROD s _), abs_sub_comm (ZROD s j)]
      exact this
    refine ⟨_, _, h1, insertInLut_full s zRod zActual hscan hge, hfull, ?_, ?_,
      Or.inr ⟨hnone, hmin⟩, fun _ => hmin⟩
    · simp
    · intro j hj
      simp [hj]

end Evict

section Shift
variable {α : Type} [LinearOrderedField α]

/-- With `zPlace = -1` the shift loop runs down to `i = 0` and reads `zLut[-1]`. -/
theorem shiftLoop_neg (i : Nat) (s : ZWobble α) : shiftLoop (-1) i s = none := by
  induction i generalizing s with
  | zero => simp [shiftLoop]
  | succ i ih =>
    rw [shiftLoop, if_pos (by omega)]
    exact ih _

/-- With `0 ≤ zPlace ≤ i` the shift loop moves the cells `zPlace .. i-1` up by one slot,
storing the resolved actual value. -/
theorem shiftLoop_some (p i : Nat) (s : ZWobble α) (hpi : p ≤ i) :
    ∃ s', shiftLoop (p : Int) i s = some s' ∧
      ∀ j, s'.zLut j =
        if p < j ∧ j ≤ i then (ZROD s (j - 1), ZACTUAL s (j - 1)) else s.zLut j := by
  induction i generalizing s with
  | zero =>
    have hp : p = 0 := by omega
    subst hp
    refine ⟨s, by simp [shiftLoop], fun j => ?_⟩
    rw [if_neg (by omega)]
  | succ i ih =>
    rw [shiftLoop]
    by_cases hp : p = i + 1
    · subst hp
      refine ⟨s, by simp, fun j => ?_⟩
      rw [if_neg (by omega)]
    · have hcond : ((i + 1 : Nat) : Int) > (p : Int) := by omega
      rw [if_pos hcond]
      obtain ⟨s', hs', hcells⟩ := ih
        (SET_ZACTUAL (SET_ZROD s (i + 1) (ZROD s i)) (i + 1)
          (ZACTUAL (SET_ZROD s (i + 1) (ZROD s i)) i)) (by omega)
      refine ⟨s', hs', fun j => ?_⟩
      rw [hcells j]
      by_cases hj : p < j ∧ j ≤ i
      · rw [if_pos hj, if_pos ⟨hj.1, by omega⟩]
        have hne : j - 1 ≠ i + 1 := by omega
        simp [ZROD, ZACTUAL, SET_ZROD, SET_ZACTUAL, hne]
      · rw [if_neg hj]
        by_cases hj1 : j = i + 1
        · subst hj1
          rw [if_pos ⟨by omega, le_refl _⟩]
          have hne : i ≠ i + 1 := by omega
          simp [ZROD, ZACTUAL, SET_ZROD, SET_ZACTUAL, hne]
        · rw [if_neg (by omega)]
          simp [SET_ZROD, SET_ZACTUAL, hj1]

/-- The insertion index is `-1` when no stored rod position exceeds `zRod`. -/
theorem findPlace_neg (s : ZWobble α) (zRod : α) (h : ∀ j, j < s.lutSize → ZROD s j ≤ zRod) :
    findPlace s zRod = -1 := by
  unfold findPlace
  cases hscan : scanFirst (fun i => decide (ZROD s i > zRod)) 0 s.lutSize with
  | none => rfl
  | some k =>
    obtain ⟨_, hk2, hk3, _⟩ := scanFirst_eq_some hscan
    have : zRod < ZROD s k := by simpa using hk3
    exact absurd this (not_lt.mpr (h k (by omega)))

/-- The two outcomes of the search for the insertion index. -/
theorem findPlace_cases (s : ZWobble α) (zRod : α) :
    (findPlace s zRod = -1 ∧ ∀ j, j < s.lutSize → ZROD s j ≤ zRod) ∨
    ∃ p : Nat, p < s.lutSize ∧ findPlace s zRod = (p : Int) ∧ zRod < ZROD s p ∧
      ∀ j, j < p → ZROD s j ≤ zRod := by
  unfold findPlace
  cases hscan : scanFirst (fun i => decide (ZROD s i > zRod)) 0 s.lutSize with
  | none =>
    left
    refine ⟨rfl, fun j hj => ?_⟩
    have := scanFirst_eq_none hscan j (Nat.zero_le j) (by omega)
    simpa using this
  | some k =>
    right
    obtain ⟨_, hk2, hk3, hk4⟩ := scanFirst_eq_some hscan
    refine ⟨k, by omega, rfl, by simpa using hk3, fun j hj => ?_⟩
    have := hk4 j (Nat.zero_le j) hj
    simpa using this

/-- Ordered insertion below some stored rod position: the result. -/
theorem insertInLut_ordered (s : ZWobble α) (zRod zActual : α)
    (hscan : scanFirst (fun i => EQUAL_WITHIN_TOLERANCE zRod (ZROD s i)) 0 s.lutSize = none)
    (hlt : s.lutSize < STEPS_IN_ZLUT) (p : Nat) (hp : findPlace s zRod = (p : Int))
    (hpn : p ≤ s.lutSize) :
    ∃ s', insertInLut s zRod zActual = some s' ∧ s'.lutSize = s.lutSize + 1 ∧
      ∀ j, s'.zLut j =
        if j = p then (zRod, zActual)
        else if p < j ∧ j ≤ s.lutSize then (ZROD s (j - 1), ZACTUAL s (j - 1))
        else s.zLut j := by
  obtain ⟨s1, hs1, hcells⟩ := shiftLoop_some p s.lutSize s hpn
  have hframe := shiftLoop_frame _ _ _ _ hs1
  rw [insertInLut_spare s zRod zActual hscan hlt, hp, hs1]
  simp only [Option.some_bind, Int.natCast_nonneg, if_true, Int.toNat_ofNat]
  refine ⟨_, rfl, ?_, fun j => ?_⟩
  · show s1.lutSize + 1 = s.lutSize + 1
    rw [hframe]
  · by_cases hj : j = p
    · rw [if_pos hj]
      simp [SET_ZROD, SET_ZACTUAL, hj]
    · rw [if_neg hj, ← hcells j]
      simp [SET_ZROD, SET_ZACTUAL, hj]

/-- Insertion above every stored rod position: `zPlace` stays `-1` and the source
indexes `zLut[-1]`. -/
theorem insertInLut_append_none (s : ZWobble α) (zRod zActual : α)
    (hscan : scanFirst (fun i => EQUAL_WITHIN_TOLERANCE zRod (ZROD s i)) 0 s.lutSize = none)
    (hlt : s.lutSize < STEPS_IN_ZLUT) (hall : ∀ j, j < s.lutSize → ZROD s j ≤ zRod) :
    insertInLut s zRod zActual = none := by
  rw [insertInLut_spare s zRod zActual hscan hlt, findPlace_neg s zRod hall, shiftLoop_neg]
  rfl

theorem EQUAL_WITHIN_TOLERANCE_comm (a b : α) :
    EQUAL_WITHIN_TOLERANCE a b = EQUAL_WITHIN_TOLERANCE b a := by
  unfold EQUAL_WITHIN_TOLERANCE
  rw [DISTANCE_eq_abs, DISTANCE_eq_abs, abs_sub_comm]

/-- C9 (amended): `insertInLut` preserves the property that no two table entries have rod
positions within `TOLERANCE_MM` of each other whenever the new rod position is within
tolerance of at most one stored rod position: for every such table within capacity and
every such sample, the table after a completed `insertInLut` (in-place replace, ordered
insert, or at-capacity eviction) satisfies it again. -/
theorem C9_separation_preserved (s s' : ZWobble α) (zRod zActual : α)
    (hcap : s.lutSize ≤ STEPS_IN_ZLUT) (hsep : TolSeparated s)
    (hone : ∀ i j, i < s.lutSize → j < s.lutSize →
      EQUAL_WITHIN_TOLERANCE zRod (ZROD s i) = true →
      EQUAL_WITHIN_TOLERANCE zRod (ZROD s j) = true → i = j)
    (h : insertInLut s zRod zActual = some s') : TolSeparated s' := by
  have hover : ∀ k, k < s.lutSize →
      (∀ j, j < s.lutSize → j ≠ k → EQUAL_WITHIN_TOLERANCE zRod (ZROD s j) = false) →
      TolSeparated (SET_ZACTUAL (SET_ZROD s k zRod) k zActual) := by
    intro k hk hothers i j hi hj hij
    have hi' : i < s.lutSize := hi
    have hj' : j < s.lutSize := hj
    by_cases hik : i = k
    · have hjk : j ≠ k := fun e => hij (hik.trans e.symm)
      have := hothers j hj' hjk
      simpa [ZROD, SET_ZROD, SET_ZACTUAL, hik, hjk] using this
    · by_cases hjk : j = k
      · have := hothers i hi' hik
        rw [EQUAL_WITHIN_TOLERANCE_comm] at this
        simpa [ZROD, SET_ZROD, SET_ZACTUAL, hik, hjk] using this
      · have := hsep i j hi' hj' hij
        simpa [ZROD, SET_ZROD, SET_ZACTUAL, hik, hjk] using this
  cases hscan : scanFirst (fun i => EQUAL_WITHIN_TOLERANCE zRod (ZROD s i)) 0 s.lutSize with
  | some k =>
    rw [insertInLut_replace s zRod zActual k hscan] at h
    cases h
    obtain ⟨_, hk2, hk3, _⟩ := scanFirst_eq_some hscan
    apply hover k (by omega)
    intro j hj hjk
    cases hej : EQUAL_WITHIN_TOLERANCE zRod (ZROD s j) with
    | false => rfl
    | true => exact absurd (hone j k hj (by omega) hej hk3) hjk
  | none =>
    have hnone : ∀ j, j < s.lutSize → EQUAL_WITHIN_TOLERANCE zRod (ZROD s j) = false :=
      fun j hj => scanFirst_eq_none hscan j (Nat.zero_le j) (by omega)
    by_cases hlt : s.lutSize < STEPS_IN_ZLUT
    · rcases findPlace_cases s zRod with ⟨_, hall⟩ | ⟨p, hpn, hp, _, _⟩
      · rw [insertInLut_append_none s zRod zActual hscan hlt hall] at h
        cases h
      · obtain ⟨s1, hs1, hsize, hcells⟩ :=
          insertInLut_ordered s zRod zActual hscan hlt p hp hpn.le
        rw [hs1] at h
        cases h
        have hrod : ∀ j, j < s.lutSize + 1 → j ≠ p →
            ∃ j', j' < s.lutSize ∧ ZROD s' j = ZROD s j' ∧ (j' = if p < j then j - 1 else j) := by
          intro j hj hjp
          by_cases hpj : p < j
          · refine ⟨j - 1, by omega, ?_, by rw [if_pos hpj]⟩
            unfold ZROD
            rw [hcells j, if_neg hjp, if_pos ⟨hpj, by omega⟩]
            rfl
          · refine ⟨j, by omega, ?_, by rw [if_neg hpj]⟩
            unfold ZROD
            rw [hcells j, if_neg hjp, if_neg (fun h => hpj h.1)]
        have hnew : ZROD s' p = zRod := by
          unfold ZROD
          rw [hcells p, if_pos rfl]
        intro i j hi hj hij
        rw [hsize] at hi hj
        by_cases hip : i = p
        · have hjp : j ≠ p := fun e => hij (hip.trans e.symm)
          obtain ⟨j', hj', hr, _⟩ := hrod j hj hjp
          rw [hip, hnew, hr]
          exact hnone j' hj'
        · obtain ⟨i', hi', hri, hie⟩ := hrod i hi hip
          by_cases hjp : j = p
          · rw [hjp, hnew, hri, EQUAL_WITHIN_TOLERANCE_comm]
            exact hnone i' hi'
          · obtain ⟨j', hj', hrj, hje⟩ := hrod j hj hjp
            rw [hri, hrj]
            apply hsep i' j' hi' hj'
            rw [hie, hje]
            split_ifs <;> omega
    · rw [insertInLut_full s zRod zActual hscan hlt] at h
      cases h
      have hfull : s.lutSize = STEPS_IN_ZLUT := by omega
      have hspec := closestLoop_spec s zRod (s.lutSize - 1) 1 (0, DISTANCE zRod (ZROD s 0))
        Nat.zero_lt_one rfl (by
          intro j hj
          have : j = 0 := by omega
          rw [this])
      have hk : (closestLoop s zRod 1 (s.lutSize - 1) (0, DISTANCE zRod (ZROD s 0))).1
          < s.lutSize := by
        have := hspec.1
        have hpos : 0 < s.lutSize := by rw [hfull]; decide
        omega
      exact hover _ hk (fun j hj _ => hnone j hj)

end Shift

section Concrete
variable {α : Type} [LinearOrderedField α]

/-- On a sampled object of period 1, `setSample` is `insertInLut`. -/
theorem setSample_sampledUnit (sin : α → α) (t : Nat → α × α) (n : Nat) (r a : α) :
    setSample sin (sampledUnit t n) r a = insertInLut (sampledUnit t n) r a := by
  have h : ¬ (sampledUnit t n).m_puls ≤ 0 := not_le.mpr TWOPI_pos
  unfold setSample
  rw [if_neg h]
  rfl

/-- The scenario `setPeriod(1.0)`, `setSample(0.0, 0.0)`. -/
theorem run_identity [FloorRing α] (sin : α → α) :
    run sin (zwobble sin) [.setPeriod 1, .setSample 0 0]
      = some (sampledUnit (table3 (0, 0) (1, 1) (0, 0)) 2) := by
  simp only [run, step]
  rw [setSample_first]

/-- The scenario `setPeriod(1.0)`, `setSample(0.0, 0.0)`, `setSample(0.988, 0.988)`. -/
theorem run_closePair [FloorRing α] (sin : α → α) :
    run sin (zwobble sin) [.setPeriod 1, .setSample 0 0, .setSample (247 / 250) (247 / 250)]
      = some (sampledUnit (table3 (0, 0) (247 / 250, 247 / 250) (1, 1)) 3) := by
  simp only [run, step]
  rw [setSample_first]
  simp only []
  rw [setSample_between sin (247 / 250) (247 / 250) (by norm_num) (by norm_num)]

/-- Ordered insertion between the two identity points. -/
theorem insertInLut_between [FloorRing α] (r a : α) (hr0 : 1 / 100 ≤ r) (hr1 : r ≤ 99 / 100) :
    insertInLut (sampledUnit (table3 (0, 0) (1, 1) (0, 0)) 2) r a
      = some (sampledUnit (table3 (0, 0) (r, a) (1, 1)) 3) := by
  rw [← setSample_sampledUnit (fun x => x)]
  exact setSample_between _ r a hr0 hr1

/-- A hit at the first scanned index. -/
theorem scanFirst_hit (p : Nat → Bool) (i n : Nat) (h : p i = true) :
    scanFirst p i (n + 1) = some i := by
  rw [scanFirst, if_pos h]

/-- A miss at the first scanned index. -/
theorem scanFirst_miss (p : Nat → Bool) (i n : Nat) (h : p i = false) :
    scanFirst p i (n + 1) = scanFirst p (i + 1) n := by
  rw [scanFirst, if_neg (by simp [h])]

end Concrete

section ConcreteQ

theorem identityState_scan_two :
    scanFirst (fun i => EQUAL_WITHIN_TOLERANCE (2 : ℚ) (ZROD identityState i)) 0
      identityState.lutSize = none := by
  have e : identityState.lutSize = 1 + 1 := rfl
  rw [e, scanFirst_miss _ _ _ (by
      norm_num [EQUAL_WITHIN_TOLERANCE, DISTANCE, TOLERANCE_MM, ZROD, identityState,
        sampledUnit, table3]),
    scanFirst_miss _ _ _ (by
      norm_num [EQUAL_WITHIN_TOLERANCE, DISTANCE, TOLERANCE_MM, ZROD, identityState,
        sampledUnit, table3])]
  rfl

/-- C8 (failing input): after `setPeriod(1.0)`, `setSample(0.0, 0.0)` the table is the
strictly ascending `{(0,0),(1,1)}` of size 2 < 50; the sample `(2.0, 2.0)` is not within
tolerance of a stored rod position and lies above all of them; `insertInLut` leaves
`zPlace = -1` and indexes `zLut[-1]`, so `insertInLut`, and `setSample(2.0, 2.0)` with it,
fail instead of appending the sample. -/
theorem C8_append_indexes_out_of_bounds :
    run (fun _ => (0 : ℚ)) (zwobble (fun _ => (0 : ℚ))) [.setPeriod 1, .setSample 0 0]
      = some identityState ∧
    identityState.lutSize = 2 ∧ RodAscending identityState ∧
    (∀ j, j < identityState.lutSize →
      EQUAL_WITHIN_TOLERANCE (2 : ℚ) (ZROD identityState j) = false) ∧
    (∀ j, j < identityState.lutSize → ZROD identityState j < 2) ∧
    findPlace identityState 2 = -1 ∧
    insertInLut identityState 2 2 = none ∧
    setSample (fun _ => (0 : ℚ)) identityState 2 2 = none ∧
    run (fun _ => (0 : ℚ)) (zwobble (fun _ => (0 : ℚ)))
      [.setPeriod 1, .setSample 0 0, .setSample 2 2] = none := by
  have hrods : ∀ j, j < identityState.lutSize → ZROD identityState j < 2 := by
    intro j hj
    have hj2 : j < 2 := hj
    interval_cases j <;> norm_num [ZROD, identityState, sampledUnit, table3]
  have hins : insertInLut identityState 2 2 = none :=
    insertInLut_append_none identityState 2 2 identityState_scan_two (by decide)
      (fun j hj => (hrods j hj).le)
  have hset : setSample (fun _ => (0 : ℚ)) identityState 2 2 = none := by
    unfold identityState
    rw [setSample_sampledUnit]
    exact hins
  refine ⟨run_identity _, rfl, ?_, ?_, hrods, findPlace_neg _ _ (fun j hj => (hrods j hj).le),
    hins, hset, ?_⟩
  · intro i j hij hj
    have hj2 : j < 2 := hj
    interval_cases j
    · omega
    · interval_cases i
      norm_num [ZROD, identityState, sampledUnit, table3]
  · intro j hj
    exact scanFirst_eq_none identityState_scan_two j (Nat.zero_le j) (by omega)
  · have h2 : run (fun _ => (0 : ℚ)) (zwobble (fun _ => (0 : ℚ)))
        [.setPeriod 1, .setSample 0 0, .setSample 2 2]
        = (run (fun _ => (0 : ℚ)) (zwobble (fun _ => (0 : ℚ)))
            [.setPeriod 1, .setSample 0 0]).bind
          (fun s => setSample (fun _ => (0 : ℚ)) s 2 2) := by
      simp only [run, step]
      cases setSample (fun _ => (0 : ℚ)) (setPeriod (fun _ => (0 : ℚ))
        (zwobble (fun _ => (0 : ℚ))) 1) 0 0 with
      | none => rfl
      | some s =>
        simp only [Option.some_bind]
        cases setSample (fun _ => (0 : ℚ)) s 2 2 <;> rfl
    rw [h2, run_identity]
    exact hset

end ConcreteQ

section Counterexamples

theorem closePair_separated : TolSeparated closePairState := by
  intro i j hi hj hij
  have hi3 : i < 3 := hi
  have hj3 : j < 3 := hj
  interval_cases i <;> interval_cases j <;>
    first
    | exact absurd rfl hij
    | norm_num [EQUAL_WITHIN_TOLERANCE, DISTANCE, TOLERANCE_MM, ZROD, closePairState,
        sampledUnit, table3]

theorem closePair_scan :
    scanFirst (fun i => EQUAL_WITHIN_TOLERANCE (497 / 500 : ℚ) (ZROD closePairState i)) 0
      closePairState.lutSize = some 1 := by
  have e : closePairState.lutSize = 1 + 1 + 1 := rfl
  rw [e, scanFirst_miss _ _ _ (by
      norm_num [EQUAL_WITHIN_TOLERANCE, DISTANCE, TOLERANCE_MM, ZROD, closePairState,
        sampledUnit, table3]),
    scanFirst_hit _ _ _ (by
      norm_num [EQUAL_WITHIN_TOLERANCE, DISTANCE, TOLERANCE_MM, ZROD, closePairState,
        sampledUnit, table3])]

/-- C9 (counterexample): the table `{(0,0),(0.988,0.988),(1,1)}`, reached by
`setPeriod(1.0)`, `setSample(0.0, 0.0)`, `setSample(0.988, 0.988)`, has no two rod
positions within 0.01 of each other; inserting the sample `(0.994, 0.994)`, which is
within tolerance of both 0.988 and 1, replaces the entry at 0.988 in place, and the
resulting rods 0.994 and 1 are within 0.01 of each other. -/
theorem C9_counterexample :
    run (fun _ => (0 : ℚ)) (zwobble (fun _ => (0 : ℚ)))
        [.setPeriod 1, .setSample 0 0, .setSample (247 / 250) (247 / 250)]
      = some closePairState ∧
    TolSeparated closePairState ∧
    insertInLut closePairState (497 / 500) (497 / 500)
      = some (SET_ZACTUAL (SET_ZROD closePairState 1 (497 / 500)) 1 (497 / 500)) ∧
    ¬ TolSeparated (SET_ZACTUAL (SET_ZROD closePairState 1 (497 / 500)) 1 (497 / 500)) := by
  refine ⟨run_closePair _, closePair_separated,
    insertInLut_replace closePairState _ _ 1 closePair_scan, ?_⟩
  intro h
  have h12 := h 1 2 (by decide) (by decide) (by decide)
  norm_num [EQUAL_WITHIN_TOLERANCE, DISTANCE, TOLERANCE_MM, ZROD, closePairState,
    sampledUnit, table3, SET_ZROD, SET_ZACTUAL] at h12

theorem dense_scan :
    scanFirst (fun i => EQUAL_WITHIN_TOLERANCE (1 / 125 : ℚ) (ZROD denseState i)) 0
      denseState.lutSize = some 0 := by
  have e : denseState.lutSize = 49 + 1 := rfl
  rw [e, scanFirst_hit _ _ _ (by
      norm_num [EQUAL_WITHIN_TOLERANCE, DISTANCE, TOLERANCE_MM, ZROD, denseState,
        denseTable, sampledUnit])]

/-- C7 (counterexample): on the full table with rods `0, 0.012, ..., 0.576, 1`, the new
sample `(0.008, 0.008)` overwrites cell 0 (rod 0, distance 0.008) and no other cell,
although the entry in cell 1 (rod 0.012) is at the smaller distance 0.004. -/
theorem C7_counterexample :
    denseState.lutSize = STEPS_IN_ZLUT ∧
    insertInLut denseState (1 / 125) (1 / 125)
      = some (SET_ZACTUAL (SET_ZROD denseState 0 (1 / 125)) 0 (1 / 125)) ∧
    (SET_ZACTUAL (SET_ZROD denseState 0 (1 / 125)) 0 (1 / 125)).zLut 0
      ≠ denseState.zLut 0 ∧
    (∀ j, j ≠ 0 →
      (SET_ZACTUAL (SET_ZROD denseState 0 (1 / 125)) 0 (1 / 125)).zLut j = denseState.zLut j) ∧
    |ZROD denseState 1 - 1 / 125| < |ZROD denseState 0 - 1 / 125| := by
  refine ⟨rfl, insertInLut_replace denseState _ _ 0 dense_scan, ?_, ?_, ?_⟩
  · norm_num [SET_ZROD, SET_ZACTUAL, denseState, denseTable, sampledUnit]
  · intro j hj
    simp [SET_ZROD, SET_ZACTUAL, hj]
  · have h1 : ZROD denseState 1 = 3 / 250 := by
      norm_num [ZROD, denseState, denseTable, sampledUnit]
    have h0 : ZROD denseState 0 = 0 := by
      norm_num [ZROD, denseState, denseTable, sampledUnit]
    rw [h1, h0, abs_of_pos (by norm_num : (0 : ℚ) < 3 / 250 - 1 / 125),
      abs_of_neg (by norm_num : (0 : ℚ) - 1 / 125 < 0)]
    norm_num

end Counterexamples

section MoreWitnesses

/-- Witness of C2: amplitude 1/2, pulsation 1. -/
theorem C2_round_trip_witness :
    (∀ r : ℝ, 0 ≤ r → r < TWOPI / (sineModel (1 / 2 : ℝ) 1).m_puls →
      ∃ x, findInLut (calculateLut Real.sin (sineModel (1 / 2 : ℝ) 1))
            (r + (sineModel (1 / 2 : ℝ) 1).m_amplitude
              * Real.sin ((sineModel (1 / 2 : ℝ) 1).m_puls * r)) = some x ∧
        |x - r| ≤ TWOPI / (sineModel (1 / 2 : ℝ) 1).m_puls / (STEPS_IN_ZLUT : ℝ)) ∧
    (∀ j : Nat, j < STEPS_IN_ZLUT →
      findInLut (calculateLut Real.sin (sineModel (1 / 2 : ℝ) 1))
          (ZACTUAL (calculateLut Real.sin (sineModel (1 / 2 : ℝ) 1)) j)
        = some (ZROD (calculateLut Real.sin (sineModel (1 / 2 : ℝ) 1)) j)) :=
  C2_round_trip (sineModel (1 / 2 : ℝ) 1) rfl
    (by norm_num [sineModel]) (by norm_num [sineModel]) (by norm_num [sineModel])

/-- Witness of C7 (amended): the full table `denseTable` and the sample `(0.008, 0.008)`. -/
theorem C7_insert_at_capacity_witness :
    ∃ (k : Nat) (s' : ZWobble ℚ), k < STEPS_IN_ZLUT ∧
      insertInLut denseState (1 / 125) (1 / 125) = some s' ∧
      s'.lutSize = STEPS_IN_ZLUT ∧ s'.zLut k = (1 / 125, 1 / 125) ∧
      (∀ j, j ≠ k → s'.zLut j = denseState.zLut j) ∧
      ((|1 / 125 - ZROD denseState k| < TOLERANCE_MM ∧
          ∀ j, j < k → ¬ |1 / 125 - ZROD denseState j| < TOLERANCE_MM) ∨
        ((∀ j, j < STEPS_IN_ZLUT → ¬ |1 / 125 - ZROD denseState j| < TOLERANCE_MM) ∧
          ∀ j, j < STEPS_IN_ZLUT →
            |ZROD denseState k - 1 / 125| ≤ |ZROD denseState j - 1 / 125|)) ∧
      ((∀ i j, i < STEPS_IN_ZLUT → j < STEPS_IN_ZLUT →
          |1 / 125 - ZROD denseState i| < TOLERANCE_MM →
          |1 / 125 - ZROD denseState j| < TOLERANCE_MM → i = j) →
        ∀ j, j < STEPS_IN_ZLUT →
          |ZROD denseState k - 1 / 125| ≤ |ZROD denseState j - 1 / 125|) :=
  C7_insert_at_capacity denseState (1 / 125) (1 / 125) rfl

/-- Witness of C9 (amended): inserting `(0.5, 0.5)` into the identity table. -/
theorem C9_separation_preserved_witness :
    insertInLut identityState (1 / 2) (1 / 2)
      = some (sampledUnit (table3 (0, 0) (1 / 2, 1 / 2) (1, 1)) 3) ∧
    TolSeparated identityState ∧
    TolSeparated (sampledUnit (table3 ((0 : ℚ), (0 : ℚ)) (1 / 2, 1 / 2) (1, 1)) 3) := by
  have hins : insertInLut identityState (1 / 2) (1 / 2)
      = some (sampledUnit (table3 (0, 0) (1 / 2, 1 / 2) (1, 1)) 3) :=
    insertInLut_between (1 / 2) (1 / 2) (by norm_num) (by norm_num)
  have hsep : TolSeparated identityState := by
    intro i j hi hj hij
    have hi2 : i < 2 := hi
    have hj2 : j < 2 := hj
    interval_cases i <;> interval_cases j <;>
      first
      | exact absurd rfl hij
      | norm_num [EQUAL_WITHIN_TOLERANCE, DISTANCE, TOLERANCE_MM, ZROD, identityState,
          sampledUnit, table3]
  have hone : ∀ i j, i < identityState.lutSize → j < identityState.lutSize →
      EQUAL_WITHIN_TOLERANCE (1 / 2 : ℚ) (ZROD identityState i) = true →
      EQUAL_WITHIN_TOLERANCE (1 / 2 : ℚ) (ZROD identityState j) = true → i = j := by
    intro i j hi _ h1 _
    have hi2 : i < 2 := hi
    exfalso
    interval_cases i <;>
      norm_num [EQUAL_WITHIN_TOLERANCE, DISTANCE, TOLERANCE_MM, ZROD, identityState,
        sampledUnit, table3] at h1
  exact ⟨hins, hsep,
    C9_separation_preserved identityState _ (1 / 2) (1 / 2) (by decide) hsep hone hins⟩

end MoreWitnesses

section WellFormed
variable {α : Type} [LinearOrderedField α]

/-- A completed insertion keeps the size or, with spare capacity, adds one entry. -/
theorem insertInLut_size (s s' : ZWobble α) (zRod zActual : α)
    (h : insertInLut s zRod zActual = some s') :
    s'.lutSize = s.lutSize ∨ (s.lutSize < STEPS_IN_ZLUT ∧ s'.lutSize = s.lutSize + 1) := by
  cases hscan : scanFirst (fun i => EQUAL_WITHIN_TOLERANCE zRod (ZROD s i)) 0 s.lutSize with
  | some i =>
    rw [insertInLut_replace s zRod zActual i hscan] at h
    cases h
    exact Or.inl rfl
  | none =>
    by_cases hlt : s.lutSize < STEPS_IN_ZLUT
    · rcases findPlace_cases s zRod with ⟨_, hall⟩ | ⟨p, hpn, hp, _, _⟩
      · rw [insertInLut_append_none s zRod zActual hscan hlt hall] at h
        cases h
      · obtain ⟨s1, hs1, hsize, _⟩ := insertInLut_ordered s zRod zActual hscan hlt p hp hpn.le
        rw [hs1] at h
        cases h
        exact Or.inr ⟨hlt, hsize⟩
    · rw [insertInLut_full s zRod zActual hscan hlt] at h
      cases h
      exact Or.inl rfl

theorem SizeInv_calculateLut (sin : α → α) (s : ZWobble α) : SizeInv (calculateLut sin s) := by
  intro hc
  by_cases hsin : s.m_sinusoidal = true
  · have hp := (calculateLut_flag sin s).mp hc
    rcases hp with h | ⟨hw, ha, haw⟩
    · rw [hsin] at h; cases h
    · rw [calculateLut_sinusoidal_size sin s hsin ha hw haw]
      exact ⟨by decide, le_refl _⟩
  · have hsin' : s.m_sinusoidal = false := by simpa using hsin
    have : (calculateLut sin s).lutSize = 2 := by
      simp [calculateLut, areParametersConsistent, hsin', initLinearLut, SET_ZROD, SET_ZACTUAL]
    rw [this]
    exact ⟨le_refl _, by decide⟩

theorem SizeInv_insertInLut (s s' : ZWobble α) (zRod zActual : α) (hs : SizeInv s)
    (h : insertInLut s zRod zActual = some s') : SizeInv s' := by
  intro hc
  have hf := insertInLut_frame s s' zRod zActual h
  have hc' : s.m_consistent = true := by
    rw [hf] at hc
    exact hc
  obtain ⟨h1, h2⟩ := hs hc'
  rcases insertInLut_size s s' zRod zActual h with e | ⟨hlt, e⟩
  · rw [e]; exact ⟨h1, h2⟩
  · rw [e]; exact ⟨by omega, hlt⟩

theorem SizeInv_setSample (sin : α → α) (s s' : ZWobble α) (r a : α) (hs : SizeInv s)
    (h : setSample sin s r a = some s') : SizeInv s' := by
  unfold setSample at h
  split_ifs at h with hp hsin
  · cases h; exact hs
  · exact SizeInv_insertInLut _ _ r a (SizeInv_calculateLut sin _) h
  · exact SizeInv_insertInLut _ _ r a hs h

end WellFormed

section WellFormedRun
variable {α : Type} [LinearOrderedField α] [FloorRing α]

theorem SizeInv_step (sin : α → α) (s s' : ZWobble α) (op : Op α) (h : SizeInv s)
    (hs : step sin s op = some s') : SizeInv s' := by
  cases op with
  | setAmplitude a => cases hs; exact SizeInv_calculateLut sin _
  | setPeriod p =>
    cases hs
    unfold setPeriod
    split_ifs
    · exact h
    · exact SizeInv_calculateLut sin _
  | setPhase d => cases hs; exact h
  | setSample r a => exact SizeInv_setSample sin s s' r a h hs
  | setScaledSample r l =>
    have hs : setScaledSample sin s r l = some s' := hs
    unfold setScaledSample at hs
    cases h1 : setSample sin s r (-l) with
    | none => rw [h1] at hs; cases hs
    | some s1 =>
      rw [h1] at hs
      cases hs
      have := SizeInv_setSample sin s s1 r (-l) h h1
      rw [resolveScalingFactor_frame]
      exact this
  | setScalingFactor f => cases hs; exact h

theorem SizeInv_run (sin : α → α) (ops : List (Op α)) (s s' : ZWobble α) (h : SizeInv s)
    (hs : run sin s ops = some s') : SizeInv s' := by
  induction ops generalizing s with
  | nil => cases hs; exact h
  | cons op ops ih =>
    rw [run] at hs
    cases h1 : step sin s op with
    | none => rw [h1] at hs; cases hs
    | some s1 =>
      rw [h1] at hs
      exact ih s1 (SizeInv_step sin s s1 op h h1) hs

/-- Every consistent object reached from construction has a positive pulsation and a
table of 2 to `STEPS_IN_ZLUT` entries: the standing assumptions of the statements about
`findZRod` and `InsertCorrection`. -/
theorem reachable_wellFormed (sin : α → α) (raw : ZWobble α) (a p ph : α)
    (ops : List (Op α)) (s : ZWobble α)
    (hs : run sin (construct sin raw a p ph) ops = some s) (hc : s.m_consistent = true) :
    0 < s.m_puls ∧ 2 ≤ s.lutSize ∧ s.lutSize ≤ STEPS_IN_ZLUT := by
  have hflag := FlagInv_run sin ops _ s (FlagInv_construct sin raw a p ph) hs
  have hsize : SizeInv (construct sin raw a p ph) := by
    unfold construct Set
    have h1 : SizeInv (setPeriod sin (setAmplitude sin
        { raw with m_consistent := false, lastZ := -1, lastZRod := -1,
                   m_scalingFactor := 1, m_sinusoidal := true } a) p) := by
      unfold setPeriod
      split_ifs
      · exact SizeInv_calculateLut sin _
      · exact SizeInv_calculateLut sin _
    exact h1
  have hsz := SizeInv_run sin ops _ s hsize hs hc
  refine ⟨?_, hsz⟩
  rcases hflag.1.mp hc with h | ⟨hw, _, _⟩
  · exact hflag.2 h
  · exact hw

end WellFormedRun

section Interior
variable {α : Type} [LinearOrderedField α]

/-- Ordered insertion below some stored rod position keeps the table strictly ascending
and stores the sample: the part of the ordered insertion that the source gets right. -/
theorem insertInLut_interior_ascending (s : ZWobble α) (zRod zActual : α)
    (hlt : s.lutSize < STEPS_IN_ZLUT) (hasc : RodAscending s)
    (hfar : ∀ j, j < s.lutSize → EQUAL_WITHIN_TOLERANCE zRod (ZROD s j) = false)
    (k : Nat) (hk : k < s.lutSize) (hkz : zRod < ZROD s k) :
    ∃ s', insertInLut s zRod zActual = some s' ∧ s'.lutSize = s.lutSize + 1 ∧
      RodAscending s' ∧ ∃ p, p < s'.lutSize ∧ s'.zLut p = (zRod, zActual) := by
  have hscan : scanFirst (fun i => EQUAL_WITHIN_TOLERANCE zRod (ZROD s i)) 0 s.lutSize
      = none := by
    cases h : scanFirst (fun i => EQUAL_WITHIN_TOLERANCE zRod (ZROD s i)) 0 s.lutSize with
    | none => rfl
    | some i =>
      obtain ⟨_, h2, h3, _⟩ := scanFirst_eq_some h
      rw [hfar i (by omega)] at h3
      cases h3
  rcases findPlace_cases s zRod with ⟨_, hall⟩ | ⟨p, hpn, hp, hpz, hbelow⟩
  · exact absurd hkz (not_lt.mpr (hall k hk))
  · obtain ⟨s', hs', hsize, hcells⟩ := insertInLut_ordered s zRod zActual hscan hlt p hp hpn.le
    have hnew : ZROD s' p = zRod := by
      unfold ZROD
      rw [hcells p, if_pos rfl]
    have hlow : ∀ j, j < p → ZROD s' j = ZROD s j := by
      intro j hj
      unfold ZROD
      rw [hcells j, if_neg (by omega), if_neg (by omega)]
    have hhigh : ∀ j, p < j → j ≤ s.lutSize → ZROD s' j = ZROD s (j - 1) := by
      intro j hj hjn
      unfold ZROD
      rw [hcells j, if_neg (by omega), if_pos ⟨hj, hjn⟩]
      rfl
    have hstrict : ∀ j, j < p → ZROD s j < zRod := by
      intro j hj
      rcases (hbelow j hj).lt_or_eq with h | h
      · exact h
      · have hf := hfar j (by omega)
        rw [← h] at hf
        simp [EQUAL_WITHIN_TOLERANCE, DISTANCE, TOLERANCE_MM] at hf
    have hup : ∀ j, p ≤ j → j < s.lutSize → zRod < ZROD s j := by
      intro j hj hjn
      rcases Nat.eq_or_lt_of_le hj with e | h
      · rw [← e]; exact hpz
      · exact lt_trans hpz (hasc p j h hjn)
    refine ⟨s', hs', hsize, ?_, p, by omega, ?_⟩
    · intro i j hij hj
      rw [hsize] at hj
      rcases Nat.lt_trichotomy j p with hjp | hjp | hjp
      · rw [hlow i (by omega), hlow j hjp]
        exact hasc i j hij (by omega)
      · rw [hjp, hnew, hlow i (by omega)]
        exact hstrict i (by omega)
      · rw [hhigh j hjp (by omega)]
        rcases Nat.lt_trichotomy i p with hip | hip | hip
        · rw [hlow i hip]
          exact lt_trans (hstrict i hip) (hup (j - 1) (by omega) (by omega))
        · rw [hip, hnew]
          exact hup (j - 1) (by omega) (by omega)
        · rw [hhigh i hip (by omega)]
          exact hasc (i - 1) (j - 1) (by omega) (by omega)
    · rw [hcells p, if_pos rfl]

end Interior

section CycleSelect
variable {α : Type} [LinearOrderedField α]

/-- `findZRod` in terms of the cycle found by the search, whatever `findInLut` returns. -/
theorem findZRod_map_of_cycle (fuel : Nat) (s : ZWobble α) (z : α) (hw : s.m_puls ≠ 0)
    (m : Nat) (hm : cycleLoop s z fuel 0 (-s.m_phase / s.m_puls) = some m) :
    findZRod fuel s z =
      (findInLut s (z - cycleOrigin s ((m : Int) - 1))).map
        (fun x => cycleOrigin s ((m : Int) - 1) + x) := by
  unfold findZRod
  rw [if_neg hw, hm]
  simp only []
  unfold cycleOrigin
  cases findInLut s (z - (TWOPI * (((m : Int) - 1 : Int) : α) - s.m_phase) / s.m_puls) <;> rfl

/-- Consecutive cycle origins are one period apart. -/
theorem cycleOrigin_succ (s : ZWobble α) (hw : s.m_puls ≠ 0) (k : Int) :
    cycleOrigin s (k + 1) = cycleOrigin s k + TWOPI / s.m_puls := by
  unfold cycleOrigin
  push_cast
  field_simp
  ring

end CycleSelect

section CycleSelectArch
variable {α : Type} [LinearOrderedField α] [FloorRing α]

/-- With an unbounded cycle counter (`cycleLoop`; the `int` counter of the source is
`cycleLoopOn`): for every `w = m_puls > 0` and every `z ≥ -phase/w` (in particular every
`z ≥ 0` when `phase ≥ 0`), the search loop of `findZRod` terminates, for every fuel of at
least `k` iterations, with `k` the least positive integer such that
`cycleOrigin(k) = (TWOPI*k - phase)/w > z`; the chosen origin satisfies
`cycleOrigin(k-1) ≤ z < cycleOrigin(k-1) + TWOPI/w`, so the offset passed to `findInLut`
lies in `[0, period)`, and `findZRod(z) = cycleOrigin(k-1) + findInLut(z - cycleOrigin(k-1))`. -/
theorem cycle_selection_unbounded (s : ZWobble α) (z : α) (hw : 0 < s.m_puls)
    (hz : -s.m_phase / s.m_puls ≤ z ∨ (0 ≤ s.m_phase ∧ 0 ≤ z)) :
    ∃ k : Nat, 1 ≤ k ∧ z < cycleOrigin s k ∧
      (∀ j : Nat, 1 ≤ j → j < k → cycleOrigin s j ≤ z) ∧
      (∀ fuel, k ≤ fuel → cycleLoop s z fuel 0 (-s.m_phase / s.m_puls) = some k) ∧
      cycleOrigin s ((k : Int) - 1) ≤ z ∧
      z < cycleOrigin s ((k : Int) - 1) + TWOPI / s.m_puls ∧
      0 ≤ z - cycleOrigin s ((k : Int) - 1) ∧
      z - cycleOrigin s ((k : Int) - 1) < TWOPI / s.m_puls ∧
      ∀ fuel, k ≤ fuel →
        findZRod fuel s z =
          (findInLut s (z - cycleOrigin s ((k : Int) - 1))).map
            (fun x => cycleOrigin s ((k : Int) - 1) + x) := by
  have hz0 : cycleOrigin s 0 ≤ z := by
    rw [cycleOrigin_zero]
    rcases hz with h | ⟨hp, hz⟩
    · exact h
    · have : -s.m_phase / s.m_puls ≤ 0 := by
        apply div_nonpos_of_nonpos_of_nonneg _ hw.le
        linarith
      linarith
  obtain ⟨k, hk1, hk2, hk3⟩ := cycleLoop_terminates s z hw
  have hkpos : 1 ≤ k := by
    rcases Nat.eq_zero_or_pos k with h | h
    · rw [h] at hk1
      exact absurd hk1 (not_lt.mpr (by exact_mod_cast hz0))
    · exact h
  have hprev : cycleOrigin s ((k : Int) - 1) ≤ z := by
    have := hk2 (k - 1) (by omega)
    have e : (((k - 1 : Nat) : Int)) = (k : Int) - 1 := by omega
    rw [e] at this
    exact this
  have hnext : z < cycleOrigin s ((k : Int) - 1) + TWOPI / s.m_puls := by
    rw [← cycleOrigin_succ s (ne_of_gt hw)]
    have e : (k : Int) - 1 + 1 = (k : Int) := by omega
    rw [e]
    exact hk1
  refine ⟨k, hkpos, hk1, fun j _ hj => hk2 j hj, hk3, hprev, hnext, by linarith, by linarith,
    fun fuel hf => findZRod_map_of_cycle fuel s z (ne_of_gt hw) k (hk3 fuel hf)⟩

end CycleSelectArch

section Phase
variable {α : Type} [LinearOrderedField α] [FloorRing α]

/-- The first loop of `setPhase` leaves non-positive values alone and brings positive
values into `(-360, 0]` by subtracting a multiple of 360. -/
theorem phaseDown_spec (x : α) :
    phaseDown x ≤ 0 ∧ (0 < x → -360 < phaseDown x) ∧ (x ≤ 0 → phaseDown x = x) ∧
      ∃ n : Nat, phaseDown x = x - 360 * (n : α) := by
  induction x using phaseDown.induct with
  | case1 x hx ih =>
    obtain ⟨h1, h2, h3, n, hn⟩ := ih
    rw [phaseDown, if_pos hx]
    refine ⟨h1, fun _ => ?_, fun h => absurd hx (not_lt.mpr h), n + 1, ?_⟩
    · by_cases hx' : 0 < x - 360
      · exact h2 hx'
      · rw [h3 (not_lt.mp hx')]
        linarith
    · rw [hn]
      push_cast
      ring
  | case2 x hx =>
    rw [phaseDown, if_neg hx]
    exact ⟨not_lt.mp hx, fun h => absurd h hx, fun _ => rfl, 0, by simp⟩

/-- The second loop of `setPhase` leaves non-negative values alone and brings negative
values into `[0, 360)` by adding a multiple of 360. -/
theorem phaseUp_spec (x : α) :
    0 ≤ phaseUp x ∧ (x < 0 → phaseUp x < 360) ∧ (0 ≤ x → phaseUp x = x) ∧
      ∃ n : Nat, phaseUp x = x + 360 * (n : α) := by
  induction x using phaseUp.induct with
  | case1 x hx ih =>
    obtain ⟨h1, h2, h3, n, hn⟩ := ih
    rw [phaseUp, if_pos hx]
    refine ⟨h1, fun _ => ?_, fun h => absurd hx (not_lt.mpr h), n + 1, ?_⟩
    · by_cases hx' : x + 360 < 0
      · exact h2 hx'
      · rw [h3 (not_lt.mp hx')]
        linarith
    · rw [hn]
      push_cast
      ring
  | case2 x hx =>
    rw [phaseUp, if_neg hx]
    exact ⟨not_lt.mp hx, fun h => absurd h hx, fun _ => rfl, 0, by simp⟩

/-- The two loops together reduce the argument modulo 360 into `[0, 360)`. -/
theorem phase_normalised (d : α) :
    0 ≤ phaseUp (phaseDown d) ∧ phaseUp (phaseDown d) < 360 ∧
      ∃ k : Int, phaseUp (phaseDown d) - d = 360 * (k : α) := by
  obtain ⟨hd1, _, _, n1, hn1⟩ := phaseDown_spec d
  obtain ⟨hu1, hu2, hu3, n2, hn2⟩ := phaseUp_spec (phaseDown d)
  refine ⟨hu1, ?_, (n2 : Int) - (n1 : Int), ?_⟩
  · rcases hd1.lt_or_eq with h | h
    · exact hu2 h
    · rw [hu3 (le_of_eq h.symm), h]
      norm_num
  · rw [hn2, hn1]
    push_cast
    ring

/-- In exact arithmetic, for every input `d` in degrees, both loops of `setPhase` terminate
(`setPhase` is total) and the stored phase equals `d'*M_PI/180` where `d'` is the unique value with
`0 ≤ d' < 360` and `d' - d` an integer multiple of 360; amplitude, angular frequency, the
sinusoidal flag and the table (and every other member) are left unchanged. -/
theorem setPhase_exact_normalisation (s : ZWobble α) (d : α) :
    ∃ d' : α, 0 ≤ d' ∧ d' < 360 ∧ (∃ k : Int, d' - d = 360 * (k : α)) ∧
      (∀ e : α, 0 ≤ e → e < 360 → (∃ k : Int, e - d = 360 * (k : α)) → e = d') ∧
      setPhase s d = { s with m_phase := d' * M_PI / 180 } ∧
      (setPhase s d).m_amplitude = s.m_amplitude ∧ (setPhase s d).m_puls = s.m_puls ∧
      (setPhase s d).m_sinusoidal = s.m_sinusoidal ∧ (setPhase s d).zLut = s.zLut ∧
      (setPhase s d).lutSize = s.lutSize := by
  obtain ⟨h0, h1, k, hk⟩ := phase_normalised d
  refine ⟨phaseUp (phaseDown d), h0, h1, ⟨k, hk⟩, ?_, rfl, rfl, rfl, rfl, rfl, rfl⟩
  intro e he0 he1 ⟨k', hk'⟩
  have hdiff : e - phaseUp (phaseDown d) = 360 * (((k' - k : Int)) : α) := by
    push_cast
    linarith
  have hlt : (((k' - k : Int)) : α) < 1 := by
    by_contra h
    have := not_lt.mp h
    nlinarith
  have hgt : (-1 : α) < (((k' - k : Int)) : α) := by
    by_contra h
    have := not_lt.mp h
    nlinarith
  have hz : k' - k = 0 := by
    have h1 : k' - k < 1 := by exact_mod_cast hlt
    have h2 : -1 < k' - k := by exact_mod_cast hgt
    omega
  rw [hz] at hdiff
  simp at hdiff
  linarith

end Phase

section PhaseShift
variable {α : Type} [LinearOrderedField α]

end PhaseShift

section PhaseShiftArch
variable {α : Type} [LinearOrderedField α] [FloorRing α]

end PhaseShiftArch

section Cache
variable {α : Type} [LinearOrderedField α]

/-- A rebuild clears the cache. -/
theorem calculateLut_cache (sin : α → α) (s : ZWobble α) :
    (calculateLut sin s).lastZ = -1 ∧ (calculateLut sin s).lastZRod = -1 := by
  rcases Bool.eq_false_or_eq_true s.m_sinusoidal with hsin | hsin
  · by_cases hc : s.m_puls ≤ 0 ∨ s.m_amplitude ≤ 0 ∨ s.m_amplitude * s.m_puls ≥ 1
    · unfold calculateLut areParametersConsistent
      simp [hsin, hc]
    · push_neg at hc
      obtain ⟨hw, ha, haw⟩ := hc
      rw [calculateLut_sinusoidal sin s hsin ha hw haw, lutLoop_frame]
      exact ⟨rfl, rfl⟩
  · unfold calculateLut areParametersConsistent
    simp [hsin, initLinearLut, SET_ZROD, SET_ZACTUAL]

/-- The mutators that rebuild the table clear the cache: `setAmplitude`, `setPeriod` with
a positive period, and the first `setSample` of a sinusoidal model. -/
theorem rebuilding_mutators_clear_cache (sin : α → α) (s : ZWobble α) :
    (∀ a, (setAmplitude sin s a).lastZ = -1 ∧ (setAmplitude sin s a).lastZRod = -1) ∧
    (∀ p, 0 < p → (setPeriod sin s p).lastZ = -1 ∧ (setPeriod sin s p).lastZRod = -1) ∧
    (∀ r a s', 0 < s.m_puls → s.m_sinusoidal = true → setSample sin s r a = some s' →
      s'.lastZ = -1 ∧ s'.lastZRod = -1) := by
  refine ⟨fun a => calculateLut_cache sin _, fun p hp => ?_, fun r a s' hw hsin h => ?_⟩
  · unfold setPeriod
    rw [if_neg (not_le.mpr hp)]
    exact calculateLut_cache sin _
  · unfold setSample at h
    rw [if_neg (not_le.mpr hw)] at h
    simp only [hsin, if_true] at h
    have hf := insertInLut_frame _ _ _ _ h
    have hc := calculateLut_cache sin { s with m_sinusoidal := false }
    rw [hf]
    exact hc

/-- In sampled mode `setSample` leaves the cache as it was. -/
theorem setSample_sampled_cache (sin : α → α) (s s' : ZWobble α) (r a : α)
    (hsin : s.m_sinusoidal = false) (h : setSample sin s r a = some s') :
    s'.lastZ = s.lastZ ∧ s'.lastZRod = s.lastZRod := by
  unfold setSample at h
  split_ifs at h with hp hs
  · cases h; exact ⟨rfl, rfl⟩
  · rw [hsin] at hs; cases hs
  · have hf := insertInLut_frame _ _ _ _ h
    rw [hf]
    exact ⟨rfl, rfl⟩

end Cache

section CacheConcrete

theorem steep_findZRod_half : findZRod 1 steepState (1 / 2) = some (7 / 8) := by
  norm_num [findZRod, cycleLoop, findInLut, scanFirst, steepState, sampledUnit, table3, TWOPI,
    ZACTUAL, ZROD, STEPS_IN_ZLUT]

/-- A correction to 0.5 mm from step position 1 (10 steps per mm) on the steep table returns
1 and leaves the cache `(0.5, 0.875)`. -/
theorem steep_correction_sets_cache :
    InsertCorrection 1 steepState 1 10 (1 / 2) = some (1, 0, cachedState) := by
  have ho : (if (((1 : Int) : ℚ) / 10) = steepState.lastZ then some steepState.lastZRod
      else findZRod 1 steepState (((1 : Int) : ℚ) / 10)) = some (2 / 5) := by
    have hl : ¬ ((((1 : Int) : ℚ) / 10) = steepState.lastZ) := by
      norm_num [steepState, sampledUnit]
    rw [if_neg hl]
    have : (((1 : Int) : ℚ) / 10) = 1 / 10 := by norm_num
    rw [this]
    exact steep_findZRod_origin
  have hd : lround (((7 / 8 : ℚ) - 2 / 5) * 10) - (lround ((1 / 2 : ℚ) * 10) - 1) = 1 := by
    rw [lround_eq _ 5 (by norm_num) (by norm_num) (by norm_num),
      lround_eq _ 5 (by norm_num) (by norm_num) (by norm_num)]
    norm_num
  rw [InsertCorrection_pass 1 steepState 1 10 (1 / 2) (2 / 5) (7 / 8) rfl (by norm_num)
    (by norm_num [ZWOBBLE_MIN_Z]) (by norm_num [ZWOBBLE_MIN_Z])
    (by norm_num [TOLERANCE_MM, abs_of_pos]) ho steep_findZRod_half, hd]
  norm_num
  rfl

theorem cached_scan :
    scanFirst (fun i => EQUAL_WITHIN_TOLERANCE (4 / 5 : ℚ) (ZROD cachedState i)) 0
      cachedState.lutSize = some 1 := by
  have e : cachedState.lutSize = 1 + 1 + 1 := rfl
  rw [e, scanFirst_miss _ _ _ (by
      norm_num [EQUAL_WITHIN_TOLERANCE, DISTANCE, TOLERANCE_MM, ZROD, cachedState, steepState,
        sampledUnit, table3]),
    scanFirst_hit _ _ _ (by
      norm_num [EQUAL_WITHIN_TOLERANCE, DISTANCE, TOLERANCE_MM, ZROD, cachedState, steepState,
        sampledUnit, table3])]

theorem setPhase_cached : setPhase cachedState 180 = phasedState := by
  have h1 : phaseDown (180 : ℚ) = -180 := by
    rw [phaseDown, if_pos (by norm_num), phaseDown, if_neg (by norm_num)]
    norm_num
  have h2 : phaseUp (-180 : ℚ) = 180 := by
    rw [phaseUp, if_pos (by norm_num), phaseUp, if_neg (by norm_num)]
    norm_num
  unfold setPhase
  simp only [h1, h2]
  norm_num [phasedState]

end CacheConcrete

section CacheClaims

/-- C12 (failing input): on the steep table reached by `setPeriod(1.0)`,
`setSample(0.0, 0.0)`, `setSample(0.8, 0.2)`, a correction to 0.5 mm leaves the cache
`(lastZ, lastZRod) = (0.5, 0.875)`; after `setPhase(180)`, after `setScalingFactor(2)`,
after `setSample(0.8, 0.25)` and after `setScaledSample(0.8, 0.25)` the cache is still
`(0.5, 0.875)`, not `(-1, -1)`. -/
theorem C12_cache_survives_mutation :
    run (fun _ => (0 : ℚ)) (zwobble (fun _ => (0 : ℚ)))
        [.setPeriod 1, .setSample 0 0, .setSample (4 / 5) (1 / 5)] = some steepState ∧
    InsertCorrection 1 steepState 1 10 (1 / 2) = some (1, 0, cachedState) ∧
    ((setPhase cachedState 180).lastZ, (setPhase cachedState 180).lastZRod) = (1 / 2, 7 / 8) ∧
    ((setScalingFactor cachedState 2).lastZ, (setScalingFactor cachedState 2).lastZRod)
      = (1 / 2, 7 / 8) ∧
    (∃ s', setSample (fun _ => (0 : ℚ)) cachedState (4 / 5) (1 / 4) = some s' ∧
      (s'.lastZ, s'.lastZRod) = (1 / 2, 7 / 8)) ∧
    (∃ s', setScaledSample (fun _ => (0 : ℚ)) cachedState (4 / 5) (1 / 4) = some s' ∧
      (s'.lastZ, s'.lastZRod) = (1 / 2, 7 / 8)) := by
  have hset : ∀ a : ℚ, setSample (fun _ => (0 : ℚ)) cachedState (4 / 5) a
      = some (SET_ZACTUAL (SET_ZROD cachedState 1 (4 / 5)) 1 a) := by
    intro a
    have hp : ¬ cachedState.m_puls ≤ 0 := not_le.mpr TWOPI_pos
    unfold setSample
    rw [if_neg hp]
    exact insertInLut_replace cachedState (4 / 5) a 1 cached_scan
  refine ⟨run_steep _, steep_correction_sets_cache, rfl, rfl, ⟨_, hset _, rfl⟩, ?_⟩
  unfold setScaledSample
  rw [hset]
  exact ⟨_, rfl, by rw [resolveScalingFactor_frame]; rfl⟩

/-- C13 (amended): for every state and every `p > 0`, after `setPeriod(p)` the angular
frequency is `TWOPI/p` and `m_sinusoidal` has the value it had before: a model put in
sampled mode by an earlier `setSample` stays sampled, its table reset to the 2-point
identity table `{(0,0),(p,p)}`; `setAmplitude` is the setter that marks the model
sinusoidal. -/
theorem C13_setPeriod_keeps_mode {α : Type} [LinearOrderedField α] (sin : α → α)
    (s : ZWobble α) (p : α) (hp : 0 < p) :
    (setPeriod sin s p).m_puls = TWOPI / p ∧
    (setPeriod sin s p).m_sinusoidal = s.m_sinusoidal ∧
    (s.m_sinusoidal = false →
      (setPeriod sin s p).lutSize = 2 ∧ (setPeriod sin s p).zLut 0 = (0, 0) ∧
      (setPeriod sin s p).zLut 1 = (p, p)) ∧
    (∀ a, (setAmplitude sin s a).m_sinusoidal = true) := by
  have hpar := calculateLut_params sin { s with m_puls := TWOPI / p }
  have hset : setPeriod sin s p = calculateLut sin { s with m_puls := TWOPI / p } := by
    unfold setPeriod
    rw [if_neg (not_le.mpr hp)]
  refine ⟨?_, ?_, ?_, ?_⟩
  · rw [hset]; exact hpar.2.1
  · rw [hset]; exact hpar.2.2
  · intro hsin
    have hT : (TWOPI : α) ≠ 0 := ne_of_gt TWOPI_pos
    have hpp : TWOPI / (TWOPI / p) = p := by
      field_simp
    rw [hset]
    unfold calculateLut areParametersConsistent
    simp [hsin, initLinearLut, SET_ZROD, SET_ZACTUAL, hpp]
  · intro a
    exact (calculateLut_params sin
      { s with m_amplitude := a, m_sinusoidal := true }).2.2

/-- C13 (counterexample): the object put in sampled mode by `setPeriod(1.0)`,
`setSample(0.0, 0.0)`, `setSample(0.5, 0.6)` is still not sinusoidal after `setPeriod(2)`. -/
theorem C13_counterexample :
    run (fun _ => (0 : ℚ)) (zwobble (fun _ => (0 : ℚ)))
        [.setPeriod 1, .setSample 0 0, .setSample (1 / 2) (3 / 5)] = some scenarioState ∧
    (setPeriod (fun _ => (0 : ℚ)) scenarioState 2).m_sinusoidal = false ∧
    (setPeriod (fun _ => (0 : ℚ)) scenarioState 2).m_puls = TWOPI / 2 := by
  have hset : setPeriod (fun _ => (0 : ℚ)) scenarioState 2
      = calculateLut (fun _ => (0 : ℚ)) { scenarioState with m_puls := TWOPI / 2 } := by
    unfold setPeriod
    rw [if_neg (by norm_num)]
  have hpar := calculateLut_params (fun _ => (0 : ℚ))
    { scenarioState with m_puls := TWOPI / 2 }
  refine ⟨run_scenario _, ?_, ?_⟩
  · rw [hset]; exact hpar.2.2
  · rw [hset]; exact hpar.2.1

/-- Witness of C13 (amended): `setPeriod(2)` on the sampled scenario table. -/
theorem C13_setPeriod_keeps_mode_witness :
    (setPeriod (fun _ => (0 : ℚ)) scenarioState 2).m_puls = TWOPI / 2 ∧
    (setPeriod (fun _ => (0 : ℚ)) scenarioState 2).m_sinusoidal = scenarioState.m_sinusoidal ∧
    (scenarioState.m_sinusoidal = false →
      (setPeriod (fun _ => (0 : ℚ)) scenarioState 2).lutSize = 2 ∧
      (setPeriod (fun _ => (0 : ℚ)) scenarioState 2).zLut 0 = (0, 0) ∧
      (setPeriod (fun _ => (0 : ℚ)) scenarioState 2).zLut 1 = (2, 2)) ∧
    (∀ a, (setAmplitude (fun _ => (0 : ℚ)) scenarioState a).m_sinusoidal = true) :=
  C13_setPeriod_keeps_mode (fun _ => (0 : ℚ)) scenarioState 2 (by norm_num)

end CacheClaims

section Idem
variable {α : Type} [LinearOrderedField α]

/-- The cycle search does not read the cache. -/
theorem cycleLoop_cache (s : ZWobble α) (a b z : α) (fuel nCycle : Nat) (identicalZ : α) :
    cycleLoop { s with lastZ := a, lastZRod := b } z fuel nCycle identicalZ
      = cycleLoop s z fuel nCycle identicalZ := by
  induction fuel generalizing nCycle identicalZ with
  | zero => rfl
  | succ fuel ih =>
    rw [cycleLoop, cycleLoop, ih]

/-- The reverse lookup does not read the cache. -/
theorem findInLut_cache (s : ZWobble α) (a b z : α) :
    findInLut { s with lastZ := a, lastZRod := b } z = findInLut s z := rfl

/-- `findZRod` does not read the cache. -/
theorem findZRod_cache (fuel : Nat) (s : ZWobble α) (a b z : α) :
    findZRod fuel { s with lastZ := a, lastZRod := b } z = findZRod fuel s z := by
  unfold findZRod
  rw [cycleLoop_cache]
  rfl

end Idem

section IdemConcrete

theorem phased_findZRod_target :
    findZRod 2 phasedState (3 / 5)
      = some (282743338823068985769 / 314159265359000000000) := by
  norm_num [findZRod, cycleLoop, findInLut, scanFirst, phasedState, cachedState, steepState,
    sampledUnit, table3, TWOPI, M_PI, ZACTUAL, ZROD, STEPS_IN_ZLUT]

theorem phased_findZRod_origin :
    findZRod 2 phasedState (1 / 2)
      = some (628318530718031014231 / 1256637061436000000000) := by
  norm_num [findZRod, cycleLoop, findInLut, scanFirst, phasedState, cachedState, steepState,
    sampledUnit, table3, TWOPI, M_PI, ZACTUAL, ZROD, STEPS_IN_ZLUT]

/-- C14 (failing input): on the steep table a correction to 0.5 mm leaves the cache
`(0.5, 0.875)`; `setPhase(180)` then shifts the cycle origins but keeps the cache.  With
10 steps per mm and step position 5 (origin 0.5 mm, equal to the cached `lastZ`),
`InsertCorrection(0.6)` takes the cached rod 0.875 as origin rod and returns -1; called
again with the step position restored to 5 it resolves the origin rod afresh (about 0.5)
and returns 3. -/
theorem C14_stale_cache_breaks_idempotence :
    run (fun _ => (0 : ℚ)) (zwobble (fun _ => (0 : ℚ)))
        [.setPeriod 1, .setSample 0 0, .setSample (4 / 5) (1 / 5)] = some steepState ∧
    InsertCorrection 1 steepState 1 10 (1 / 2) = some (1, 0, cachedState) ∧
    setPhase cachedState 180 = phasedState ∧
    InsertCorrection 2 phasedState 5 10 (3 / 5) = some (-1, 6, recachedState) ∧
    InsertCorrection 2 recachedState 5 10 (3 / 5) = some (3, 2, recachedState) := by
  refine ⟨run_steep _, steep_correction_sets_cache, setPhase_cached, ?_, ?_⟩
  · have ho : (if (((5 : Int) : ℚ) / 10) = phasedState.lastZ then some phasedState.lastZRod
        else findZRod 2 phasedState (((5 : Int) : ℚ) / 10)) = some (7 / 8) := by
      have hl : (((5 : Int) : ℚ) / 10) = phasedState.lastZ := by
        norm_num [phasedState, cachedState]
      rw [if_pos hl]
      rfl
    have hd : lround (((282743338823068985769 / 314159265359000000000 : ℚ) - 7 / 8) * 10)
        - (lround ((3 / 5 : ℚ) * 10) - 5) = -1 := by
      rw [lround_eq _ 0 (by norm_num) (by norm_num) (by norm_num),
        lround_eq _ 6 (by norm_num) (by norm_num) (by norm_num)]
      norm_num
    rw [InsertCorrection_pass 2 phasedState 5 10 (3 / 5) (7 / 8) _ rfl (by norm_num)
      (by norm_num [ZWOBBLE_MIN_Z]) (by norm_num [ZWOBBLE_MIN_Z])
      (by norm_num [TOLERANCE_MM, abs_of_pos]) ho phased_findZRod_target, hd]
    norm_num
    rfl
  · have ho : (if (((5 : Int) : ℚ) / 10) = recachedState.lastZ then some recachedState.lastZRod
        else findZRod 2 recachedState (((5 : Int) : ℚ) / 10))
        = some (628318530718031014231 / 1256637061436000000000) := by
      have hl : ¬ ((((5 : Int) : ℚ) / 10) = recachedState.lastZ) := by
        norm_num [recachedState]
      rw [if_neg hl]
      unfold recachedState
      rw [findZRod_cache]
      have : (((5 : Int) : ℚ) / 10) = 1 / 2 := by norm_num
      rw [this]
      exact phased_findZRod_origin
    have ht : findZRod 2 recachedState (3 / 5)
        = some (282743338823068985769 / 314159265359000000000) := by
      unfold recachedState
      rw [findZRod_cache]
      exact phased_findZRod_target
    have hd : lround (((282743338823068985769 / 314159265359000000000 : ℚ)
          - 628318530718031014231 / 1256637061436000000000) * 10)
        - (lround ((3 / 5 : ℚ) * 10) - 5) = 3 := by
      rw [lround_eq _ 4 (by norm_num) (by norm_num) (by norm_num),
        lround_eq _ 6 (by norm_num) (by norm_num) (by norm_num)]
      norm_num
    rw [InsertCorrection_pass 2 recachedState 5 10 (3 / 5) _ _ rfl (by norm_num)
      (by norm_num [ZWOBBLE_MIN_Z]) (by norm_num [ZWOBBLE_MIN_Z])
      (by norm_num [TOLERANCE_MM, abs_of_pos]) ho ht, hd]
    norm_num
    rfl

end IdemConcrete

section IdemGeneral
variable {α : Type} [LinearOrderedField α] [FloorRing α]

/-- `InsertCorrection` when one of its guards fires. -/
theorem InsertCorrection_guard (fuel : Nat) (s : ZWobble α) (position : Int)
    (axis_steps_per_unit targetZ : α)
    (h : s.m_consistent = false ∨
      (axis_steps_per_unit ≠ 0 ∧
        (((position : α) / axis_steps_per_unit < ZWOBBLE_MIN_Z ∨ targetZ < ZWOBBLE_MIN_Z) ∨
          EQUAL_WITHIN_TOLERANCE ((position : α) / axis_steps_per_unit) targetZ = true))) :
    InsertCorrection fuel s position axis_steps_per_unit targetZ = some (0, position, s) := by
  unfold InsertCorrection
  cases hc : s.m_consistent with
  | false => simp
  | true =>
    rcases h with h | ⟨hne, h⟩
    · rw [hc] at h; cases h
    · simp only [Bool.not_true, Bool.false_eq_true, if_false, if_neg hne]
      by_cases h1 : (position : α) / axis_steps_per_unit < ZWOBBLE_MIN_Z ∨
          targetZ < ZWOBBLE_MIN_Z
      · rw [if_pos h1]
      · rcases h with h | h
        · exact absurd h h1
        · rw [if_neg h1, if_pos h]

/-- When the cache is coherent with the model (or missed), a second identical call with
the step position restored returns the same correction. -/
theorem InsertCorrection_twice_of_coherent (fuel : Nat) (s s' : ZWobble α)
    (position position' r : Int) (axis_steps_per_unit targetZ : α)
    (h : InsertCorrection fuel s position axis_steps_per_unit targetZ = some (r, position', s'))
    (hcoh : (position : α) / axis_steps_per_unit = s.lastZ →
      findZRod fuel s s.lastZ = some s.lastZRod) :
    ∃ position'' s'',
      InsertCorrection fuel s' position axis_steps_per_unit targetZ
        = some (r, position'', s'') := by
  by_cases hc : s.m_consistent = false
  · rw [InsertCorrection_guard fuel s position _ _ (Or.inl hc)] at h
    cases h
    exact ⟨_, _, InsertCorrection_guard fuel s position _ _ (Or.inl hc)⟩
  have hc' : s.m_consistent = true := by simpa using hc
  by_cases hspu : axis_steps_per_unit = 0
  · exfalso
    unfold InsertCorrection at h
    simp [hc', hspu] at h
  by_cases hg : ((position : α) / axis_steps_per_unit < ZWOBBLE_MIN_Z ∨
      targetZ < ZWOBBLE_MIN_Z) ∨
      EQUAL_WITHIN_TOLERANCE ((position : α) / axis_steps_per_unit) targetZ = true
  · rw [InsertCorrection_guard fuel s position _ _ (Or.inr ⟨hspu, hg⟩)] at h
    cases h
    exact ⟨_, _, InsertCorrection_guard fuel s position _ _ (Or.inr ⟨hspu, hg⟩)⟩
  push_neg at hg
  obtain ⟨⟨ho, ht⟩, he⟩ := hg
  have htol : TOLERANCE_MM ≤ |targetZ - (position : α) / axis_steps_per_unit| := by
    have : ¬ (EQUAL_WITHIN_TOLERANCE ((position : α) / axis_steps_per_unit) targetZ = true) := he
    rw [EQUAL_WITHIN_TOLERANCE_iff, not_lt, abs_sub_comm] at this
    simpa [TOLERANCE_MM] using this
  have hne : (position : α) / axis_steps_per_unit ≠ targetZ := by
    intro e
    rw [e, sub_self, abs_zero] at htol
    have : (0 : α) < TOLERANCE_MM := by unfold TOLERANCE_MM; norm_num
    exact absurd htol (not_le.mpr this)
  cases horig : (if (position : α) / axis_steps_per_unit = s.lastZ then some s.lastZRod
      else findZRod fuel s ((position : α) / axis_steps_per_unit)) with
  | none =>
    exfalso
    unfold InsertCorrection at h
    simp only [hc', Bool.not_true, Bool.false_eq_true, if_false, if_neg hspu,
      if_neg (not_or.mpr ⟨not_lt.mpr ho, not_lt.mpr ht⟩), if_neg he] at h
    rw [horig] at h
    cases h
  | some oRod =>
    cases htarget : findZRod fuel s targetZ with
    | none =>
      exfalso
      unfold InsertCorrection at h
      simp only [hc', Bool.not_true, Bool.false_eq_true, if_false, if_neg hspu,
        if_neg (not_or.mpr ⟨not_lt.mpr ho, not_lt.mpr ht⟩), if_neg he] at h
      rw [horig] at h
      simp only [] at h
      rw [htarget] at h
      cases h
    | some tRod =>
      have hfresh : findZRod fuel s ((position : α) / axis_steps_per_unit) = some oRod := by
        by_cases hhit : (position : α) / axis_steps_per_unit = s.lastZ
        · rw [if_pos hhit] at horig
          rw [hhit, hcoh hhit]
          exact horig
        · rw [if_neg hhit] at horig
          exact horig
      rw [InsertCorrection_pass fuel s position axis_steps_per_unit targetZ oRod tRod hc' hspu
        ho ht htol horig htarget] at h
      have hs' : s' = { s with lastZ := targetZ, lastZRod := tRod } := by
        split_ifs at h <;> cases h <;> rfl
      have horig' : (if (position : α) / axis_steps_per_unit
            = ({ s with lastZ := targetZ, lastZRod := tRod } : ZWobble α).lastZ
          then some ({ s with lastZ := targetZ, lastZRod := tRod } : ZWobble α).lastZRod
          else findZRod fuel { s with lastZ := targetZ, lastZRod := tRod }
            ((position : α) / axis_steps_per_unit)) = some oRod := by
        rw [if_neg hne, findZRod_cache]
        exact hfresh
      have htarget' : findZRod fuel { s with lastZ := targetZ, lastZRod := tRod } targetZ
          = some tRod := by
        rw [findZRod_cache]
        exact htarget
      have h2 := InsertCorrection_pass fuel { s with lastZ := targetZ, lastZRod := tRod }
        position axis_steps_per_unit targetZ oRod tRod hc' hspu ho ht htol horig' htarget'
      rw [hs', h2]
      split_ifs at h ⊢ with hneg
      · cases h
        exact ⟨_, _, rfl⟩
      · cases h
        exact ⟨_, _, rfl⟩

end IdemGeneral

section Scaling
variable {α : Type} [LinearOrderedField α]

/-- The scan for scaled entries does not read the scaling factor. -/
theorem scaledLoop_factor (s : ZWobble α) (f period : α) (i n : Nat) (acc : Int × Int) :
    scaledLoop { s with m_scalingFactor := f } period i n acc = scaledLoop s period i n acc := by
  induction n generalizing i acc with
  | zero => rfl
  | succ n ih =>
    rw [scaledLoop, scaledLoop, ih, ih]
    rfl

/-- The entries selected by the scan are scaled entries of the table, `s1` below `s2`. -/
theorem scaledLoop_spec (s : ZWobble α) (period : α) (n i : Nat) (acc : Int × Int)
    (h2 : 0 ≤ acc.2 → acc.2 < i ∧ ZACTUAL_IS_SCALED s acc.2.toNat = true)
    (h1 : 0 ≤ acc.1 → 0 ≤ acc.2 ∧ acc.1 < acc.2 ∧ ZACTUAL_IS_SCALED s acc.1.toNat = true) :
    (0 ≤ (scaledLoop s period i n acc).2 →
      (scaledLoop s period i n acc).2 < ((i + n : Nat) : Int) ∧
      ZACTUAL_IS_SCALED s (scaledLoop s period i n acc).2.toNat = true) ∧
    (0 ≤ (scaledLoop s period i n acc).1 →
      0 ≤ (scaledLoop s period i n acc).2 ∧
      (scaledLoop s period i n acc).1 < (scaledLoop s period i n acc).2 ∧
      ZACTUAL_IS_SCALED s (scaledLoop s period i n acc).1.toNat = true) := by
  induction n generalizing i acc with
  | zero =>
    refine ⟨fun h => ?_, h1⟩
    obtain ⟨ha, hb⟩ := h2 h
    exact ⟨by simpa using ha, hb⟩
  | succ n ih =>
    rw [scaledLoop]
    have e : ((i + (n + 1) : Nat) : Int) = ((i + 1 + n : Nat) : Int) := by
      push_cast; ring
    rw [e]
    by_cases hsc : ZACTUAL_IS_SCALED s i = true
    · rw [if_pos hsc]
      have a2 : 0 ≤ ((acc.2, (i : Int)) : Int × Int).2 →
          ((acc.2, (i : Int)) : Int × Int).2 < ((i + 1 : Nat) : Int) ∧
          ZACTUAL_IS_SCALED s ((acc.2, (i : Int)) : Int × Int).2.toNat = true := by
        intro _
        refine ⟨by push_cast; omega, ?_⟩
        simpa using hsc
      have a1 : 0 ≤ ((acc.2, (i : Int)) : Int × Int).1 →
          0 ≤ ((acc.2, (i : Int)) : Int × Int).2 ∧
          ((acc.2, (i : Int)) : Int × Int).1 < ((acc.2, (i : Int)) : Int × Int).2 ∧
          ZACTUAL_IS_SCALED s ((acc.2, (i : Int)) : Int × Int).1.toNat = true := by
        intro h
        obtain ⟨ha, hb⟩ := h2 h
        exact ⟨by simp, ha, hb⟩
      by_cases hper : ZROD s i ≥ period
      · rw [if_pos hper]
        refine ⟨fun h => ?_, a1⟩
        obtain ⟨ha, hb⟩ := a2 h
        refine ⟨?_, hb⟩
        have : ((acc.2, (i : Int)) : Int × Int).2 = (i : Int) := rfl
        rw [this]
        push_cast
        omega
      · rw [if_neg hper]
        exact ih (i + 1) _ a2 a1
    · rw [if_neg hsc]
      refine ih (i + 1) acc (fun h => ?_) h1
      obtain ⟨ha, hb⟩ := h2 h
      exact ⟨by push_cast; omega, hb⟩

/-- The resolved value of a scaled entry. -/
theorem ZACTUAL_of_scaled (s : ZWobble α) (i : Nat) (h : ZACTUAL_IS_SCALED s i = true) :
    ZACTUAL s i = -(s.zLut i).2 * s.m_scalingFactor ∧ 0 < -(s.zLut i).2 := by
  have h' : (s.zLut i).2 < 0 := by simpa [ZACTUAL_IS_SCALED] using h
  unfold ZACTUAL
  rw [if_pos h']
  exact ⟨rfl, by linarith⟩

end Scaling

section Resolve
variable {α : Type} [LinearOrderedField α]

/-- The selected scaled entries are scaled entries within the table, `s1` below `s2`. -/
theorem scaledPair_spec (s : ZWobble α) :
    (0 ≤ (scaledPair s).2 → (scaledPair s).2.toNat < s.lutSize ∧
      ZACTUAL_IS_SCALED s (scaledPair s).2.toNat = true) ∧
    (0 ≤ (scaledPair s).1 → 0 ≤ (scaledPair s).2 ∧ (scaledPair s).1 < (scaledPair s).2 ∧
      ZACTUAL_IS_SCALED s (scaledPair s).1.toNat = true) := by
  have h := scaledLoop_spec s (TWOPI / s.m_puls) s.lutSize 0 (-1, -1)
    (fun h => absurd h (by decide)) (fun h => absurd h (by decide))
  refine ⟨fun h2 => ?_, h.2⟩
  obtain ⟨ha, hb⟩ := h.1 h2
  refine ⟨?_, hb⟩
  have : (scaledPair s).2 < ((0 + s.lutSize : Nat) : Int) := ha
  have h2' : 0 ≤ (scaledPair s).2 := h2
  omega

/-- The selection does not change with the scaling factor. -/
theorem scaledPair_factor (s : ZWobble α) (f : α) :
    scaledPair { s with m_scalingFactor := f } = scaledPair s := by
  unfold scaledPair
  exact scaledLoop_factor s f _ 0 s.lutSize (-1, -1)

/-- The three outcomes of the scaling-factor resolution for a non-zero factor. -/
theorem resolveScalingFactor_eq (s : ZWobble α) (hsf : s.m_scalingFactor ≠ 0) :
    ((scaledPair s).2 < 0 → resolveScalingFactor s = s) ∧
    (0 ≤ (scaledPair s).2 → (scaledPair s).1 < 0 →
      resolveScalingFactor s = { s with m_scalingFactor := s.m_scalingFactor *
        (ZROD s (scaledPair s).2.toNat / ZACTUAL s (scaledPair s).2.toNat) }) ∧
    (0 ≤ (scaledPair s).1 →
      ZROD s (scaledPair s).1.toNat ≠ ZROD s (scaledPair s).2.toNat →
      resolveScalingFactor s = { s with m_scalingFactor := s.m_scalingFactor *
        (TWOPI / s.m_puls /
          lineAt s (scaledPair s).1.toNat (scaledPair s).2.toNat (TWOPI / s.m_puls)) }) := by
  have hspec := scaledPair_spec s
  have hnz : 0 ≤ (scaledPair s).2 → ZACTUAL s (scaledPair s).2.toNat ≠ 0 := by
    intro h2
    obtain ⟨_, hsc⟩ := hspec.1 h2
    obtain ⟨he, hpos⟩ := ZACTUAL_of_scaled s _ hsc
    rw [he]
    exact mul_ne_zero (ne_of_gt hpos) hsf
  have hunf : resolveScalingFactor s =
      if (scaledPair s).2 ≥ 0 ∧ ZACTUAL s (scaledPair s).2.toNat ≠ 0 then
        if (scaledPair s).1 < 0 then
          { s with m_scalingFactor := s.m_scalingFactor *
            (ZROD s (scaledPair s).2.toNat / ZACTUAL s (scaledPair s).2.toNat) }
        else if ZROD s (scaledPair s).2.toNat > TWOPI / s.m_puls then
          { s with m_scalingFactor := s.m_scalingFactor * (TWOPI / s.m_puls /
            (ZACTUAL s (scaledPair s).1.toNat
              + (ZACTUAL s (scaledPair s).2.toNat - ZACTUAL s (scaledPair s).1.toNat)
                * (TWOPI / s.m_puls - ZROD s (scaledPair s).1.toNat)
                / (TWOPI / s.m_puls - ZROD s (scaledPair s).1.toNat
                  + (ZROD s (scaledPair s).2.toNat - TWOPI / s.m_puls)))) }
        else
          { s with m_scalingFactor := s.m_scalingFactor * (TWOPI / s.m_puls /
            (ZACTUAL s (scaledPair s).2.toNat
              + (ZACTUAL s (scaledPair s).2.toNat - ZACTUAL s (scaledPair s).1.toNat)
                * (TWOPI / s.m_puls - ZROD s (scaledPair s).2.toNat)
                / (ZROD s (scaledPair s).2.toNat - ZROD s (scaledPair s).1.toNat))) }
      else s := by
    unfold resolveScalingFactor
    simp only [if_neg hsf]
    rfl
  refine ⟨fun h2 => ?_, fun h2 h1 => ?_, fun h1 hrod => ?_⟩
  · rw [hunf, if_neg (fun h => absurd h.1 (not_le.mpr h2))]
  · rw [hunf, if_pos ⟨h2, hnz h2⟩, if_pos h1]
  · obtain ⟨h2, _, _⟩ := hspec.2 h1
    have hd : ZROD s (scaledPair s).2.toNat - ZROD s (scaledPair s).1.toNat ≠ 0 :=
      sub_ne_zero.mpr (Ne.symm hrod)
    rw [hunf, if_pos ⟨h2, hnz h2⟩, if_neg (not_lt.mpr h1)]
    split_ifs
    · congr 3
      unfold lineAt
      congr 2
      ring
    · congr 3
      unfold lineAt
      field_simp
      ring

end Resolve

section Anchor
variable {α : Type} [LinearOrderedField α]

/-- Changing the scaling factor rescales the line through two scaled entries. -/
theorem lineAt_factor (s : ZWobble α) (f : α) (i j : Nat) (x : α)
    (hi : ZACTUAL_IS_SCALED s i = true) (hj : ZACTUAL_IS_SCALED s j = true) :
    lineAt { s with m_scalingFactor := f } i j x * s.m_scalingFactor = f * lineAt s i j x := by
  have hi' : ZACTUAL_IS_SCALED ({ s with m_scalingFactor := f } : ZWobble α) i = true := hi
  have hj' : ZACTUAL_IS_SCALED ({ s with m_scalingFactor := f } : ZWobble α) j = true := hj
  unfold lineAt
  rw [(ZACTUAL_of_scaled s i hi).1, (ZACTUAL_of_scaled s j hj).1,
    (ZACTUAL_of_scaled _ i hi').1, (ZACTUAL_of_scaled _ j hj').1]
  show (-(s.zLut i).2 * f + (-(s.zLut j).2 * f - -(s.zLut i).2 * f) * (x - ZROD s i)
      / (ZROD s j - ZROD s i)) * s.m_scalingFactor
    = f * (-(s.zLut i).2 * s.m_scalingFactor
      + (-(s.zLut j).2 * s.m_scalingFactor - -(s.zLut i).2 * s.m_scalingFactor) * (x - ZROD s i)
        / (ZROD s j - ZROD s i))
  ring

/-- With a single scaled entry the resolved factor maps its raw value to its rod. -/
theorem resolve_single (s : ZWobble α) (hsf : s.m_scalingFactor ≠ 0)
    (h2 : 0 ≤ (scaledPair s).2) (h1 : (scaledPair s).1 < 0) :
    (resolveScalingFactor s).m_scalingFactor * -(s.zLut (scaledPair s).2.toNat).2
      = ZROD s (scaledPair s).2.toNat ∧
    ZACTUAL (resolveScalingFactor s) (scaledPair s).2.toNat
      = ZROD (resolveScalingFactor s) (scaledPair s).2.toNat := by
  obtain ⟨_, hsc⟩ := (scaledPair_spec s).1 h2
  obtain ⟨he, hpos⟩ := ZACTUAL_of_scaled s _ hsc
  have hres := (resolveScalingFactor_eq s hsf).2.1 h2 h1
  have hval : s.m_scalingFactor * (ZROD s (scaledPair s).2.toNat
      / ZACTUAL s (scaledPair s).2.toNat) * -(s.zLut (scaledPair s).2.toNat).2
      = ZROD s (scaledPair s).2.toNat := by
    rw [he]
    have hraw : -(s.zLut (scaledPair s).2.toNat).2 ≠ 0 := ne_of_gt hpos
    calc s.m_scalingFactor * (ZROD s (scaledPair s).2.toNat
          / (-(s.zLut (scaledPair s).2.toNat).2 * s.m_scalingFactor))
          * -(s.zLut (scaledPair s).2.toNat).2
        = ZROD s (scaledPair s).2.toNat
          * ((-(s.zLut (scaledPair s).2.toNat).2 * s.m_scalingFactor)
            / (-(s.zLut (scaledPair s).2.toNat).2 * s.m_scalingFactor)) := by ring
      _ = ZROD s (scaledPair s).2.toNat := by
        rw [div_self (mul_ne_zero hraw hsf), mul_one]
  rw [hres]
  refine ⟨hval, ?_⟩
  have hsc' : ZACTUAL_IS_SCALED ({ s with m_scalingFactor := s.m_scalingFactor *
      (ZROD s (scaledPair s).2.toNat / ZACTUAL s (scaledPair s).2.toNat) } : ZWobble α)
      (scaledPair s).2.toNat = true := hsc
  rw [(ZACTUAL_of_scaled _ _ hsc').1]
  show -(s.zLut (scaledPair s).2.toNat).2 * (s.m_scalingFactor *
      (ZROD s (scaledPair s).2.toNat / ZACTUAL s (scaledPair s).2.toNat))
    = ZROD s (scaledPair s).2.toNat
  rw [mul_comm]
  exact hval

/-- With two scaled entries the line through them, under the resolved factor, passes
through `(period, period)`. -/
theorem resolve_pair (s : ZWobble α) (hsf : s.m_scalingFactor ≠ 0)
    (h1 : 0 ≤ (scaledPair s).1)
    (hrod : ZROD s (scaledPair s).1.toNat ≠ ZROD s (scaledPair s).2.toNat)
    (hline : lineAt s (scaledPair s).1.toNat (scaledPair s).2.toNat (TWOPI / s.m_puls) ≠ 0) :
    lineAt (resolveScalingFactor s) (scaledPair s).1.toNat (scaledPair s).2.toNat
      (TWOPI / s.m_puls) = TWOPI / s.m_puls := by
  obtain ⟨h2, _, hsc1⟩ := (scaledPair_spec s).2 h1
  obtain ⟨_, hsc2⟩ := (scaledPair_spec s).1 h2
  rw [(resolveScalingFactor_eq s hsf).2.2 h1 hrod]
  have h := lineAt_factor s (s.m_scalingFactor * (TWOPI / s.m_puls /
      lineAt s (scaledPair s).1.toNat (scaledPair s).2.toNat (TWOPI / s.m_puls)))
    (scaledPair s).1.toNat (scaledPair s).2.toNat (TWOPI / s.m_puls) hsc1 hsc2
  have h' : s.m_scalingFactor * (TWOPI / s.m_puls /
      lineAt s (scaledPair s).1.toNat (scaledPair s).2.toNat (TWOPI / s.m_puls))
      * lineAt s (scaledPair s).1.toNat (scaledPair s).2.toNat (TWOPI / s.m_puls)
      = TWOPI / s.m_puls * s.m_scalingFactor := by
    rw [mul_assoc, div_mul_cancel₀ _ hline, mul_comm]
  rw [h'] at h
  exact mul_right_cancel₀ hsf h

/-- A second run of the resolution leaves a non-zero resolved factor unchanged. -/
theorem resolve_idempotent (s : ZWobble α) (hsf : s.m_scalingFactor ≠ 0)
    (hpair : 0 ≤ (scaledPair s).1 →
      ZROD s (scaledPair s).1.toNat ≠ ZROD s (scaledPair s).2.toNat ∧
      lineAt s (scaledPair s).1.toNat (scaledPair s).2.toNat (TWOPI / s.m_puls) ≠ 0)
    (hres : (resolveScalingFactor s).m_scalingFactor ≠ 0) :
    resolveScalingFactor (resolveScalingFactor s) = resolveScalingFactor s := by
  by_cases h2 : (scaledPair s).2 < 0
  · have e := (resolveScalingFactor_eq s hsf).1 h2
    rw [e, e]
  have h2' : 0 ≤ (scaledPair s).2 := not_lt.mp h2
  by_cases h1 : (scaledPair s).1 < 0
  · have hact := (resolve_single s hsf h2' h1).2
    have e := (resolveScalingFactor_eq s hsf).2.1 h2' h1
    rw [e] at hres hact ⊢
    have hrod : ZROD s (scaledPair s).2.toNat ≠ 0 := by
      intro h0
      apply hres
      show s.m_scalingFactor * (ZROD s (scaledPair s).2.toNat
        / ZACTUAL s (scaledPair s).2.toNat) = 0
      rw [h0, zero_div, mul_zero]
    have ht := (resolveScalingFactor_eq _ hres).2.1
    rw [scaledPair_factor] at ht
    rw [ht h2' h1, hact]
    have hone : ZROD ({ s with m_scalingFactor := s.m_scalingFactor *
        (ZROD s (scaledPair s).2.toNat / ZACTUAL s (scaledPair s).2.toNat) } : ZWobble α)
        (scaledPair s).2.toNat
        / ZROD ({ s with m_scalingFactor := s.m_scalingFactor *
        (ZROD s (scaledPair s).2.toNat / ZACTUAL s (scaledPair s).2.toNat) } : ZWobble α)
        (scaledPair s).2.toNat = 1 := div_self hrod
    rw [hone, mul_one]
  · have h1' : 0 ≤ (scaledPair s).1 := not_lt.mp h1
    obtain ⟨hrod, hline⟩ := hpair h1'
    have hl := resolve_pair s hsf h1' hrod hline
    have e := (resolveScalingFactor_eq s hsf).2.2 h1' hrod
    rw [e] at hres hl ⊢
    have hper : TWOPI / s.m_puls ≠ 0 := by
      intro h0
      apply hres
      show s.m_scalingFactor * (TWOPI / s.m_puls /
        lineAt s (scaledPair s).1.toNat (scaledPair s).2.toNat (TWOPI / s.m_puls)) = 0
      rw [h0, zero_div, mul_zero]
    have ht := (resolveScalingFactor_eq _ hres).2.2
    rw [scaledPair_factor] at ht
    rw [ht h1' hrod]
    have hl' : lineAt ({ s with m_scalingFactor := s.m_scalingFactor * (TWOPI / s.m_puls /
        lineAt s (scaledPair s).1.toNat (scaledPair s).2.toNat (TWOPI / s.m_puls)) } : ZWobble α)
        (scaledPair s).1.toNat (scaledPair s).2.toNat
        (TWOPI / ({ s with m_scalingFactor := s.m_scalingFactor * (TWOPI / s.m_puls /
        lineAt s (scaledPair s).1.toNat (scaledPair s).2.toNat (TWOPI / s.m_puls)) }
          : ZWobble α).m_puls) = TWOPI / s.m_puls := hl
    rw [hl']
    have hone : TWOPI / ({ s with m_scalingFactor := s.m_scalingFactor * (TWOPI / s.m_puls /
        lineAt s (scaledPair s).1.toNat (scaledPair s).2.toNat (TWOPI / s.m_puls)) }
          : ZWobble α).m_puls / (TWOPI / s.m_puls) = 1 := div_self hper
    rw [hone, mul_one]

end Anchor

section ScaledConcrete

theorem scaled_pair_value :
    scaledPair (sampledUnit (table3 ((0 : ℚ), (0 : ℚ)) (1 / 2, -3) (1, 1)) 3) = (-1, 1) := by
  have e : (sampledUnit (table3 ((0 : ℚ), (0 : ℚ)) (1 / 2, -3) (1, 1)) 3).lutSize
      = 0 + 1 + 1 + 1 := rfl
  unfold scaledPair
  rw [e]
  norm_num [scaledLoop, ZACTUAL_IS_SCALED, ZROD, sampledUnit, table3, TWOPI]

/-- The resolution after `setScaledSample(0.5, 3.0)` on the identity table gives the
factor `1/6`. -/
theorem resolve_scaled :
    resolveScalingFactor (sampledUnit (table3 ((0 : ℚ), (0 : ℚ)) (1 / 2, -3) (1, 1)) 3)
      = scaledState := by
  have hsf : (sampledUnit (table3 ((0 : ℚ), (0 : ℚ)) (1 / 2, -3) (1, 1)) 3).m_scalingFactor
      ≠ 0 := by
    norm_num [sampledUnit]
  have h := (resolveScalingFactor_eq _ hsf).2.1
  rw [scaled_pair_value] at h
  rw [h (by norm_num) (by norm_num)]
  unfold scaledState
  norm_num [ZROD, ZACTUAL, sampledUnit, table3]

/-- The scenario `setPeriod(1.0)`, `setSample(0.0, 0.0)`, `setScaledSample(0.5, 3.0)`. -/
theorem run_scaled :
    run (fun _ => (0 : ℚ)) (zwobble (fun _ => (0 : ℚ)))
        [.setPeriod 1, .setSample 0 0, .setScaledSample (1 / 2) 3] = some scaledState := by
  have h1 : setSample (fun _ => (0 : ℚ)) (setPeriod (fun _ => (0 : ℚ))
      (zwobble (fun _ => (0 : ℚ))) 1) 0 0
      = some (sampledUnit (table3 (0, 0) (1, 1) (0, 0)) 2) := setSample_first _
  have h2 : setSample (fun _ => (0 : ℚ)) (sampledUnit (table3 (0, 0) (1, 1) (0, 0)) 2)
      (1 / 2) (-3) = some (sampledUnit (table3 (0, 0) (1 / 2, -3) (1, 1)) 3) :=
    setSample_between _ (1 / 2) (-3) (by norm_num) (by norm_num)
  simp only [run, step]
  rw [h1]
  simp only [setScaledSample]
  rw [h2]
  simp only []
  rw [resolve_scaled]

end ScaledConcrete

section ShiftTag

theorem scaled_scan :
    scanFirst (fun i => EQUAL_WITHIN_TOLERANCE (1 / 4 : ℚ) (ZROD scaledState i)) 0
      scaledState.lutSize = none := by
  have e : scaledState.lutSize = 0 + 1 + 1 + 1 := rfl
  rw [e, scanFirst_miss _ _ _ (by
      norm_num [EQUAL_WITHIN_TOLERANCE, DISTANCE, TOLERANCE_MM, ZROD, scaledState,
        sampledUnit, table3]),
    scanFirst_miss _ _ _ (by
      norm_num [EQUAL_WITHIN_TOLERANCE, DISTANCE, TOLERANCE_MM, ZROD, scaledState,
        sampledUnit, table3]),
    scanFirst_miss _ _ _ (by
      norm_num [EQUAL_WITHIN_TOLERANCE, DISTANCE, TOLERANCE_MM, ZROD, scaledState,
        sampledUnit, table3])]
  rfl

theorem scaled_findPlace : findPlace scaledState (1 / 4) = ((1 : Nat) : Int) := by
  have e : scaledState.lutSize = 0 + 1 + 1 + 1 := rfl
  unfold findPlace
  rw [e, scanFirst_miss _ _ _ (by norm_num [ZROD, scaledState, sampledUnit, table3]),
    scanFirst_hit _ _ _ (by norm_num [ZROD, scaledState, sampledUnit, table3])]

/-- C18 (failing input): after `setPeriod(1.0)`, `setSample(0.0, 0.0)`,
`setScaledSample(0.5, 3.0)` the table holds the scaled entry `(0.5, -3)` in cell 1 (scaling
factor `1/6`, spare capacity).  `setSample(0.25, 0.25)`, not within tolerance of a stored
rod, is inserted in cell 1; the shift loop moves the scaled entry to cell 2 as
`(0.5, 0.5)`: its stored value is replaced by the resolved one and it is no longer tagged
as scaled, so the table holds no entry `(0.5, -3)` any more and a later
`setScalingFactor(1)` leaves its actual value at 0.5 instead of 3. -/
theorem C18_shift_drops_scaled_tag :
    run (fun _ => (0 : ℚ)) (zwobble (fun _ => (0 : ℚ)))
        [.setPeriod 1, .setSample 0 0, .setScaledSample (1 / 2) 3] = some scaledState ∧
    scaledState.lutSize = 3 ∧ scaledState.zLut 1 = (1 / 2, -3) ∧
    ZACTUAL_IS_SCALED scaledState 1 = true ∧
    ZACTUAL (setScalingFactor scaledState 1) 1 = 3 ∧
    ∃ s', setSample (fun _ => (0 : ℚ)) scaledState (1 / 4) (1 / 4) = some s' ∧
      s'.lutSize = 4 ∧ s'.zLut 1 = (1 / 4, 1 / 4) ∧ s'.zLut 2 = (1 / 2, 1 / 2) ∧
      ZACTUAL_IS_SCALED s' 2 = false ∧
      (∀ j, j < s'.lutSize → s'.zLut j ≠ (1 / 2, -3)) ∧
      ZACTUAL (setScalingFactor s' 1) 2 = 1 / 2 := by
  obtain ⟨s', hs', hsize, hcells⟩ := insertInLut_ordered scaledState (1 / 4) (1 / 4)
    scaled_scan (by decide) 1 scaled_findPlace (by decide)
  have hset : setSample (fun _ => (0 : ℚ)) scaledState (1 / 4) (1 / 4) = some s' := by
    have hp : ¬ scaledState.m_puls ≤ 0 := not_le.mpr TWOPI_pos
    unfold setSample
    rw [if_neg hp]
    exact hs'
  have hsz : s'.lutSize = 4 := hsize
  have c0 : s'.zLut 0 = (0, 0) := by
    rw [hcells 0]
    norm_num [scaledState, sampledUnit, table3]
  have c1 : s'.zLut 1 = (1 / 4, 1 / 4) := by
    rw [hcells 1]
    norm_num
  have c2 : s'.zLut 2 = (1 / 2, 1 / 2) := by
    rw [hcells 2]
    norm_num [ZROD, ZACTUAL, scaledState, sampledUnit, table3]
  have c3 : s'.zLut 3 = (1, 1) := by
    rw [hcells 3]
    norm_num [ZROD, ZACTUAL, scaledState, sampledUnit, table3]
  refine ⟨run_scaled, rfl, ?_, ?_, ?_, s', hset, hsz, c1, c2, ?_, ?_, ?_⟩
  · norm_num [scaledState, sampledUnit, table3]
  · norm_num [ZACTUAL_IS_SCALED, scaledState, sampledUnit, table3]
  · norm_num [ZACTUAL, setScalingFactor, scaledState, sampledUnit, table3]
  · simp [ZACTUAL_IS_SCALED, c2]
  · intro j hj
    rw [hsz] at hj
    interval_cases j
    · rw [c0]; intro h; have := congrArg Prod.fst h; norm_num at this
    · rw [c1]; intro h; have := congrArg Prod.fst h; norm_num at this
    · rw [c2]; intro h; have := congrArg Prod.snd h; norm_num at this
    · rw [c3]; intro h; have := congrArg Prod.fst h; norm_num at this
  · simp [ZACTUAL, setScalingFactor, c2]

end ShiftTag

section Safe
variable {α : Type} [LinearOrderedField α]

/-- C19: for every table with `1 ≤ lutSize ≤ STEPS_IN_ZLUT` and arbitrary stored values
(not necessarily monotone) and every `z`, `findInLut` returns a value (no out-of-range
read, no division by zero); when it reaches the interpolation the scan stops at an index
`i` with `1 ≤ i ≤ lutSize-1` and `actual_{i-1} ≤ z < actual_i`, so the divisor
`actual_i - actual_{i-1}` is strictly positive; and the result only depends on the cells
`0 .. lutSize-1`: it is the same on every object that agrees on these cells. -/
theorem C19_findInLut_safe (s : ZWobble α) (z : α) (hn : 1 ≤ s.lutSize)
    (hcap : s.lutSize ≤ STEPS_IN_ZLUT) :
    (∃ x, findInLut s z = some x) ∧
    (z < ZACTUAL s (s.lutSize - 1) → ZACTUAL s 0 < z →
      ∃ i, scanFirst (fun i => decide (ZACTUAL s i > z)) 0 s.lutSize = some i ∧
        1 ≤ i ∧ i ≤ s.lutSize - 1 ∧ ZACTUAL s (i - 1) ≤ z ∧ z < ZACTUAL s i ∧
        0 < ZACTUAL s i - ZACTUAL s (i - 1) ∧
        findInLut s z =
          some ((ZROD s (i - 1) * (ZACTUAL s i - z) + ZROD s i * (z - ZACTUAL s (i - 1)))
            * (1 / (ZACTUAL s i - ZACTUAL s (i - 1))))) ∧
    (∀ s' : ZWobble α, s'.lutSize = s.lutSize → s'.m_scalingFactor = s.m_scalingFactor →
      (∀ j, j < s.lutSize → s'.zLut j = s.zLut j) → findInLut s' z = findInLut s z) := by
  refine ⟨findInLut_total s z hn hcap, fun h1 h0 => ?_, fun s' hsz hsf hcells => ?_⟩
  · obtain ⟨i, hi1, hi2, hi3, hi4⟩ := findInLut_least_exists s z hn h1 h0
    have hprev : ZACTUAL s (i - 1) ≤ z := hi4 (i - 1) (by omega)
    exact ⟨i, findInLut_scan s z i hi2 hi3 hi4, hi1, by omega, hprev, hi3,
      sub_pos.mpr (lt_of_le_of_lt hprev hi3), findInLut_interp s z hcap h1 h0 i hi2 hi3 hi4⟩
  · have hA : ∀ j, j < s.lutSize → ZACTUAL s' j = ZACTUAL s j := by
      intro j hj
      unfold ZACTUAL
      rw [hcells j hj, hsf]
    have hR : ∀ j, j < s.lutSize → ZROD s' j = ZROD s j := by
      intro j hj
      unfold ZROD
      rw [hcells j hj]
    have hn' : 1 ≤ s'.lutSize := by rw [hsz]; exact hn
    have hcap' : s'.lutSize ≤ STEPS_IN_ZLUT := by rw [hsz]; exact hcap
    by_cases htop : ZACTUAL s (s.lutSize - 1) ≤ z
    · rw [findInLut_top s z hn htop,
        findInLut_top s' z hn' (by rw [hsz, hA _ (by omega)]; exact htop), hsz,
        hR _ (by omega)]
    · have htop' := not_le.mp htop
      have htop'' : z < ZACTUAL s' (s'.lutSize - 1) := by
        rw [hsz, hA _ (by omega)]; exact htop'
      by_cases hbot : z ≤ ZACTUAL s 0
      · rw [findInLut_bottom s z hn htop' hbot,
          findInLut_bottom s' z hn' htop'' (by rw [hA 0 (by omega)]; exact hbot),
          hR 0 (by omega)]
      · have hbot' := not_le.mp hbot
        obtain ⟨i, hi1, hi2, hi3, hi4⟩ := findInLut_least_exists s z hn htop' hbot'
        rw [findInLut_interp s z hcap htop' hbot' i hi2 hi3 hi4,
          findInLut_interp s' z hcap' htop'' (by rw [hA 0 (by omega)]; exact hbot') i
            (by rw [hsz]; exact hi2) (by rw [hA i hi2]; exact hi3)
            (fun j hj => by rw [hA j (by omega)]; exact hi4 j hj),
          hA i hi2, hA (i - 1) (by omega), hR i hi2, hR (i - 1) (by omega)]

end Safe

section Identity
variable {α : Type} [LinearOrderedField α]

/-- In sampled mode with a positive pulsation a rebuild produces the fresh identity
table. -/
theorem calculateLut_fresh (sin : α → α) (s : ZWobble α) (hsin : s.m_sinusoidal = false)
    (hw : 0 < s.m_puls) : FreshIdentity (calculateLut sin s) := by
  unfold FreshIdentity calculateLut areParametersConsistent
  simp [hsin, initLinearLut, SET_ZROD, SET_ZACTUAL, hw]

/-- On the fresh identity table `findInLut` is the identity on `[0, period)`. -/
theorem identity_findInLut (s : ZWobble α) (hs : FreshIdentity s) (x : α) (h0 : 0 ≤ x)
    (h1 : x < TWOPI / s.m_puls) : findInLut s x = some x := by
  obtain ⟨_, _, hw, hsz, hc0, hc1, _, _⟩ := hs
  have hP : 0 < TWOPI / s.m_puls := div_pos TWOPI_pos hw
  have hA0 : ZACTUAL s 0 = 0 := by unfold ZACTUAL; rw [hc0]; simp
  have hA1 : ZACTUAL s 1 = TWOPI / s.m_puls := by
    unfold ZACTUAL; rw [hc1]; simp only []; rw [if_neg (not_lt.mpr hP.le)]
  have hR0 : ZROD s 0 = 0 := by unfold ZROD; rw [hc0]
  have hR1 : ZROD s 1 = TWOPI / s.m_puls := by unfold ZROD; rw [hc1]
  have hlast : s.lutSize - 1 = 1 := by omega
  have htop : x < ZACTUAL s (s.lutSize - 1) := by rw [hlast, hA1]; exact h1
  rcases eq_or_lt_of_le h0 with h | h
  · rw [findInLut_bottom s x (by omega) htop (by rw [hA0, ← h]), hR0, h]
  · rw [findInLut_interp s x (by rw [hsz]; decide) htop (by rw [hA0]; exact h) 1 (by omega)
      (by rw [hA1]; exact h1) (fun j hj => by
        have : j = 0 := by omega
        rw [this, hA0]; exact h0)]
    simp only [Nat.sub_self, hA0, hA1, hR0, hR1]
    congr 1
    have hT : (TWOPI : α) ≠ 0 := ne_of_gt TWOPI_pos
    field_simp

end Identity

section IdentityArch
variable {α : Type} [LinearOrderedField α] [FloorRing α]

/-- On the fresh identity table `findZRod` is the identity from the first cycle origin
on, for every sufficient fuel. -/
theorem identity_findZRod (s : ZWobble α) (hs : FreshIdentity s) (z : α)
    (hz : -s.m_phase / s.m_puls ≤ z) :
    ∃ N : Nat, ∀ fuel, N ≤ fuel → findZRod fuel s z = some z := by
  have hw : 0 < s.m_puls := hs.2.2.1
  obtain ⟨m, hm1, hm2, hm3⟩ := cycleLoop_terminates s z hw
  have hz0 : cycleOrigin s 0 ≤ z := by rw [cycleOrigin_zero]; exact hz
  have hmpos : 1 ≤ m := by
    rcases Nat.eq_zero_or_pos m with h | h
    · rw [h] at hm1
      exact absurd hm1 (not_lt.mpr (by exact_mod_cast hz0))
    · exact h
  have hprev : cycleOrigin s ((m : Int) - 1) ≤ z := by
    have := hm2 (m - 1) (by omega)
    have e : (((m - 1 : Nat) : Int)) = (m : Int) - 1 := by omega
    rw [e] at this
    exact this
  have hnext : z < cycleOrigin s ((m : Int) - 1) + TWOPI / s.m_puls := by
    rw [← cycleOrigin_succ s (ne_of_gt hw)]
    have e : (m : Int) - 1 + 1 = (m : Int) := by omega
    rw [e]
    exact hm1
  refine ⟨m, fun fuel hf => ?_⟩
  rw [findZRod_of_cycle fuel s z (ne_of_gt hw) m (hm3 fuel hf) _
    (identity_findInLut s hs _ (by linarith) (by linarith))]
  congr 1
  ring

/-- Rounding half away from zero commutes with subtracting an integer from a non-negative
value, unless the difference is negative and the value lies halfway between two
integers. -/
theorem lround_shift (x : α) (p : Int) (hx : 0 ≤ x)
    (h : (p : α) ≤ x ∨ ¬ ∃ n : Int, x = (n : α) + 1 / 2) :
    lround (x - (p : α)) = lround x - p := by
  have hfl : lround x = ⌊x + 1 / 2⌋ := by unfold lround; rw [if_pos hx]
  by_cases hd : 0 ≤ x - (p : α)
  · unfold lround
    rw [if_pos hd, if_pos hx]
    have : x - (p : α) + 1 / 2 = x + 1 / 2 - (p : α) := by ring
    rw [this, Int.floor_sub_int]
  · have hlt : x < (p : α) := by linarith
    have hnh : ¬ ∃ n : Int, x = (n : α) + 1 / 2 := by
      rcases h with h | h
      · exact absurd h (not_le.mpr hlt)
      · exact h
    rw [hfl]
    unfold lround
    rw [if_neg hd]
    have hm1 : ((⌊x + 1 / 2⌋ : Int) : α) ≤ x + 1 / 2 := Int.floor_le _
    have hm2 : x + 1 / 2 < ((⌊x + 1 / 2⌋ : Int) : α) + 1 := Int.lt_floor_add_one _
    have hm3 : ((⌊x + 1 / 2⌋ : Int) : α) ≠ x + 1 / 2 := by
      intro e
      apply hnh
      refine ⟨⌊x + 1 / 2⌋ - 1, ?_⟩
      push_cast
      linarith
    have hm4 : ((⌊x + 1 / 2⌋ : Int) : α) < x + 1 / 2 := lt_of_le_of_ne hm1 hm3
    have : ⌊-(x - (p : α)) + 1 / 2⌋ = p - ⌊x + 1 / 2⌋ := by
      rw [Int.floor_eq_iff]
      push_cast
      constructor <;> linarith
    rw [this]
    ring

/-- The exceptional case of `lround_shift`: a negative difference from a value halfway
between two integers rounds one step lower. -/
theorem lround_shift_half (x : α) (p n : Int) (hx : 0 ≤ x) (hlt : x < (p : α))
    (hn : x = (n : α) + 1 / 2) : lround (x - (p : α)) = lround x - p - 1 := by
  have h1 : lround x = n + 1 := by
    apply lround_eq x (n + 1) hx
    · push_cast; linarith
    · push_cast; linarith
  rw [h1]
  unfold lround
  rw [if_neg (by linarith)]
  have : ⌊-(x - (p : α)) + 1 / 2⌋ = p - n := by
    rw [Int.floor_eq_iff]
    push_cast
    constructor <;> linarith
  rw [this]
  ring

end IdentityArch

section NoCorrection
variable {α : Type} [LinearOrderedField α] [FloorRing α]

/-- `InsertCorrection` past its guards on the fresh identity table: both rod positions
are resolved to the heights themselves. -/
theorem identity_correction (s : ZWobble α) (hs : FreshIdentity s) (hphase : 0 ≤ s.m_phase)
    (position : Int) (axis_steps_per_unit targetZ : α) (hspu : 0 < axis_steps_per_unit)
    (ho : ZWOBBLE_MIN_Z ≤ (position : α) / axis_steps_per_unit)
    (ht : ZWOBBLE_MIN_Z ≤ targetZ)
    (htol : TOLERANCE_MM ≤ |targetZ - (position : α) / axis_steps_per_unit|) :
    ∃ N : Nat, ∀ fuel, N ≤ fuel →
      InsertCorrection fuel s position axis_steps_per_unit targetZ =
        if position - (lround (targetZ * axis_steps_per_unit - (position : α))
            - (lround (targetZ * axis_steps_per_unit) - position)) < 0 then
          some (0, position, { s with lastZ := targetZ, lastZRod := targetZ })
        else
          some (lround (targetZ * axis_steps_per_unit - (position : α))
              - (lround (targetZ * axis_steps_per_unit) - position),
            position - (lround (targetZ * axis_steps_per_unit - (position : α))
              - (lround (targetZ * axis_steps_per_unit) - position)),
            { s with lastZ := targetZ, lastZRod := targetZ }) := by
  have hw : 0 < s.m_puls := hs.2.2.1
  have hmin : (0 : α) < ZWOBBLE_MIN_Z := by unfold ZWOBBLE_MIN_Z; norm_num
  have hneg : -s.m_phase / s.m_puls ≤ 0 :=
    div_nonpos_of_nonpos_of_nonneg (by linarith) hw.le
  obtain ⟨N1, h1⟩ := identity_findZRod s hs ((position : α) / axis_steps_per_unit)
    (by linarith)
  obtain ⟨N2, h2⟩ := identity_findZRod s hs targetZ (by linarith)
  refine ⟨max N1 N2, fun fuel hf => ?_⟩
  have hl : ¬ ((position : α) / axis_steps_per_unit = s.lastZ) := by
    rw [hs.2.2.2.2.2.2.1]
    intro e
    rw [e] at ho
    linarith
  have horigin : (if (position : α) / axis_steps_per_unit = s.lastZ then some s.lastZRod
      else findZRod fuel s ((position : α) / axis_steps_per_unit))
        = some ((position : α) / axis_steps_per_unit) := by
    rw [if_neg hl]
    exact h1 fuel (le_trans (le_max_left _ _) hf)
  have e : (targetZ - (position : α) / axis_steps_per_unit) * axis_steps_per_unit
      = targetZ * axis_steps_per_unit - (position : α) := by
    rw [sub_mul, div_mul_cancel₀ _ (ne_of_gt hspu)]
  rw [InsertCorrection_pass fuel s position axis_steps_per_unit targetZ _ targetZ hs.1
    (ne_of_gt hspu) ho ht htol horigin (h2 fuel (le_trans (le_max_right _ _) hf)), e]

end NoCorrection

section NoCorrectionClaim
variable {α : Type} [LinearOrderedField α] [FloorRing α]

theorem identity_run_fresh :
    run (fun _ => (0 : ℚ)) (zwobble (fun _ => (0 : ℚ))) [.setPeriod 1, .setSample 0 0]
      = some identityState ∧ FreshIdentity identityState ∧ 0 ≤ identityState.m_phase := by
  refine ⟨run_identity _, ?_, ?_⟩
  · unfold FreshIdentity
    norm_num [identityState, sampledUnit, table3, TWOPI]
  · norm_num [identityState, sampledUnit]

theorem identity_findZRod_half : findZRod 1 identityState (1 / 2) = some (1 / 2) := by
  norm_num [findZRod, cycleLoop, findInLut, scanFirst, identityState, sampledUnit, table3,
    TWOPI, ZACTUAL, ZROD, STEPS_IN_ZLUT]

theorem identity_findZRod_quarter : findZRod 1 identityState (1 / 4) = some (1 / 4) := by
  norm_num [findZRod, cycleLoop, findInLut, scanFirst, identityState, sampledUnit, table3,
    TWOPI, ZACTUAL, ZROD, STEPS_IN_ZLUT]

theorem lround_neg_five_halves : lround (((1 / 4 : ℚ) - 1 / 2) * 10) = -3 := by
  unfold lround
  rw [if_neg (by norm_num)]
  have : ⌊-(((1 / 4 : ℚ) - 1 / 2) * 10) + 1 / 2⌋ = 3 := by
    rw [Int.floor_eq_iff]
    norm_num
  rw [this]

/-- In exact arithmetic, on the identity table `{(0,0),(1,1)}` reached by
`setPeriod(1.0)`, `setSample(0.0, 0.0)` (cleared cache), with 10 steps per mm and step
position 5 (origin 0.5 mm), the downward move to 0.25 mm passes all guards;
`round((0.25 - 0.5)*10) = round(-2.5) = -3` while `round(0.25*10) - 5 = 3 - 5 = -2`, so
`InsertCorrection` returns -1 and moves the step position to 6. -/
theorem identity_correction_quarter :
    run (fun _ => (0 : ℚ)) (zwobble (fun _ => (0 : ℚ))) [.setPeriod 1, .setSample 0 0]
      = some identityState ∧
    FreshIdentity identityState ∧
    InsertCorrection 1 identityState 5 10 (1 / 4) = some (-1, 6, identityCached) := by
  refine ⟨run_identity _, identity_run_fresh.2.1, ?_⟩
  have ho : (if (((5 : Int) : ℚ) / 10) = identityState.lastZ then some identityState.lastZRod
      else findZRod 1 identityState (((5 : Int) : ℚ) / 10)) = some (1 / 2) := by
    have hl : ¬ ((((5 : Int) : ℚ) / 10) = identityState.lastZ) := by
      norm_num [identityState, sampledUnit]
    rw [if_neg hl]
    have e : (((5 : Int) : ℚ) / 10) = 1 / 2 := by norm_num
    rw [e]
    exact identity_findZRod_half
  rw [InsertCorrection_pass 1 identityState 5 10 (1 / 4) (1 / 2) (1 / 4) rfl (by norm_num)
    (by norm_num [ZWOBBLE_MIN_Z]) (by norm_num [ZWOBBLE_MIN_Z])
    (by rw [abs_of_neg (by norm_num)]; norm_num [TOLERANCE_MM]) ho identity_findZRod_quarter,
    lround_neg_five_halves, lround_eq _ 3 (by norm_num) (by norm_num) (by norm_num)]
  rfl

/-- In exact arithmetic (on binary32 the quotient and the products are rounded before
`lround`, see `InsertCorrectionOn`): in sampled mode with the freshly initialised 2-point
identity table `{(0,0),(period,period)}`, a cleared cache and a phase `≥ 0`, for every
`stepsPerUnit > 0`, every integer step position `≥ 0` and every `targetZ`, for every
sufficient fuel: `InsertCorrection` returns 0 and leaves the step position unchanged for
every upward move (`position ≤ targetZ*stepsPerUnit`) and for every downward move whose
`targetZ*stepsPerUnit` is not halfway between two integers; for a downward move past the
guards with `targetZ*stepsPerUnit = n + 1/2` it returns -1 and sets the step position to
`position + 1`. -/
theorem identity_correction_exact (s : ZWobble α) (position : Int)
    (axis_steps_per_unit targetZ : α) (hs : FreshIdentity s) (hphase : 0 ≤ s.m_phase)
    (hspu : 0 < axis_steps_per_unit) (hpos : 0 ≤ position) :
    ∃ N : Nat, ∀ fuel, N ≤ fuel →
      (((position : α) ≤ targetZ * axis_steps_per_unit ∨
          ¬ ∃ n : Int, targetZ * axis_steps_per_unit = (n : α) + 1 / 2) →
        ∃ s', InsertCorrection fuel s position axis_steps_per_unit targetZ
            = some (0, position, s') ∧
          (s' = s ∨ s' = { s with lastZ := targetZ, lastZRod := targetZ })) ∧
      (ZWOBBLE_MIN_Z ≤ (position : α) / axis_steps_per_unit → ZWOBBLE_MIN_Z ≤ targetZ →
        TOLERANCE_MM ≤ |targetZ - (position : α) / axis_steps_per_unit| →
        targetZ * axis_steps_per_unit < (position : α) →
        (∃ n : Int, targetZ * axis_steps_per_unit = (n : α) + 1 / 2) →
        InsertCorrection fuel s position axis_steps_per_unit targetZ
          = some (-1, position + 1, { s with lastZ := targetZ, lastZRod := targetZ })) := by
  have hmin : (0 : α) < ZWOBBLE_MIN_Z := by unfold ZWOBBLE_MIN_Z; norm_num
  by_cases hg : ((position : α) / axis_steps_per_unit < ZWOBBLE_MIN_Z ∨
      targetZ < ZWOBBLE_MIN_Z) ∨
      EQUAL_WITHIN_TOLERANCE ((position : α) / axis_steps_per_unit) targetZ = true
  · refine ⟨0, fun fuel _ => ⟨fun _ => ⟨s, InsertCorrection_guard fuel s position _ _
      (Or.inr ⟨ne_of_gt hspu, hg⟩), Or.inl rfl⟩, fun ho ht htol _ _ => ?_⟩⟩
    exfalso
    rcases hg with (h | h) | h
    · exact absurd ho (not_le.mpr h)
    · exact absurd ht (not_le.mpr h)
    · rw [EQUAL_WITHIN_TOLERANCE_iff, abs_sub_comm] at h
      have : (TOLERANCE_MM : α) = 1 / 100 := rfl
      rw [this] at htol
      linarith
  · push_neg at hg
    obtain ⟨⟨ho, ht⟩, he⟩ := hg
    have htol : TOLERANCE_MM ≤ |targetZ - (position : α) / axis_steps_per_unit| := by
      have h : ¬ (EQUAL_WITHIN_TOLERANCE ((position : α) / axis_steps_per_unit) targetZ
          = true) := he
      rw [EQUAL_WITHIN_TOLERANCE_iff, not_lt, abs_sub_comm] at h
      simpa [TOLERANCE_MM] using h
    have hx : 0 ≤ targetZ * axis_steps_per_unit :=
      mul_nonneg (le_trans hmin.le ht) hspu.le
    obtain ⟨N, hN⟩ := identity_correction s hs hphase position axis_steps_per_unit targetZ
      hspu ho ht htol
    refine ⟨N, fun fuel hf => ⟨fun h => ?_, fun _ _ _ hlt hhalf => ?_⟩⟩
    · refine ⟨{ s with lastZ := targetZ, lastZRod := targetZ }, ?_, Or.inr rfl⟩
      rw [hN fuel hf, lround_shift _ position hx h]
      have e : lround (targetZ * axis_steps_per_unit) - position
          - (lround (targetZ * axis_steps_per_unit) - position) = 0 := sub_self _
      rw [e, sub_zero, if_neg (not_lt.mpr hpos)]
    · obtain ⟨n, hn⟩ := hhalf
      rw [hN fuel hf, lround_shift_half _ position n hx hlt hn]
      have e : lround (targetZ * axis_steps_per_unit) - position - 1
          - (lround (targetZ * axis_steps_per_unit) - position) = -1 := by ring
      rw [e, if_neg (by omega)]
      have e2 : position - -1 = position + 1 := by ring
      rw [e2]

/-- In exact arithmetic, on the identity table `{(0,0),(1,1)}`, with 10 steps per mm and
step position 5: the upward move to 0.75 mm. -/
theorem identity_correction_exact_example :
    FreshIdentity identityState ∧ 0 ≤ identityState.m_phase ∧ (0 : ℚ) < 10 ∧
    (0 : Int) ≤ 5 ∧
    ∃ N : Nat, ∀ fuel, N ≤ fuel →
      ((((5 : Int) : ℚ) ≤ 3 / 4 * 10 ∨ ¬ ∃ n : Int, (3 / 4 : ℚ) * 10 = (n : ℚ) + 1 / 2) →
        ∃ s', InsertCorrection fuel identityState 5 10 (3 / 4) = some (0, 5, s') ∧
          (s' = identityState ∨
            s' = { identityState with lastZ := 3 / 4, lastZRod := 3 / 4 })) ∧
      (ZWOBBLE_MIN_Z ≤ ((5 : Int) : ℚ) / 10 → ZWOBBLE_MIN_Z ≤ (3 / 4 : ℚ) →
        TOLERANCE_MM ≤ |(3 / 4 : ℚ) - ((5 : Int) : ℚ) / 10| →
        (3 / 4 : ℚ) * 10 < ((5 : Int) : ℚ) →
        (∃ n : Int, (3 / 4 : ℚ) * 10 = (n : ℚ) + 1 / 2) →
        InsertCorrection fuel identityState 5 10 (3 / 4)
          = some (-1, 5 + 1, { identityState with lastZ := 3 / 4, lastZRod := 3 / 4 })) :=
  ⟨identity_run_fresh.2.1, identity_run_fresh.2.2, by norm_num, by norm_num,
    identity_correction_exact identityState 5 10 (3 / 4) identity_run_fresh.2.1
      identity_run_fresh.2.2 (by norm_num) (by norm_num)⟩

end NoCorrectionClaim

section LateWitnesses

/-- The cycle selection with an unbounded counter on the table `{(0,0),(0.8,0.2),(1,1)}`
with period 1 and phase 0, at `z = 0.5`. -/
theorem cycle_selection_unbounded_example :
    0 < steepState.m_puls ∧ -steepState.m_phase / steepState.m_puls ≤ 1 / 2 ∧
    ∃ k : Nat, 1 ≤ k ∧ (1 / 2 : ℚ) < cycleOrigin steepState k ∧
      cycleOrigin steepState ((k : Int) - 1) ≤ 1 / 2 ∧
      ∀ fuel, k ≤ fuel →
        findZRod fuel steepState (1 / 2) =
          (findInLut steepState (1 / 2 - cycleOrigin steepState ((k : Int) - 1))).map
            (fun x => cycleOrigin steepState ((k : Int) - 1) + x) := by
  have hw : 0 < steepState.m_puls := TWOPI_pos
  have hz : -steepState.m_phase / steepState.m_puls ≤ 1 / 2 := by
    norm_num [steepState, sampledUnit, TWOPI]
  obtain ⟨k, h1, h2, _, _, h5, _, _, _, h9⟩ :=
    cycle_selection_unbounded steepState (1 / 2) hw (Or.inl hz)
  exact ⟨hw, hz, k, h1, h2, h5, h9⟩

/-- Witness of C19: the table `{(0,0),(0.5,0.6),(1,1)}` has 3 entries, and `findInLut`
returns a value at `z = 0.3`. -/
theorem C19_findInLut_safe_witness :
    1 ≤ scenarioState.lutSize ∧ scenarioState.lutSize ≤ STEPS_IN_ZLUT ∧
    ∃ x, findInLut scenarioState (3 / 10) = some x :=
  ⟨by decide, by decide, (C19_findInLut_safe scenarioState (3 / 10) (by decide) (by decide)).1⟩

end LateWitnesses

section Float32

/-- An integer rounds to itself. -/
theorem roundEven_int (n : Int) : roundEven (n : ℚ) = n := by
  unfold roundEven
  simp

/-- The binary exponent of `3 * 2^39`. -/
theorem log_large : Int.log 2 |(1649267441664 : ℚ)| = 40 := by
  have e : |(1649267441664 : ℚ)| = ((1649267441664 : ℕ) : ℚ) := by
    rw [abs_of_pos (by norm_num)]
    norm_num
  rw [e, Int.log_natCast]
  congr 1
  apply Nat.log_eq_of_pow_le_of_lt_pow <;> norm_num

/-- The binary exponent of `3 * 2^39 - 360`. -/
theorem log_large_sub : Int.log 2 |(1649267441664 - 360 : ℚ)| = 40 := by
  have e : |(1649267441664 - 360 : ℚ)| = ((1649267441304 : ℕ) : ℚ) := by
    rw [abs_of_pos (by norm_num)]
    norm_num
  rw [e, Int.log_natCast]
  congr 1
  apply Nat.log_eq_of_pow_le_of_lt_pow <;> norm_num

/-- The value `3 * 2^39 = 1649267441664` is a binary32 number. -/
theorem toFloat32_large : toFloat32 1649267441664 = 1649267441664 := by
  unfold toFloat32
  rw [if_neg (by norm_num), log_large]
  have hq : (1649267441664 : ℚ) / 2 ^ ((40 : Int) - 23) = ((12582912 : Int) : ℚ) := by
    norm_num
  rw [hq, roundEven_int]
  norm_num

/-- In binary32 the subtraction `3 * 2^39 - 360` rounds back to `3 * 2^39`: the spacing of
binary32 numbers at this magnitude is `2^17 = 131072`. -/
theorem toFloat32_absorbs : toFloat32 (1649267441664 - 360) = 1649267441664 := by
  unfold toFloat32
  rw [if_neg (by norm_num), log_large_sub]
  have hq : (1649267441664 - 360 : ℚ) / 2 ^ ((40 : Int) - 23) = 12582912 - 45 / 16384 := by
    norm_num
  have hf : ⌊(12582912 - 45 / 16384 : ℚ)⌋ = 12582911 := by
    rw [Int.floor_eq_iff]
    norm_num
  rw [hq]
  unfold roundEven
  rw [hf, if_neg (by norm_num), if_pos (by norm_num)]
  norm_num

/-- The first loop of `setPhase` on `float` makes no progress from `3 * 2^39`. -/
theorem phaseDown32_stuck (fuel : Nat) : phaseDown32 fuel 1649267441664 = none := by
  induction fuel with
  | zero => rw [phaseDown32, if_pos (by norm_num)]
  | succ n ih => rw [phaseDown32, if_pos (by norm_num), toFloat32_absorbs, ih]

/-- C16 (failing input): `setPhase(1649267441664.0)`, the binary32 number `3 * 2^39`.  On
`float` the assignment `_phase -= 360` leaves `_phase` unchanged (the exact difference
rounds back to `3 * 2^39`), so the loop `while (_phase > 0) _phase -= 360;` is still
running after any number of iterations and `setPhase` never stores a phase. -/
theorem C16_large_phase_never_normalised :
    toFloat32 1649267441664 = 1649267441664 ∧
    toFloat32 (1649267441664 - 360) = 1649267441664 ∧
    (∀ fuel, phaseDown32 fuel 1649267441664 = none) ∧
    ∀ (fuel : Nat) (s : ZWobble ℚ), setPhase32 fuel s 1649267441664 = none := by
  refine ⟨toFloat32_large, toFloat32_absorbs, phaseDown32_stuck, fun fuel s => ?_⟩
  unfold setPhase32
  rw [phaseDown32_stuck]

/-- On `float` the loops of `setPhase` do terminate on moderate inputs: `setPhase(540)`
stores the phase of 180 degrees after two iterations. -/
theorem setPhase32_moderate (s : ZWobble ℚ) :
    setPhase32 2 s 540 =
      some { s with m_phase := toFloat32 (toFloat32 (180 * toFloat32 M_PI) / 180) } := by
  have l540 : Int.log 2 |(540 - 360 : ℚ)| = 7 := by
    have e : |(540 - 360 : ℚ)| = ((180 : ℕ) : ℚ) := by
      rw [abs_of_pos (by norm_num)]
      norm_num
    rw [e, Int.log_natCast]
    congr 1
    apply Nat.log_eq_of_pow_le_of_lt_pow <;> norm_num
  have l180 : Int.log 2 |(180 - 360 : ℚ)| = 7 := by
    have e : |(180 - 360 : ℚ)| = ((180 : ℕ) : ℚ) := by
      rw [abs_of_neg (by norm_num)]
      norm_num
    rw [e, Int.log_natCast]
    congr 1
    apply Nat.log_eq_of_pow_le_of_lt_pow <;> norm_num
  have lm180 : Int.log 2 |(-180 + 360 : ℚ)| = 7 := by
    have e : |(-180 + 360 : ℚ)| = ((180 : ℕ) : ℚ) := by
      rw [abs_of_pos (by norm_num)]
      norm_num
    rw [e, Int.log_natCast]
    congr 1
    apply Nat.log_eq_of_pow_le_of_lt_pow <;> norm_num
  have h1 : toFloat32 (540 - 360) = 180 := by
    unfold toFloat32
    rw [if_neg (by norm_num), l540]
    have hq : (540 - 360 : ℚ) / 2 ^ ((7 : Int) - 23) = ((11796480 : Int) : ℚ) := by norm_num
    rw [hq, roundEven_int]
    norm_num
  have h2 : toFloat32 (180 - 360) = -180 := by
    unfold toFloat32
    rw [if_neg (by norm_num), l180]
    have hq : (180 - 360 : ℚ) / 2 ^ ((7 : Int) - 23) = ((-11796480 : Int) : ℚ) := by norm_num
    rw [hq, roundEven_int]
    norm_num
  have h3 : toFloat32 (-180 + 360) = 180 := by
    unfold toFloat32
    rw [if_neg (by norm_num), lm180]
    have hq : (-180 + 360 : ℚ) / 2 ^ ((7 : Int) - 23) = ((11796480 : Int) : ℚ) := by norm_num
    rw [hq, roundEven_int]
    norm_num
  have hd : phaseDown32 2 540 = some (-180) := by
    rw [phaseDown32, if_pos (by norm_num), h1, phaseDown32, if_pos (by norm_num), h2,
      phaseDown32, if_neg (by norm_num)]
  have hu : phaseUp32 2 (-180) = some 180 := by
    rw [phaseUp32, if_pos (by norm_num), h3, phaseUp32, if_neg (by norm_num)]
  unfold setPhase32
  rw [hd]
  simp only []
  rw [hu]

end Float32

section AppendEscape

/-- A call sequence followed by one more call. -/
theorem run_snoc {α : Type} [LinearOrderedField α] [FloorRing α] (sin : α → α)
    (s : ZWobble α) (ops : List (Op α)) (op : Op α) :
    run sin s (ops ++ [op]) = (run sin s ops).bind (fun s' => step sin s' op) := by
  induction ops generalizing s with
  | nil =>
    simp only [List.nil_append, run, Option.some_bind]
    cases step sin s op <;> rfl
  | cons o ops ih =>
    simp only [List.cons_append, run]
    cases step sin s o with
    | none => rfl
    | some s' => exact ih s'

/-- C4 (failing input): after `setPeriod(1.0)`, `setSample(0.0, 0.0)` the object is in
sampled mode with the flag true, as the invariant says; the next call `setSample(2.0, 2.0)`
(and likewise `setScaledSample(2.0, 2.0)`) appends above every stored rod, where
`insertInLut` keeps `zPlace = -1`, reads `zLut[-1]` in the shift loop and writes the sample
to `zLut[-1]`: the call sequence leaves the table, so it reaches no state of the embedding
and the invariant is not established for it. -/
theorem C4_append_escapes_the_invariant :
    run (fun _ => (0 : ℚ)) (construct (fun _ => (0 : ℚ)) zeroStorage 0 0 0)
      [.setPeriod 1, .setSample 0 0] = some identityState ∧
    identityState.m_sinusoidal = false ∧ identityState.m_consistent = true ∧
    findPlace identityState 2 = -1 ∧
    shiftLoop (-1) identityState.lutSize identityState = none ∧
    step (fun _ => (0 : ℚ)) identityState (.setSample 2 2) = none ∧
    step (fun _ => (0 : ℚ)) identityState (.setScaledSample 2 2) = none ∧
    run (fun _ => (0 : ℚ)) (construct (fun _ => (0 : ℚ)) zeroStorage 0 0 0)
      [.setPeriod 1, .setSample 0 0, .setSample 2 2] = none ∧
    run (fun _ => (0 : ℚ)) (construct (fun _ => (0 : ℚ)) zeroStorage 0 0 0)
      [.setPeriod 1, .setSample 0 0, .setScaledSample 2 2] = none := by
  have hrods : ∀ j, j < identityState.lutSize → ZROD identityState j ≤ 2 := by
    intro j hj
    have hj2 : j < 2 := hj
    interval_cases j <;> norm_num [ZROD, identityState, sampledUnit, table3]
  have hins : ∀ a : ℚ, insertInLut identityState 2 a = none := fun a =>
    insertInLut_append_none identityState 2 a identityState_scan_two (by decide) hrods
  have hset : ∀ a : ℚ, setSample (fun _ => (0 : ℚ)) identityState 2 a = none := by
    intro a
    unfold identityState
    rw [setSample_sampledUnit]
    exact hins a
  have hstep1 : step (fun _ => (0 : ℚ)) identityState (.setSample 2 2) = none := hset 2
  have hstep2 : step (fun _ => (0 : ℚ)) identityState (.setScaledSample 2 2) = none := by
    show setScaledSample (fun _ => (0 : ℚ)) identityState 2 2 = none
    unfold setScaledSample
    rw [hset]
  have hrun : run (fun _ => (0 : ℚ)) (construct (fun _ => (0 : ℚ)) zeroStorage 0 0 0)
      [.setPeriod 1, .setSample 0 0] = some identityState := run_identity _
  refine ⟨hrun, rfl, rfl, findPlace_neg _ _ hrods, shiftLoop_neg _ _, hstep1, hstep2, ?_, ?_⟩
  · have h := run_snoc (fun _ => (0 : ℚ))
      (construct (fun _ => (0 : ℚ)) zeroStorage 0 0 0) [.setPeriod 1, .setSample 0 0]
      (.setSample 2 2)
    rw [hrun] at h
    exact h.trans hstep1
  · have h := run_snoc (fun _ => (0 : ℚ))
      (construct (fun _ => (0 : ℚ)) zeroStorage 0 0 0) [.setPeriod 1, .setSample 0 0]
      (.setScaledSample 2 2)
    rw [hrun] at h
    exact h.trans hstep2

end AppendEscape

section FreshPeriod
variable {α : Type} [LinearOrderedField α] [FloorRing α]

/-- The global object after `setPeriod(p)` with `p > 0`. -/
theorem zwobble_setPeriod (sin : α → α) (p : α) (hp : 0 < p) :
    setPeriod sin (zwobble sin) p =
      { sineModel (0 : α) (TWOPI / p) with m_consistent := false } := by
  simp [zwobble, construct, ZWobble.Set, setAmplitude, setPeriod, setPhase, calculateLut,
    areParametersConsistent, zeroStorage, phaseDown_zero, phaseUp_zero, sineModel,
    not_le.mpr hp]

/-- The scenario `setPeriod(p)`, `setSample(0.0, 0.0)` with `p > 0`: the 2-point
identity table of period `p`. -/
theorem run_fresh (sin : α → α) (p : α) (hp0 : 0 < p) :
    run sin (zwobble sin) [.setPeriod p, .setSample 0 0]
      = some { sampledUnit (table3 (0, 0) (p, p) (0, 0)) 2 with m_puls := TWOPI / p } := by
  have h := @TWOPI_pos α _
  have h' : (TWOPI : α) ≠ 0 := ne_of_gt h
  have hw : 0 < TWOPI / p := div_pos h hp0
  have hpp : TWOPI / (TWOPI / p) = p := by field_simp
  simp only [run, step]
  rw [zwobble_setPeriod sin p hp0]
  simp [setSample, not_le.mpr hw, calculateLut, areParametersConsistent, initLinearLut,
    insertInLut, scanFirst, EQUAL_WITHIN_TOLERANCE, DISTANCE, ZROD, TOLERANCE_MM, h',
    sampledUnit, SET_ZROD, SET_ZACTUAL, sineModel, hpp]
  funext j
  simp [table3]
  split_ifs <;> simp_all

end FreshPeriod

section IntCounter

/-- The wrapped value lies in the range of the `int` type. -/
theorem wrapInt_range (bits : Nat) (hb : 1 ≤ bits) (n : Int) :
    -(2 : Int) ^ (bits - 1) ≤ wrapInt bits n ∧ wrapInt bits n < (2 : Int) ^ (bits - 1) := by
  have h2 : (2 : Int) ^ bits = 2 * 2 ^ (bits - 1) := by
    have e : bits = (bits - 1) + 1 := by omega
    conv_lhs => rw [e, pow_succ]
    ring
  have hpos : (0 : Int) < 2 ^ bits := by positivity
  have h0 := Int.emod_nonneg (n + 2 ^ (bits - 1)) (ne_of_gt hpos)
  have h1 := Int.emod_lt_of_pos (n + 2 ^ (bits - 1)) hpos
  unfold wrapInt
  constructor <;> linarith

/-- A value in the range of the `int` type is not changed by the wrap. -/
theorem wrapInt_eq (bits : Nat) (hb : 1 ≤ bits) (n : Int)
    (h1 : -(2 : Int) ^ (bits - 1) ≤ n) (h2 : n < (2 : Int) ^ (bits - 1)) :
    wrapInt bits n = n := by
  have hp : (2 : Int) ^ bits = 2 * 2 ^ (bits - 1) := by
    have e : bits = (bits - 1) + 1 := by omega
    conv_lhs => rw [e, pow_succ]
    ring
  unfold wrapInt
  rw [Int.emod_eq_of_lt (by linarith) (by linarith)]
  ring

/-- When no value of the counter gives a cycle origin above `z`, the cycle search never
stops. -/
theorem cycleLoopOn_stuck (t : Target) (s : ZWobble ℚ) (z : ℚ) (hb : 1 ≤ t.intBits)
    (hall : ∀ n : Int, -(2 : Int) ^ (t.intBits - 1) ≤ n → n < (2 : Int) ^ (t.intBits - 1) →
      identicalZOn t s n ≤ z)
    (fuel : Nat) (nCycle : Int) (identicalZ : ℚ) (h : identicalZ ≤ z) :
    cycleLoopOn t s z fuel nCycle identicalZ = none := by
  induction fuel generalizing nCycle identicalZ with
  | zero => rw [cycleLoopOn, if_pos h]
  | succ fuel ih =>
    rw [cycleLoopOn, if_pos h]
    obtain ⟨h1, h2⟩ := wrapInt_range t.intBits hb (nCycle + 1)
    exact ih _ _ (hall _ h1 h2)

/-- In exact arithmetic the value computed for the counter `n` is `cycleOrigin(n)`. -/
theorem identicalZOn_exact (bits : Nat) (s : ZWobble ℚ) (n : Int) :
    identicalZOn (exactInt bits) s n = cycleOrigin s n := rfl

/-- In exact arithmetic `findInLut` on a target is `findInLut`. -/
theorem findInLutOn_exact (bits : Nat) (s : ZWobble ℚ) (z : ℚ) :
    findInLutOn (exactInt bits) s z = findInLut s z := rfl

/-- The unbounded cycle search returns a count at least its start. -/
theorem cycleLoop_ge (s : ZWobble ℚ) (z : ℚ) (fuel k m : Nat) (x : ℚ)
    (h : cycleLoop s z fuel k x = some m) : k ≤ m := by
  induction fuel generalizing k x with
  | zero =>
    rw [cycleLoop] at h
    split_ifs at h
    cases h
    exact le_refl _
  | succ fuel ih =>
    rw [cycleLoop] at h
    split_ifs at h
    · exact le_trans (Nat.le_succ k) (ih _ _ h)
    · cases h
      exact le_refl _

/-- As long as the count stays within the range of `int`, the cycle search with the
wrapping counter returns the count of the unbounded search. -/
theorem cycleLoopOn_exact (bits : Nat) (hb : 1 ≤ bits) (s : ZWobble ℚ) (z : ℚ)
    (fuel k m : Nat) (x : ℚ) (h : cycleLoop s z fuel k x = some m)
    (hm : (m : Int) < (2 : Int) ^ (bits - 1)) :
    cycleLoopOn (exactInt bits) s z fuel (k : Int) x = some (m : Int) := by
  induction fuel generalizing k x with
  | zero =>
    rw [cycleLoop] at h
    rw [cycleLoopOn]
    split_ifs at h ⊢
    cases h
    rfl
  | succ fuel ih =>
    rw [cycleLoop] at h
    rw [cycleLoopOn]
    split_ifs at h ⊢ with hx
    · have hk := cycleLoop_ge s z fuel (k + 1) m _ h
      have hpos : (0 : Int) < 2 ^ (bits - 1) := by positivity
      have hw : wrapInt (exactInt bits).intBits ((k : Int) + 1) = ((k + 1 : Nat) : Int) := by
        show wrapInt bits ((k : Int) + 1) = ((k + 1 : Nat) : Int)
        rw [wrapInt_eq bits hb _ (by omega) (by omega)]
        push_cast
        rfl
      rw [hw, identicalZOn_exact]
      have := ih (k + 1) _ h
      rw [← this]
      congr 1
    · cases h
      rfl

/-- As long as the cycle count stays within the range of `int`, `findZRod` with the
wrapping counter is `findZRod`. -/
theorem findZRodOn_exact (bits : Nat) (hb : 1 ≤ bits) (fuel : Nat) (s : ZWobble ℚ) (z : ℚ)
    (m : Nat) (h : cycleLoop s z fuel 0 (-s.m_phase / s.m_puls) = some m)
    (hm : (m : Int) < (2 : Int) ^ (bits - 1)) :
    findZRodOn (exactInt bits) fuel s z = findZRod fuel s z := by
  have hc := cycleLoopOn_exact bits hb s z fuel 0 m _ h hm
  have hpos : (0 : Int) < 2 ^ (bits - 1) := by positivity
  have hw : wrapInt (exactInt bits).intBits ((m : Int) - 1) = (m : Int) - 1 := by
    show wrapInt bits ((m : Int) - 1) = (m : Int) - 1
    exact wrapInt_eq bits hb _ (by omega) (by omega)
  unfold findZRodOn findZRod
  by_cases hp : s.m_puls = 0
  · rw [if_pos hp, if_pos hp]
  · rw [if_neg hp, if_neg hp, h]
    have hc' : cycleLoopOn (exactInt bits) s z fuel 0
        ((exactInt bits).fl (-s.m_phase / s.m_puls)) = some (m : Int) := hc
    rw [hc']
    simp only []
    rw [hw, identicalZOn_exact, findInLutOn_exact]
    unfold cycleOrigin
    simp only [exactInt]
    generalize findInLut s _ = r
    cases r <;> rfl

/-- When the cycle search never stops, `findZRod` returns nothing. -/
theorem findZRodOn_stuck (t : Target) (s : ZWobble ℚ) (z : ℚ) (hb : 1 ≤ t.intBits)
    (hall : ∀ n : Int, -(2 : Int) ^ (t.intBits - 1) ≤ n → n < (2 : Int) ^ (t.intBits - 1) →
      identicalZOn t s n ≤ z)
    (h0 : t.fl (-s.m_phase / s.m_puls) ≤ z) (fuel : Nat) :
    findZRodOn t fuel s z = none := by
  unfold findZRodOn
  split_ifs
  · rfl
  · rw [cycleLoopOn_stuck t s z hb hall fuel 0 _ h0]

/-- The cycle origins of the identity table of period 0.001. -/
theorem finePitch_origin (n : Int) : cycleOrigin finePitchState n = (n : ℚ) / 1000 := by
  have hT : (TWOPI : ℚ) ≠ 0 := ne_of_gt TWOPI_pos
  unfold cycleOrigin
  show (TWOPI * (n : ℚ) - 0) / (TWOPI / (1 / 1000)) = (n : ℚ) / 1000
  field_simp
  ring

/-- The cycle origins of the identity table of period 1. -/
theorem identity_origin (n : Int) : cycleOrigin identityState n = (n : ℚ) := by
  have hT : (TWOPI : ℚ) ≠ 0 := ne_of_gt TWOPI_pos
  unfold cycleOrigin
  show (TWOPI * (n : ℚ) - 0) / TWOPI = (n : ℚ)
  field_simp

end IntCounter

section IntCounterClaim

/-- C11 (failing input): `findZRod(40.0)` on the object reached by `setPeriod(0.001)`,
`setSample(0.0, 0.0)` (`w > 0`, phase 0, `z ≥ 0`).  The least `k` with
`cycleOrigin(k) > z` is 40001, above the largest value 32767 of the 16-bit `int nCycle`:
every value the counter can take gives `cycleOrigin ≤ 32.767 ≤ z`, so the search loop is
still running after any number of iterations and `findZRod` returns nothing.  With a
32-bit `int` the same happens for period 1 at `z = 2^31`. -/
theorem C11_cycle_counter_overflows :
    run (fun _ => (0 : ℚ)) (zwobble (fun _ => (0 : ℚ)))
      [.setPeriod (1 / 1000), .setSample 0 0] = some finePitchState ∧
    0 < finePitchState.m_puls ∧ 0 ≤ finePitchState.m_phase ∧
    -finePitchState.m_phase / finePitchState.m_puls ≤ 40 ∧
    cycleOrigin finePitchState 40000 ≤ 40 ∧ 40 < cycleOrigin finePitchState 40001 ∧
    (∀ fuel, 40001 ≤ fuel →
      cycleLoop finePitchState 40 fuel 0 (-finePitchState.m_phase / finePitchState.m_puls)
        = some 40001) ∧
    (∀ n : Int, -32768 ≤ n → n ≤ 32767 → identicalZOn (exactInt 16) finePitchState n ≤ 40) ∧
    (∀ fuel, cycleLoopOn (exactInt 16) finePitchState 40 fuel 0
      (-finePitchState.m_phase / finePitchState.m_puls) = none) ∧
    (∀ fuel, findZRodOn (exactInt 16) fuel finePitchState 40 = none) ∧
    (∀ fuel, findZRodOn (exactInt 32) fuel identityState 2147483648 = none) := by
  have hw : 0 < finePitchState.m_puls := by
    show (0 : ℚ) < TWOPI / (1 / 1000)
    exact div_pos TWOPI_pos (by norm_num)
  have hph : finePitchState.m_phase = 0 := rfl
  have h0 : -finePitchState.m_phase / finePitchState.m_puls ≤ 40 := by
    rw [hph, neg_zero, zero_div]
    norm_num
  have hall16 : ∀ n : Int, -(2 : Int) ^ ((exactInt 16).intBits - 1) ≤ n →
      n < (2 : Int) ^ ((exactInt 16).intBits - 1) →
      identicalZOn (exactInt 16) finePitchState n ≤ 40 := by
    intro n _ h2
    have h2' : n < 32768 := by
      have e : (2 : Int) ^ ((exactInt 16).intBits - 1) = 32768 := by
        show (2 : Int) ^ (16 - 1) = 32768
        norm_num
      rw [e] at h2
      exact h2
    rw [identicalZOn_exact, finePitch_origin]
    have : (n : ℚ) < 32768 := by exact_mod_cast h2'
    linarith
  have hall32 : ∀ n : Int, -(2 : Int) ^ ((exactInt 32).intBits - 1) ≤ n →
      n < (2 : Int) ^ ((exactInt 32).intBits - 1) →
      identicalZOn (exactInt 32) identityState n ≤ 2147483648 := by
    intro n _ h2
    have h2' : n < 2147483648 := by
      have e : (2 : Int) ^ ((exactInt 32).intBits - 1) = 2147483648 := by
        show (2 : Int) ^ (32 - 1) = 2147483648
        norm_num
      rw [e] at h2
      exact h2
    rw [identicalZOn_exact, identity_origin]
    have : (n : ℚ) < 2147483648 := by exact_mod_cast h2'
    linarith
  refine ⟨run_fresh _ (1 / 1000) (by norm_num), hw, le_of_eq hph.symm, h0, ?_, ?_, ?_, ?_,
    ?_, ?_, ?_⟩
  · rw [finePitch_origin]; norm_num
  · rw [finePitch_origin]; norm_num
  · intro fuel hf
    have h := cycleLoop_spec finePitchState 40 fuel 0 40001 (by omega) (by omega)
      (fun j _ hj => by
        rw [finePitch_origin]
        have : ((j : Int) : ℚ) ≤ 40000 := by
          have : j ≤ 40000 := by omega
          exact_mod_cast this
        linarith)
      (by rw [finePitch_origin]; norm_num)
    rw [← cycleOrigin_zero]
    exact h
  · intro n h1 h2
    apply hall16 n
    · show -(2 : Int) ^ (16 - 1) ≤ n
      norm_num
      exact h1
    · show n < (2 : Int) ^ (16 - 1)
      norm_num
      omega
  · intro fuel
    exact cycleLoopOn_stuck (exactInt 16) finePitchState 40 (by decide) hall16 fuel 0 _ h0
  · intro fuel
    exact findZRodOn_stuck (exactInt 16) finePitchState 40 (by decide) hall16 h0 fuel
  · intro fuel
    refine findZRodOn_stuck (exactInt 32) identityState 2147483648 (by decide) hall32 ?_ fuel
    show -(0 : ℚ) / TWOPI ≤ 2147483648
    rw [neg_zero, zero_div]
    norm_num

end IntCounterClaim

section Binary32

/-- A rational within one half of an integer rounds to it. -/
theorem roundEven_of_near (q : ℚ) (m : Int) (h1 : (m : ℚ) - 1 / 2 < q)
    (h2 : q < (m : ℚ) + 1 / 2) : roundEven q = m := by
  unfold roundEven
  by_cases hq : (m : ℚ) ≤ q
  · have hf : ⌊q⌋ = m := by
      rw [Int.floor_eq_iff]
      constructor
      · exact hq
      · linarith
    rw [hf, if_pos (by linarith)]
  · have hq' : q < (m : ℚ) := not_le.mp hq
    have hf : ⌊q⌋ = m - 1 := by
      rw [Int.floor_eq_iff]
      push_cast
      constructor <;> linarith
    rw [hf, if_neg (by push_cast; linarith), if_pos (by push_cast; linarith)]
    ring

/-- The binary exponent of a non-zero rational. -/
theorem log_eq (x : ℚ) (e : Int) (hlo : (2 : ℚ) ^ e ≤ |x|) (hhi : |x| < (2 : ℚ) ^ (e + 1)) :
    Int.log 2 |x| = e := by
  have hpos : 0 < |x| := lt_of_lt_of_le (by positivity) hlo
  have h1 : e ≤ Int.log 2 |x| := by
    rw [← Int.zpow_le_iff_le_log (by norm_num) hpos]
    exact_mod_cast hlo
  have h2 : Int.log 2 |x| < e + 1 := by
    rw [← Int.lt_zpow_iff_log_lt (by norm_num) hpos]
    exact_mod_cast hhi
  omega

/-- Evaluation of `toFloat32` from the binary exponent and the rounded significand. -/
theorem toFloat32_eq (x : ℚ) (e m : Int) (hlo : (2 : ℚ) ^ e ≤ |x|)
    (hhi : |x| < (2 : ℚ) ^ (e + 1)) (hr : roundEven (x / 2 ^ (e - 23)) = m) :
    toFloat32 x = (m : ℚ) * 2 ^ (e - 23) := by
  have hpos : 0 < |x| := lt_of_lt_of_le (by positivity) hlo
  have hx : x ≠ 0 := abs_pos.mp hpos
  unfold toFloat32
  rw [if_neg hx, log_eq x e hlo hhi, hr]

/-- A number `m * 2^j` with `|m| < 2^24` is a binary32 number: it is not changed by the
rounding. -/
theorem toFloat32_dyadic (m j : Int) (hm : |m| < 2 ^ 24) :
    toFloat32 ((m : ℚ) * 2 ^ j) = (m : ℚ) * 2 ^ j := by
  by_cases h0 : m = 0
  · rw [h0]
    unfold toFloat32
    simp
  have hx : (m : ℚ) * 2 ^ j ≠ 0 := by
    apply mul_ne_zero
    · exact_mod_cast h0
    · positivity
  have hpos : 0 < |(m : ℚ) * 2 ^ j| := abs_pos.mpr hx
  have hle := Int.zpow_log_le_self (b := 2) (by norm_num) hpos
  have habs : |(m : ℚ) * 2 ^ j| = |(m : ℚ)| * 2 ^ j := by
    rw [abs_mul, abs_of_pos (by positivity : (0 : ℚ) < 2 ^ j)]
  have hmq : |(m : ℚ)| < 2 ^ (24 : Int) := by
    have : ((|m| : Int) : ℚ) < ((2 ^ 24 : Int) : ℚ) := by exact_mod_cast hm
    rw [Int.cast_abs] at this
    calc |(m : ℚ)| < ((2 ^ 24 : Int) : ℚ) := this
      _ = 2 ^ (24 : Int) := by norm_num
  have hlt : ((2 : ℕ) : ℚ) ^ Int.log 2 |(m : ℚ) * 2 ^ j| < (2 : ℚ) ^ (24 + j) := by
    calc ((2 : ℕ) : ℚ) ^ Int.log 2 |(m : ℚ) * 2 ^ j| ≤ |(m : ℚ) * 2 ^ j| := hle
      _ = |(m : ℚ)| * 2 ^ j := habs
      _ < 2 ^ (24 : Int) * 2 ^ j := by
        apply mul_lt_mul_of_pos_right hmq
        positivity
      _ = 2 ^ (24 + j) := by rw [← zpow_add₀ (by norm_num : (2 : ℚ) ≠ 0)]
  have he : Int.log 2 |(m : ℚ) * 2 ^ j| < 24 + j := by
    have h2 : ((2 : ℕ) : ℚ) = 2 := by norm_num
    rw [h2] at hlt
    exact (zpow_lt_zpow_iff_right₀ (by norm_num : (1 : ℚ) < 2)).mp hlt
  obtain ⟨d, hd⟩ : ∃ d : Nat, (d : Int) = j - (Int.log 2 |(m : ℚ) * 2 ^ j| - 23) :=
    ⟨(j - (Int.log 2 |(m : ℚ) * 2 ^ j| - 23)).toNat, Int.toNat_of_nonneg (by omega)⟩
  have hdiv : (m : ℚ) * 2 ^ j / 2 ^ (Int.log 2 |(m : ℚ) * 2 ^ j| - 23)
      = ((m * 2 ^ d : Int) : ℚ) := by
    rw [mul_div_assoc, ← zpow_sub₀ (by norm_num : (2 : ℚ) ≠ 0), ← hd]
    push_cast
    rw [zpow_natCast]
  unfold toFloat32
  rw [if_neg hx, hdiv, roundEven_int]
  push_cast
  rw [mul_assoc, ← zpow_natCast, hd, ← zpow_add₀ (by norm_num : (2 : ℚ) ≠ 0)]
  congr 2
  ring

/-- A rational that can be written as `m * 2^j` with `|m| < 2^24` is a binary32 number. -/
theorem toFloat32_repr (x : ℚ) (m j : Int) (hm : |m| < 2 ^ 24) (hx : x = (m : ℚ) * 2 ^ j) :
    toFloat32 x = x := by
  rw [hx]
  exact toFloat32_dyadic m j hm

/-- The binary32 value of `TWOPI`. -/
theorem toFloat32_TWOPI : toFloat32 TWOPI = 13176795 / 2097152 := by
  have h := toFloat32_eq TWOPI 2 13176795 (by norm_num [TWOPI, abs_of_pos])
    (by norm_num [TWOPI, abs_of_pos])
    (roundEven_of_near _ _ (by norm_num [TWOPI]) (by norm_num [TWOPI]))
  rw [h]
  norm_num

/-- The binary32 value of 0.2. -/
theorem toFloat32_fifth : toFloat32 (2 / 10) = 13421773 / 67108864 := by
  have h := toFloat32_eq (2 / 10) (-3) 13421773 (by norm_num [abs_of_pos])
    (by norm_num [abs_of_pos])
    (roundEven_of_near _ _ (by norm_num) (by norm_num))
  rw [h]
  norm_num

/-- The binary32 value of `ZWOBBLE_MIN_Z`. -/
theorem toFloat32_MIN_Z : toFloat32 ZWOBBLE_MIN_Z = 13421773 / 134217728 := by
  have h := toFloat32_eq ZWOBBLE_MIN_Z (-4) 13421773 (by norm_num [ZWOBBLE_MIN_Z, abs_of_pos])
    (by norm_num [ZWOBBLE_MIN_Z, abs_of_pos])
    (roundEven_of_near _ _ (by norm_num [ZWOBBLE_MIN_Z]) (by norm_num [ZWOBBLE_MIN_Z]))
  rw [h]
  norm_num

/-- The binary32 value of `TOLERANCE_MM`. -/
theorem toFloat32_TOLERANCE : toFloat32 TOLERANCE_MM = 5368709 / 536870912 := by
  have h := toFloat32_eq TOLERANCE_MM (-7) 10737418 (by norm_num [TOLERANCE_MM, abs_of_pos])
    (by norm_num [TOLERANCE_MM, abs_of_pos])
    (roundEven_of_near _ _ (by norm_num [TOLERANCE_MM]) (by norm_num [TOLERANCE_MM]))
  rw [h]
  norm_num

end Binary32

section Identity32

theorem toFloat32_zero : toFloat32 0 = 0 := by
  unfold toFloat32
  simp

theorem toFloat32_one : toFloat32 1 = 1 :=
  toFloat32_repr 1 1 0 (by norm_num) (by norm_num)

/-- The binary32 value of `TWOPI` is a binary32 number. -/
theorem toFloat32_W : toFloat32 (13176795 / 2097152) = 13176795 / 2097152 :=
  toFloat32_repr _ 13176795 (-21) (by norm_num) (by norm_num)

theorem identityState32_puls : identityState32.m_puls = 13176795 / 2097152 :=
  toFloat32_TWOPI

/-- On the AVR target the cycle origin for the counter 0 is 0. -/
theorem identity32_origin_zero : identicalZOn avr identityState32 0 = 0 := by
  unfold identicalZOn
  show toFloat32 (toFloat32 (toFloat32 (toFloat32 TWOPI * toFloat32 ((0 : Int) : ℚ)) - 0)
    / identityState32.m_puls) = 0
  rw [Int.cast_zero, toFloat32_zero, mul_zero, toFloat32_zero, sub_zero, toFloat32_zero,
    zero_div, toFloat32_zero]

/-- On the AVR target the cycle origin for the counter 1 is 1. -/
theorem identity32_origin_one : identicalZOn avr identityState32 1 = 1 := by
  unfold identicalZOn
  show toFloat32 (toFloat32 (toFloat32 (toFloat32 TWOPI * toFloat32 ((1 : Int) : ℚ)) - 0)
    / identityState32.m_puls) = 1
  rw [Int.cast_one, toFloat32_one, mul_one, identityState32_puls, toFloat32_TWOPI,
    toFloat32_W, sub_zero, toFloat32_W, div_self (by norm_num), toFloat32_one]

/-- On the AVR target `findInLut` on the identity table returns a binary32 height of the
first period unchanged. -/
theorem identity32_findInLut (z : ℚ) (h0 : 0 < z) (h1 : z < 1) (hrep : toFloat32 z = z) :
    findInLutOn avr identityState32 z = some z := by
  have hA0 : ZACTUALOn avr identityState32 0 = 0 := by
    norm_num [ZACTUALOn, identityState32, identityState, sampledUnit, table3]
  have hA1 : ZACTUALOn avr identityState32 1 = 1 := by
    norm_num [ZACTUALOn, identityState32, identityState, sampledUnit, table3]
  have hR0 : ZROD identityState32 0 = 0 := by
    norm_num [ZROD, identityState32, identityState, sampledUnit, table3]
  have hR1 : ZROD identityState32 1 = 1 := by
    norm_num [ZROD, identityState32, identityState, sampledUnit, table3]
  have hsz : identityState32.lutSize = 0 + 1 + 1 := rfl
  have hscan : scanFirst (fun i => decide (ZACTUALOn avr identityState32 i > z)) 0
      identityState32.lutSize = some 1 := by
    rw [hsz, scanFirst_miss _ _ _ (by rw [hA0]; simpa using h0.le),
      scanFirst_hit _ _ _ (by rw [hA1]; simpa using h1)]
  unfold findInLutOn
  rw [hscan]
  have hl : identityState32.lutSize - 1 = 1 := rfl
  simp only [hl, hA0, hA1, hR0, hR1]
  rw [if_neg (by decide), if_neg (not_le.mpr h1), if_neg (not_le.mpr h0),
    if_neg (by decide)]
  show (if toFloat32 (1 - 0) = 0 then none else
    some (toFloat32 (toFloat32 (toFloat32 (0 * toFloat32 (1 - z))
      + toFloat32 (1 * toFloat32 (z - 0))) * toFloat32 (1 / toFloat32 (1 - 0))))) = some z
  rw [sub_zero, toFloat32_one, if_neg (by norm_num), zero_mul, toFloat32_zero, sub_zero, hrep,
    one_mul, hrep, zero_add, hrep, div_one, toFloat32_one, mul_one, hrep]

/-- On the AVR target `findZRod` on the identity table returns a binary32 height of the
first period unchanged, for every fuel of at least one iteration. -/
theorem identity32_findZRod (fuel : Nat) (z : ℚ) (h0 : 0 < z) (h1 : z < 1)
    (hrep : toFloat32 z = z) : findZRodOn avr (fuel + 1) identityState32 z = some z := by
  have hp : identityState32.m_puls ≠ 0 := by
    rw [identityState32_puls]
    norm_num
  have hstart : avr.fl (-identityState32.m_phase / identityState32.m_puls) = 0 := by
    show toFloat32 (-(0 : ℚ) / identityState32.m_puls) = 0
    rw [neg_zero, zero_div, toFloat32_zero]
  have hw1 : wrapInt avr.intBits (0 + 1) = 1 := by decide
  have hw0 : wrapInt avr.intBits (1 - 1) = 0 := by decide
  have hloop : cycleLoopOn avr identityState32 z (fuel + 1) 0 0 = some 1 := by
    rw [cycleLoopOn, if_pos h0.le, hw1, identity32_origin_one]
    cases fuel with
    | zero => rw [cycleLoopOn, if_neg (not_le.mpr h1)]
    | succ n => rw [cycleLoopOn, if_neg (not_le.mpr h1)]
  unfold findZRodOn
  rw [if_neg hp, hstart, hloop]
  simp only []
  rw [hw0, identity32_origin_zero]
  show (match findInLutOn avr identityState32 (toFloat32 (z - 0)) with
    | none => none
    | some deltaZrod => some (toFloat32 (0 + deltaZrod))) = some z
  rw [sub_zero, hrep, identity32_findInLut z h0 h1 hrep]
  simp only []
  rw [zero_add, hrep]

/-- `InsertCorrection` on a target past its guards, given the two resolved rod
positions. -/
theorem InsertCorrectionOn_pass (t : Target) (fuel : Nat) (s : ZWobble ℚ) (position : Int)
    (axis_steps_per_unit targetZ originZ originRod targetRod : ℚ)
    (hc : s.m_consistent = true) (hspu : axis_steps_per_unit ≠ 0)
    (hoz : t.fl (t.fl (position : ℚ) / axis_steps_per_unit) = originZ)
    (ho : ¬ originZ < t.fl ZWOBBLE_MIN_Z) (ht : ¬ targetZ < t.fl ZWOBBLE_MIN_Z)
    (htol : ¬ DISTANCEOn t originZ targetZ < t.fl TOLERANCE_MM)
    (horigin : (if originZ = s.lastZ then some s.lastZRod
      else findZRodOn t fuel s originZ) = some originRod)
    (htarget : findZRodOn t fuel s targetZ = some targetRod) :
    InsertCorrectionOn t fuel s position axis_steps_per_unit targetZ =
      if position - (lround (t.fl (t.fl (targetRod - originRod) * axis_steps_per_unit))
          - (lround (t.fl (targetZ * axis_steps_per_unit)) - position)) < 0 then
        some (0, position, { s with lastZ := targetZ, lastZRod := targetRod })
      else
        some (lround (t.fl (t.fl (targetRod - originRod) * axis_steps_per_unit))
            - (lround (t.fl (targetZ * axis_steps_per_unit)) - position),
          position - (lround (t.fl (t.fl (targetRod - originRod) * axis_steps_per_unit))
            - (lround (t.fl (targetZ * axis_steps_per_unit)) - position)),
          { s with lastZ := targetZ, lastZRod := targetRod }) := by
  have hg : ¬ (originZ < t.fl ZWOBBLE_MIN_Z ∨ targetZ < t.fl ZWOBBLE_MIN_Z) := by
    push_neg
    exact ⟨not_lt.mp ho, not_lt.mp ht⟩
  unfold InsertCorrectionOn
  simp only [hc, Bool.not_true, Bool.false_eq_true, if_false, if_neg hspu, hoz, if_neg hg,
    if_neg htol]
  rw [horigin]
  simp only []
  rw [htarget]

end Identity32

section Identity32Claim

/-- The height 0.25 is a binary32 number. -/
theorem toFloat32_quarter : toFloat32 (1 / 4) = 1 / 4 :=
  toFloat32_repr _ 1 (-2) (by norm_num) (by norm_num)

/-- The binary32 value of 0.2 is a binary32 number. -/
theorem toFloat32_fifth_repr : toFloat32 (13421773 / 67108864) = 13421773 / 67108864 :=
  toFloat32_repr _ 13421773 (-26) (by norm_num) (by norm_num)

/-- The upward move from step 2 (0.2 mm) to 0.25 mm at 10 steps per mm on the AVR
target: the rod travel `(0.25 - 0.2f)*10` is the binary32 number just below 0.5 and rounds
to 0 steps, the planned travel is `lround(2.5) - 2 = 1` step. -/
theorem identity32_upward (fuel : Nat) :
    InsertCorrectionOn avr (fuel + 1) identityState32 2 10 (1 / 4)
      = some (-1, 3, identityCached32) := by
  have hoz : avr.fl (avr.fl ((2 : Int) : ℚ) / 10) = 13421773 / 67108864 := by
    show toFloat32 (toFloat32 ((2 : Int) : ℚ) / 10) = 13421773 / 67108864
    rw [toFloat32_repr ((2 : Int) : ℚ) 1 1 (by norm_num) (by norm_num)]
    have e : (((2 : Int) : ℚ)) / 10 = 2 / 10 := by norm_num
    rw [e, toFloat32_fifth]
  have hmin : avr.fl ZWOBBLE_MIN_Z = 13421773 / 134217728 := toFloat32_MIN_Z
  have htolv : avr.fl TOLERANCE_MM = 5368709 / 536870912 := toFloat32_TOLERANCE
  have hdist : DISTANCEOn avr (13421773 / 67108864) (1 / 4) = 3355443 / 67108864 := by
    unfold DISTANCEOn
    show (if 0 < toFloat32 (13421773 / 67108864 - 1 / 4)
      then toFloat32 (13421773 / 67108864 - 1 / 4)
      else -toFloat32 (13421773 / 67108864 - 1 / 4)) = 3355443 / 67108864
    rw [toFloat32_repr (13421773 / 67108864 - 1 / 4) (-3355443) (-26) (by norm_num)
      (by norm_num)]
    norm_num
  have horigin : (if (13421773 / 67108864 : ℚ) = identityState32.lastZ
      then some identityState32.lastZRod
      else findZRodOn avr (fuel + 1) identityState32 (13421773 / 67108864))
      = some (13421773 / 67108864) := by
    have hl : ¬ ((13421773 / 67108864 : ℚ) = identityState32.lastZ) := by
      show ¬ ((13421773 / 67108864 : ℚ) = -1)
      norm_num
    rw [if_neg hl]
    exact identity32_findZRod fuel _ (by norm_num) (by norm_num) toFloat32_fifth_repr
  have htarget : findZRodOn avr (fuel + 1) identityState32 (1 / 4) = some (1 / 4) :=
    identity32_findZRod fuel _ (by norm_num) (by norm_num) toFloat32_quarter
  have hrod : avr.fl (avr.fl ((1 / 4 : ℚ) - 13421773 / 67108864) * 10)
      = 16777215 / 33554432 := by
    show toFloat32 (toFloat32 ((1 / 4 : ℚ) - 13421773 / 67108864) * 10)
      = 16777215 / 33554432
    rw [toFloat32_repr ((1 / 4 : ℚ) - 13421773 / 67108864) 3355443 (-26) (by norm_num)
      (by norm_num),
      toFloat32_repr (((1 / 4 : ℚ) - 13421773 / 67108864) * 10) 16777215 (-25) (by norm_num)
      (by norm_num)]
    norm_num
  have hplan : avr.fl ((1 / 4 : ℚ) * 10) = 5 / 2 := by
    show toFloat32 ((1 / 4 : ℚ) * 10) = 5 / 2
    rw [toFloat32_repr ((1 / 4 : ℚ) * 10) 5 (-1) (by norm_num) (by norm_num)]
    norm_num
  rw [InsertCorrectionOn_pass avr (fuel + 1) identityState32 2 10 (1 / 4) _ _ _ rfl
    (by norm_num) hoz (by rw [hmin]; norm_num) (by rw [hmin]; norm_num)
    (by rw [hdist, htolv]; norm_num) horigin htarget, hrod, hplan,
    lround_eq _ 0 (by norm_num) (by norm_num) (by norm_num),
    lround_eq _ 3 (by norm_num) (by norm_num) (by norm_num)]
  rfl

/-- The downward move from step 5 (0.5 mm) to 0.25 mm at 10 steps per mm on the AVR
target: every value is a binary32 number, the rod travel `-2.5` rounds to -3 steps, the
planned travel is `lround(2.5) - 5 = -2` steps. -/
theorem identity32_downward (fuel : Nat) :
    InsertCorrectionOn avr (fuel + 1) identityState32 5 10 (1 / 4)
      = some (-1, 6, identityCached32) := by
  have hoz : avr.fl (avr.fl ((5 : Int) : ℚ) / 10) = 1 / 2 := by
    show toFloat32 (toFloat32 ((5 : Int) : ℚ) / 10) = 1 / 2
    rw [toFloat32_repr ((5 : Int) : ℚ) 5 0 (by norm_num) (by norm_num),
      toFloat32_repr ((((5 : Int) : ℚ)) / 10) 1 (-1) (by norm_num) (by norm_num)]
    norm_num
  have hmin : avr.fl ZWOBBLE_MIN_Z = 13421773 / 134217728 := toFloat32_MIN_Z
  have htolv : avr.fl TOLERANCE_MM = 5368709 / 536870912 := toFloat32_TOLERANCE
  have hhalf : toFloat32 (1 / 2) = 1 / 2 :=
    toFloat32_repr _ 1 (-1) (by norm_num) (by norm_num)
  have hdist : DISTANCEOn avr (1 / 2) (1 / 4) = 1 / 4 := by
    unfold DISTANCEOn
    show (if 0 < toFloat32 (1 / 2 - 1 / 4) then toFloat32 (1 / 2 - 1 / 4)
      else -toFloat32 (1 / 2 - 1 / 4)) = 1 / 4
    rw [toFloat32_repr (1 / 2 - 1 / 4) 1 (-2) (by norm_num) (by norm_num)]
    norm_num
  have horigin : (if (1 / 2 : ℚ) = identityState32.lastZ
      then some identityState32.lastZRod
      else findZRodOn avr (fuel + 1) identityState32 (1 / 2)) = some (1 / 2) := by
    have hl : ¬ ((1 / 2 : ℚ) = identityState32.lastZ) := by
      show ¬ ((1 / 2 : ℚ) = -1)
      norm_num
    rw [if_neg hl]
    exact identity32_findZRod fuel _ (by norm_num) (by norm_num) hhalf
  have htarget : findZRodOn avr (fuel + 1) identityState32 (1 / 4) = some (1 / 4) :=
    identity32_findZRod fuel _ (by norm_num) (by norm_num) toFloat32_quarter
  have hrod : avr.fl (avr.fl ((1 / 4 : ℚ) - 1 / 2) * 10) = -(5 / 2) := by
    show toFloat32 (toFloat32 ((1 / 4 : ℚ) - 1 / 2) * 10) = -(5 / 2)
    rw [toFloat32_repr ((1 / 4 : ℚ) - 1 / 2) (-1) (-2) (by norm_num) (by norm_num),
      toFloat32_repr (((1 / 4 : ℚ) - 1 / 2) * 10) (-5) (-1) (by norm_num) (by norm_num)]
    norm_num
  have hplan : avr.fl ((1 / 4 : ℚ) * 10) = 5 / 2 := by
    show toFloat32 ((1 / 4 : ℚ) * 10) = 5 / 2
    rw [toFloat32_repr ((1 / 4 : ℚ) * 10) 5 (-1) (by norm_num) (by norm_num)]
    norm_num
  have hl3 : lround (-(5 / 2 : ℚ)) = -3 := by
    unfold lround
    rw [if_neg (by norm_num)]
    have : ⌊-(-(5 / 2 : ℚ)) + 1 / 2⌋ = 3 := by
      rw [Int.floor_eq_iff]
      norm_num
    rw [this]
  rw [InsertCorrectionOn_pass avr (fuel + 1) identityState32 5 10 (1 / 4) _ _ _ rfl
    (by norm_num) hoz (by rw [hmin]; norm_num) (by rw [hmin]; norm_num)
    (by rw [hdist, htolv]; norm_num) horigin htarget, hrod, hplan, hl3,
    lround_eq _ 3 (by norm_num) (by norm_num) (by norm_num)]
  rfl

/-- C20 (failing input): on the AVR target, the object after `setPeriod(1.0)`,
`setSample(0.0, 0.0)` holds the 2-point identity table `{(0,0),(1,1)}` (the period
`TWOPI/m_puls` computed by `initLinearLut` is 1) with a cleared cache.  With 10 steps per
mm, `InsertCorrection(0.25)` returns -1 instead of 0 and changes the step position, both
on the upward move from step 2 (position becomes 3) and on the downward move from step 5
(position becomes 6); in exact arithmetic the downward move gives the same result. -/
theorem C20_identity_table_corrects :
    run (fun _ => (0 : ℚ)) (zwobble (fun _ => (0 : ℚ))) [.setPeriod 1, .setSample 0 0]
      = some identityState ∧
    identityState32 = { identityState with m_puls := toFloat32 (toFloat32 TWOPI / 1) } ∧
    toFloat32 (toFloat32 TWOPI / identityState32.m_puls) = 1 ∧
    identityState32.lutSize = 2 ∧ identityState32.zLut 0 = (0, 0) ∧
    identityState32.zLut 1 = (1, 1) ∧ identityState32.m_sinusoidal = false ∧
    (identityState32.lastZ, identityState32.lastZRod) = (-1, -1) ∧
    (∀ fuel, 1 ≤ fuel →
      InsertCorrectionOn avr fuel identityState32 2 10 (1 / 4)
        = some (-1, 3, identityCached32)) ∧
    (∀ fuel, 1 ≤ fuel →
      InsertCorrectionOn avr fuel identityState32 5 10 (1 / 4)
        = some (-1, 6, identityCached32)) ∧
    InsertCorrection 1 identityState 5 10 (1 / 4) = some (-1, 6, identityCached) := by
  refine ⟨run_identity _, ?_, ?_, rfl, rfl, rfl, rfl, rfl, ?_, ?_, ?_⟩
  · rw [div_one, toFloat32_TWOPI, toFloat32_W]
    unfold identityState32
    rw [toFloat32_TWOPI]
  · rw [identityState32_puls, toFloat32_TWOPI, div_self (by norm_num), toFloat32_one]
  · intro fuel hf
    obtain ⟨n, rfl⟩ : ∃ n, fuel = n + 1 := ⟨fuel - 1, by omega⟩
    exact identity32_upward n
  · intro fuel hf
    obtain ⟨n, rfl⟩ : ∃ n, fuel = n + 1 := ⟨fuel - 1, by omega⟩
    exact identity32_downward n
  · exact identity_correction_quarter.2.2

end Identity32Claim

section Selection
variable {α : Type} [LinearOrderedField α]

/-- A scan over cells without a scaled entry returns what it started with. -/
theorem scaledLoop_none (s : ZWobble α) (period : α) (n i : Nat) (acc : Int × Int)
    (h : ∀ m, i ≤ m → m < i + n → ZACTUAL_IS_SCALED s m = false) :
    scaledLoop s period i n acc = acc := by
  induction n generalizing i acc with
  | zero => rfl
  | succ n ih =>
    rw [scaledLoop, if_neg (by rw [h i (le_refl i) (by omega)]; decide)]
    exact ih (i + 1) acc (fun m h1 h2 => h m (by omega) (by omega))

/-- The scan stops at the first scaled entry whose rod reaches the period, or else at the
last scaled entry; `s1` is the scaled entry before it, if any. -/
theorem scaledLoop_stop (s : ZWobble α) (period : α) (n i j : Nat) (acc : Int × Int)
    (hij : i ≤ j) (hjn : j < i + n) (hj : ZACTUAL_IS_SCALED s j = true)
    (hbefore : ∀ m, i ≤ m → m < j → ZACTUAL_IS_SCALED s m = true → ZROD s m < period)
    (hstop : period ≤ ZROD s j ∨ ∀ m, j < m → m < i + n → ZACTUAL_IS_SCALED s m = false) :
    (scaledLoop s period i n acc).2 = (j : Int) ∧
    ((∀ m, i ≤ m → m < j → ZACTUAL_IS_SCALED s m = false) →
      (scaledLoop s period i n acc).1 = acc.2) ∧
    (∀ q, i ≤ q → q < j → ZACTUAL_IS_SCALED s q = true →
      (∀ m, q < m → m < j → ZACTUAL_IS_SCALED s m = false) →
      (scaledLoop s period i n acc).1 = (q : Int)) := by
  induction n generalizing i acc with
  | zero => omega
  | succ n ih =>
    rw [scaledLoop]
    by_cases hi : i = j
    · subst hi
      rw [if_pos hj]
      have hres : (if ZROD s i ≥ period then (acc.2, (i : Int))
          else scaledLoop s period (i + 1) n (acc.2, (i : Int))) = (acc.2, (i : Int)) := by
        by_cases hper : ZROD s i ≥ period
        · rw [if_pos hper]
        · rw [if_neg hper]
          rcases hstop with h | h
          · exact absurd h hper
          · exact scaledLoop_none s period n (i + 1) _
              (fun m h1 h2 => h m (by omega) (by omega))
      rw [hres]
      exact ⟨rfl, fun _ => rfl, fun q h1 h2 => absurd h2 (by omega)⟩
    · have hlt : i < j := by omega
      have hstop' : period ≤ ZROD s j ∨
          ∀ m, j < m → m < i + 1 + n → ZACTUAL_IS_SCALED s m = false := by
        rcases hstop with h | h
        · exact Or.inl h
        · exact Or.inr (fun m h1 h2 => h m h1 (by omega))
      by_cases hsc : ZACTUAL_IS_SCALED s i = true
      · have hper : ¬ ZROD s i ≥ period := not_le.mpr (hbefore i (le_refl i) hlt hsc)
        rw [if_pos hsc, if_neg hper]
        obtain ⟨h2, h1a, h1b⟩ := ih (i + 1) (acc.2, (i : Int)) (by omega) (by omega)
          (fun m hm1 hm2 => hbefore m (by omega) hm2) hstop'
        refine ⟨h2, fun hall => ?_, fun q hq1 hq2 hqs hbetween => ?_⟩
        · have := hall i (le_refl i) hlt
          rw [hsc] at this
          cases this
        · by_cases hqi : q = i
          · subst hqi
            exact h1a (fun m hm1 hm2 => hbetween m (by omega) hm2)
          · exact h1b q (by omega) hq2 hqs hbetween
      · have hsc' : ZACTUAL_IS_SCALED s i = false := by simpa using hsc
        rw [if_neg hsc]
        obtain ⟨h2, h1a, h1b⟩ := ih (i + 1) acc (by omega) (by omega)
          (fun m hm1 hm2 => hbefore m (by omega) hm2) hstop'
        refine ⟨h2, fun hall => h1a (fun m hm1 hm2 => hall m (by omega) hm2),
          fun q hq1 hq2 hqs hbetween => ?_⟩
        have hqi : q ≠ i := by
          rintro rfl
          rw [hsc'] at hqs
          cases hqs
        exact h1b q (by omega) hq2 hqs hbetween

/-- When some cell in range is scaled, the scan selects a cell in range as `s2`. -/
theorem scaledLoop_found (s : ZWobble α) (period : α) (n i : Nat) (acc : Int × Int)
    (h : ∃ m, i ≤ m ∧ m < i + n ∧ ZACTUAL_IS_SCALED s m = true) :
    ∃ j : Nat, i ≤ j ∧ j < i + n ∧ (scaledLoop s period i n acc).2 = (j : Int) := by
  induction n generalizing i acc with
  | zero =>
    obtain ⟨m, h1, h2, _⟩ := h
    omega
  | succ n ih =>
    rw [scaledLoop]
    by_cases hsc : ZACTUAL_IS_SCALED s i = true
    · rw [if_pos hsc]
      by_cases hper : ZROD s i ≥ period
      · rw [if_pos hper]
        exact ⟨i, le_refl i, by omega, rfl⟩
      · rw [if_neg hper]
        by_cases hrest : ∃ m, i + 1 ≤ m ∧ m < i + 1 + n ∧ ZACTUAL_IS_SCALED s m = true
        · obtain ⟨j, hj1, hj2, hj3⟩ := ih (i + 1) (acc.2, (i : Int)) hrest
          exact ⟨j, by omega, by omega, hj3⟩
        · have hnone : ∀ m, i + 1 ≤ m → m < i + 1 + n → ZACTUAL_IS_SCALED s m = false := by
            intro m h1 h2
            by_contra hc
            exact hrest ⟨m, h1, h2, by simpa using hc⟩
          rw [scaledLoop_none s period n (i + 1) _ hnone]
          exact ⟨i, le_refl i, by omega, rfl⟩
    · rw [if_neg hsc]
      obtain ⟨m, hm1, hm2, hm3⟩ := h
      have hmi : m ≠ i := by
        rintro rfl
        exact hsc hm3
      obtain ⟨j, hj1, hj2, hj3⟩ := ih (i + 1) acc ⟨m, by omega, by omega, hm3⟩
      exact ⟨j, by omega, by omega, hj3⟩

/-- A completed insertion stores the sample in a cell of the table. -/
theorem insertInLut_stored (s s' : ZWobble α) (zRod zActual : α)
    (h : insertInLut s zRod zActual = some s') :
    ∃ i, i < s'.lutSize ∧ s'.zLut i = (zRod, zActual) := by
  cases hscan : scanFirst (fun i => EQUAL_WITHIN_TOLERANCE zRod (ZROD s i)) 0 s.lutSize with
  | some i =>
    rw [insertInLut_replace s zRod zActual i hscan] at h
    cases h
    obtain ⟨_, hi, _, _⟩ := scanFirst_eq_some hscan
    refine ⟨i, ?_, ?_⟩
    · show i < s.lutSize
      omega
    · simp
  | none =>
    by_cases hlt : s.lutSize < STEPS_IN_ZLUT
    · rcases findPlace_cases s zRod with ⟨_, hall⟩ | ⟨p, hpn, hp, _, _⟩
      · rw [insertInLut_append_none s zRod zActual hscan hlt hall] at h
        cases h
      · obtain ⟨s1, hs1, hsize, hcells⟩ :=
          insertInLut_ordered s zRod zActual hscan hlt p hp hpn.le
        rw [hs1] at h
        cases h
        refine ⟨p, by omega, ?_⟩
        rw [hcells p, if_pos rfl]
    · rw [insertInLut_full s zRod zActual hscan hlt] at h
      cases h
      have hcap : STEPS_IN_ZLUT ≤ s.lutSize := not_lt.mp hlt
      have h50 : 0 < STEPS_IN_ZLUT := by decide
      have hsp := (closestLoop_spec s zRod (s.lutSize - 1) 1 (0, DISTANCE zRod (ZROD s 0))
        Nat.zero_lt_one rfl (fun j hj => by
          have : j = 0 := by omega
          rw [this])).1
      refine ⟨(closestLoop s zRod 1 (s.lutSize - 1) (0, DISTANCE zRod (ZROD s 0))).1, ?_, ?_⟩
      · show (closestLoop s zRod 1 (s.lutSize - 1) (0, DISTANCE zRod (ZROD s 0))).1 < s.lutSize
        omega
      · simp

/-- With a positive pulsation a completed `setSample` stores the sample in a cell of the
table. -/
theorem setSample_stored (sin : α → α) (s s' : ZWobble α) (zRod zActual : α)
    (hw : 0 < s.m_puls) (h : setSample sin s zRod zActual = some s') :
    ∃ i, i < s'.lutSize ∧ s'.zLut i = (zRod, zActual) := by
  unfold setSample at h
  rw [if_neg (not_le.mpr hw)] at h
  exact insertInLut_stored _ _ _ _ h

/-- Without a scaled entry nothing is selected. -/
theorem scaledPair_none (s : ZWobble α)
    (h : ∀ m, m < s.lutSize → ZACTUAL_IS_SCALED s m = false) : scaledPair s = (-1, -1) :=
  scaledLoop_none s _ s.lutSize 0 _ (fun m _ h2 => h m (by omega))

/-- With a scaled entry in the table, `s2` is selected inside the table. -/
theorem scaledPair_found (s : ZWobble α)
    (h : ∃ m, m < s.lutSize ∧ ZACTUAL_IS_SCALED s m = true) :
    0 ≤ (scaledPair s).2 ∧ (scaledPair s).2.toNat < s.lutSize := by
  obtain ⟨m, hm1, hm2⟩ := h
  obtain ⟨j, _, hj2, hj3⟩ := scaledLoop_found s (TWOPI / s.m_puls) s.lutSize 0 (-1, -1)
    ⟨m, Nat.zero_le m, by omega, hm2⟩
  have e : (scaledPair s).2 = (j : Int) := hj3
  rw [e]
  exact ⟨by omega, by simp; omega⟩

/-- The selection of `setScaledSample`: `s2` is the first scaled entry whose rod reaches
the period, or else the last scaled entry, and `s1` the scaled entry before it. -/
theorem scaledPair_stop (s : ZWobble α) (j : Nat) (hjn : j < s.lutSize)
    (hj : ZACTUAL_IS_SCALED s j = true)
    (hbefore : ∀ m, m < j → ZACTUAL_IS_SCALED s m = true → ZROD s m < TWOPI / s.m_puls)
    (hstop : TWOPI / s.m_puls ≤ ZROD s j ∨
      ∀ m, j < m → m < s.lutSize → ZACTUAL_IS_SCALED s m = false) :
    (scaledPair s).2 = (j : Int) ∧
    ((∀ m, m < j → ZACTUAL_IS_SCALED s m = false) → (scaledPair s).1 = -1) ∧
    (∀ q, q < j → ZACTUAL_IS_SCALED s q = true →
      (∀ m, q < m → m < j → ZACTUAL_IS_SCALED s m = false) → (scaledPair s).1 = (q : Int)) := by
  obtain ⟨h2, h1a, h1b⟩ := scaledLoop_stop s (TWOPI / s.m_puls) s.lutSize 0 j (-1, -1)
    (Nat.zero_le j) (by omega) hj (fun m _ hm => hbefore m hm)
    (by
      rcases hstop with h | h
      · exact Or.inl h
      · exact Or.inr (fun m h1 h2 => h m h1 (by omega)))
  exact ⟨h2, fun hall => h1a (fun m _ hm => hall m hm),
    fun q hq hqs hb => h1b q (Nat.zero_le q) hq hqs hb⟩

/-- C15: `setScaledSample` stores the sample as a scaled entry and then resolves the
scaling factor (exact arithmetic, non-zero scaling factor).  The scan selects as `s2` the
first scaled entry whose rod reaches the period, or else the last scaled entry, and as
`s1` the scaled entry before it; with a positive pulsation and length the stored sample is
a scaled entry, so some `s2` is selected.  If only `s2` exists, its resolved actual value
equals its rod position (`scalingFactor' * raw(s2) = rod(s2)`); if both exist (at distinct
rods, with a non-zero value at the period), the straight line through
`(rod(s1), actual'(s1))` and `(rod(s2), actual'(s2))` under the new factor takes the value
`period` at `rod = period`, in the bracketing and in the both-below case alike.  Without a
scaled entry the factor is left alone.  Consequently running the resolution a second time
leaves a non-zero resolved scaling factor unchanged. -/
theorem C15_scaling_factor_anchor (sin : α → α) (s0 s : ZWobble α) (zRod zScaledLength : α)
    (hset : setSample sin s0 zRod (-zScaledLength) = some s)
    (hsf : s.m_scalingFactor ≠ 0) :
    setScaledSample sin s0 zRod zScaledLength = some (resolveScalingFactor s) ∧
    (0 < s0.m_puls → 0 < zScaledLength →
      ∃ i, i < s.lutSize ∧ s.zLut i = (zRod, -zScaledLength) ∧
        ZACTUAL_IS_SCALED s i = true ∧ 0 ≤ (scaledPair s).2 ∧
        (scaledPair s).2.toNat < s.lutSize) ∧
    ((∀ m, m < s.lutSize → ZACTUAL_IS_SCALED s m = false) →
      scaledPair s = (-1, -1) ∧ resolveScalingFactor s = s) ∧
    (∀ j, j < s.lutSize → ZACTUAL_IS_SCALED s j = true →
      (∀ m, m < j → ZACTUAL_IS_SCALED s m = true → ZROD s m < TWOPI / s.m_puls) →
      (TWOPI / s.m_puls ≤ ZROD s j ∨
        ∀ m, j < m → m < s.lutSize → ZACTUAL_IS_SCALED s m = false) →
      (scaledPair s).2 = (j : Int) ∧
      ((∀ m, m < j → ZACTUAL_IS_SCALED s m = false) →
        (scaledPair s).1 = -1 ∧
        (resolveScalingFactor s).m_scalingFactor * -(s.zLut j).2 = ZROD s j ∧
        ZACTUAL (resolveScalingFactor s) j = ZROD (resolveScalingFactor s) j) ∧
      (∀ q, q < j → ZACTUAL_IS_SCALED s q = true →
        (∀ m, q < m → m < j → ZACTUAL_IS_SCALED s m = false) →
        (scaledPair s).1 = (q : Int) ∧
        (ZROD s q ≠ ZROD s j → lineAt s q j (TWOPI / s.m_puls) ≠ 0 →
          lineAt (resolveScalingFactor s) q j (TWOPI / s.m_puls) = TWOPI / s.m_puls))) ∧
    (0 ≤ (scaledPair s).2 → (scaledPair s).1 < 0 →
      (resolveScalingFactor s).m_scalingFactor * -(s.zLut (scaledPair s).2.toNat).2
        = ZROD s (scaledPair s).2.toNat ∧
      ZACTUAL (resolveScalingFactor s) (scaledPair s).2.toNat
        = ZROD (resolveScalingFactor s) (scaledPair s).2.toNat) ∧
    (0 ≤ (scaledPair s).1 →
      ZROD s (scaledPair s).1.toNat ≠ ZROD s (scaledPair s).2.toNat →
      lineAt s (scaledPair s).1.toNat (scaledPair s).2.toNat (TWOPI / s.m_puls) ≠ 0 →
      lineAt (resolveScalingFactor s) (scaledPair s).1.toNat (scaledPair s).2.toNat
        (TWOPI / s.m_puls) = TWOPI / s.m_puls) ∧
    ((0 ≤ (scaledPair s).1 →
        ZROD s (scaledPair s).1.toNat ≠ ZROD s (scaledPair s).2.toNat ∧
        lineAt s (scaledPair s).1.toNat (scaledPair s).2.toNat (TWOPI / s.m_puls) ≠ 0) →
      (resolveScalingFactor s).m_scalingFactor ≠ 0 →
      resolveScalingFactor (resolveScalingFactor s) = resolveScalingFactor s) := by
  refine ⟨?_, fun hw hl => ?_, fun hnone => ?_, fun j hjn hj hbefore hstop => ?_,
    fun h2 h1 => resolve_single s hsf h2 h1,
    fun h1 hrod hline => resolve_pair s hsf h1 hrod hline,
    fun hpair hres => resolve_idempotent s hsf hpair hres⟩
  · unfold setScaledSample
    rw [hset]
  · obtain ⟨i, hi, hcell⟩ := setSample_stored sin s0 s zRod (-zScaledLength) hw hset
    have hsc : ZACTUAL_IS_SCALED s i = true := by
      unfold ZACTUAL_IS_SCALED
      rw [hcell]
      simpa using hl
    obtain ⟨hf1, hf2⟩ := scaledPair_found s ⟨i, hi, hsc⟩
    exact ⟨i, hi, hcell, hsc, hf1, hf2⟩
  · have hp := scaledPair_none s hnone
    refine ⟨hp, (resolveScalingFactor_eq s hsf).1 ?_⟩
    rw [hp]
    decide
  · obtain ⟨h2, h1a, h1b⟩ := scaledPair_stop s j hjn hj hbefore hstop
    have e2 : (scaledPair s).2.toNat = j := by rw [h2]; simp
    refine ⟨h2, fun hall => ?_, fun q hq hqs hb => ?_⟩
    · have h1 := h1a hall
      have hs := resolve_single s hsf (by rw [h2]; omega) (by rw [h1]; decide)
      rw [e2] at hs
      exact ⟨h1, hs⟩
    · have h1 := h1b q hq hqs hb
      have e1 : (scaledPair s).1.toNat = q := by rw [h1]; simp
      refine ⟨h1, fun hrod hline => ?_⟩
      have hp := resolve_pair s hsf (by rw [h1]; omega) (by rw [e1, e2]; exact hrod)
        (by rw [e1, e2]; exact hline)
      rw [e1, e2] at hp
      exact hp

end Selection

section SelectionWitness

theorem single_scaled (m : Nat) :
    ZACTUAL_IS_SCALED (sampledUnit (table3 ((0 : ℚ), (0 : ℚ)) (1 / 2, -3) (1, 1)) 3) m
      = decide (m = 1) := by
  unfold ZACTUAL_IS_SCALED sampledUnit table3
  by_cases h0 : m = 0
  · subst h0; norm_num
  by_cases h1 : m = 1
  · subst h1; norm_num
  by_cases h2 : m = 2
  · subst h2; norm_num
  simp [h0, h1, h2]

theorem pair_scaled (m : Nat) :
    ZACTUAL_IS_SCALED pairState m = decide (m = 1 ∨ m = 2) := by
  unfold ZACTUAL_IS_SCALED pairState sampledUnit table3
  by_cases h0 : m = 0
  · subst h0; norm_num
  by_cases h1 : m = 1
  · subst h1; norm_num
  by_cases h2 : m = 2
  · subst h2; norm_num
  simp [h0, h1, h2]

/-- The `setSample(1.0, -4.0)` inside `setScaledSample(1.0, 4.0)` on `scaledState` replaces
the entry at rod 1. -/
theorem setSample_pair :
    setSample (fun _ => (0 : ℚ)) scaledState 1 (-4) = some pairState := by
  have hp : ¬ scaledState.m_puls ≤ 0 := not_le.mpr TWOPI_pos
  have e : scaledState.lutSize = 0 + 1 + 1 + 1 := rfl
  have hscan : scanFirst (fun i => EQUAL_WITHIN_TOLERANCE (1 : ℚ) (ZROD scaledState i)) 0
      scaledState.lutSize = some 2 := by
    rw [e, scanFirst_miss _ _ _ (by
        norm_num [EQUAL_WITHIN_TOLERANCE, DISTANCE, TOLERANCE_MM, ZROD, scaledState,
          sampledUnit, table3]),
      scanFirst_miss _ _ _ (by
        norm_num [EQUAL_WITHIN_TOLERANCE, DISTANCE, TOLERANCE_MM, ZROD, scaledState,
          sampledUnit, table3]),
      scanFirst_hit _ _ _ (by
        norm_num [EQUAL_WITHIN_TOLERANCE, DISTANCE, TOLERANCE_MM, ZROD, scaledState,
          sampledUnit, table3])]
  unfold setSample
  rw [if_neg hp]
  have hmode : scaledState.m_sinusoidal = false := rfl
  simp only [hmode, Bool.false_eq_true, if_false]
  rw [insertInLut_replace scaledState 1 (-4) 2 hscan]
  congr 1
  unfold pairState scaledState sampledUnit SET_ZACTUAL SET_ZROD
  congr 1
  funext j
  simp only [table3]
  by_cases h0 : j = 0
  · subst h0; simp
  by_cases h1 : j = 1
  · subst h1; simp
  by_cases h2 : j = 2
  · subst h2; simp
  simp [h0, h1, h2]

/-- Witness of C15: `setScaledSample(0.5, 3.0)` on the identity table `{(0,0),(1,1)}`
stores `(0.5, -3)`; the scan selects it alone and the resolved factor maps 3 to the rod
0.5.  A following `setScaledSample(1.0, 4.0)` replaces the entry at rod 1 by `(1, -4)`;
the scan selects the entries 1 and 2, and under the resolved factor the line through them
takes the value 1 at the period 1. -/
theorem C15_scaling_factor_anchor_witness :
    setSample (fun _ => (0 : ℚ)) identityState (1 / 2) (-3)
      = some (sampledUnit (table3 (0, 0) (1 / 2, -3) (1, 1)) 3) ∧
    (sampledUnit (table3 ((0 : ℚ), (0 : ℚ)) (1 / 2, -3) (1, 1)) 3).m_scalingFactor ≠ 0 ∧
    scaledPair (sampledUnit (table3 ((0 : ℚ), (0 : ℚ)) (1 / 2, -3) (1, 1)) 3) = (-1, 1) ∧
    (resolveScalingFactor
      (sampledUnit (table3 ((0 : ℚ), (0 : ℚ)) (1 / 2, -3) (1, 1)) 3)).m_scalingFactor * 3
        = 1 / 2 ∧
    setSample (fun _ => (0 : ℚ)) scaledState 1 (-4) = some pairState ∧
    pairState.m_scalingFactor ≠ 0 ∧
    scaledPair pairState = (1, 2) ∧
    lineAt (resolveScalingFactor pairState) 1 2 (TWOPI / pairState.m_puls)
      = TWOPI / pairState.m_puls := by
  have hset1 : setSample (fun _ => (0 : ℚ)) identityState (1 / 2) (-3)
      = some (sampledUnit (table3 (0, 0) (1 / 2, -3) (1, 1)) 3) :=
    setSample_between _ (1 / 2) (-3) (by norm_num) (by norm_num)
  have hsf1 : (sampledUnit (table3 ((0 : ℚ), (0 : ℚ)) (1 / 2, -3) (1, 1)) 3).m_scalingFactor
      ≠ 0 := by norm_num [sampledUnit]
  have hsf2 : pairState.m_scalingFactor ≠ 0 := by norm_num [pairState]
  have hP : TWOPI / pairState.m_puls = 1 := div_self (ne_of_gt TWOPI_pos)
  have hP1 : TWOPI / (sampledUnit (table3 ((0 : ℚ), (0 : ℚ)) (1 / 2, -3) (1, 1)) 3).m_puls
      = 1 := div_self (ne_of_gt TWOPI_pos)
  have c1 := (C15_scaling_factor_anchor (fun _ => (0 : ℚ)) identityState _ (1 / 2) 3
    hset1 hsf1).2.2.2.1 1 (by decide) (by rw [single_scaled]; decide)
    (fun m hm _ => by
      have : m = 0 := by omega
      subst this
      rw [hP1]
      norm_num [ZROD, sampledUnit, table3])
    (Or.inr (fun m h1 h2 => by
      have h3 : m < 3 := h2
      have : m = 2 := by omega
      subst this
      rw [single_scaled]; decide))
  have c1a := c1.2.1 (fun m hm => by
    have : m = 0 := by omega
    subst this
    rw [single_scaled]; decide)
  have c2 := (C15_scaling_factor_anchor (fun _ => (0 : ℚ)) scaledState _ 1 4
    setSample_pair hsf2).2.2.2.1 2 (by decide) (by rw [pair_scaled]; decide)
    (fun m hm _ => by
      rw [hP]
      interval_cases m <;> norm_num [ZROD, pairState, sampledUnit, table3])
    (Or.inl (by rw [hP]; norm_num [ZROD, pairState, sampledUnit, table3]))
  have c2q := c2.2.2 1 (by decide) (by rw [pair_scaled]; decide) (fun m h1 h2 => by omega)
  refine ⟨hset1, hsf1, ?_, ?_, setSample_pair, hsf2, ?_, ?_⟩
  · exact Prod.ext c1a.1 c1.1
  · have h := c1a.2.1
    have e : -((sampledUnit (table3 ((0 : ℚ), (0 : ℚ)) (1 / 2, -3) (1, 1)) 3).zLut 1).2
        = 3 := by norm_num [sampledUnit, table3]
    have e' : ZROD (sampledUnit (table3 ((0 : ℚ), (0 : ℚ)) (1 / 2, -3) (1, 1)) 3) 1
        = 1 / 2 := by norm_num [ZROD, sampledUnit, table3]
    rw [e, e'] at h
    exact h
  · exact Prod.ext c2q.1 c2.1
  · apply c2q.2
    · norm_num [ZROD, pairState, sampledUnit, table3]
    · rw [hP]
      norm_num [lineAt, ZACTUAL, ZROD, pairState, sampledUnit, table3]

end SelectionWitness

end ZWobble
